import Mathlib

/-!
# FreeTypeGX (source/FreeTypeGX.cpp): glyph cache, layout and text drawing

A shallow embedding of the glyph cache of `FreeTypeGX`, of the layout
routines `getWidth`, `getOffset`, `getHeight`, of `drawText`, of the style
offset helpers and of the UTF-8 decoder `UTF8_to_UNICODE`, followed by
theorems about them.

Conventions.
* Machine integers are `Nat` / `Int` with the wrap-around written out
  (`toU16`, `toI16`).
* The FreeType face and the Xenos graphics device are collaborators; what
  they answer is a parameter (`Env`).
* Every operation returns an `Out`: its C return value, the state after the
  call and the collaborator calls it issued, in order.
* A text is the list of `wchar_t` values of the buffer; the loops stop at the
  first zero (`cstr`).
-/

namespace FreeTypeGX

/-! ## Machine integers -/

/-- Conversion of an integer to `uint16_t`. -/
def toU16 (z : Int) : Nat := (z % 65536).toNat

/-- Conversion of an integer to `int16_t` (two's complement wrap). -/
def toI16 (z : Int) : Int := (z + 32768) % 65536 - 32768

/-- The expression `(n + 31) &~ 31`. -/
def align32 (n : Nat) : Nat := (n + 31) - (n + 31) % 32

/-! ## The rasterizer collaborator (FreeType) -/

/-- The glyph formats of FreeType (`FT_Glyph_Format`). -/
inductive FT_Glyph_Format where
  | FT_GLYPH_FORMAT_NONE
  | FT_GLYPH_FORMAT_COMPOSITE
  | FT_GLYPH_FORMAT_BITMAP
  | FT_GLYPH_FORMAT_OUTLINE
  | FT_GLYPH_FORMAT_PLOTTER
deriving DecidableEq

/-- A rendered bitmap (`FT_Bitmap`): `buffer` holds the grayscale bytes. -/
structure FT_Bitmap where
  rows : Nat
  width : Nat
  pitch : Int
  buffer : List Nat
deriving DecidableEq

/-- Glyph metrics in 26.6 fixed point (`FT_Glyph_Metrics`). -/
structure FT_Glyph_Metrics where
  width : Int
  height : Int
  horiBearingX : Int
  horiBearingY : Int
  horiAdvance : Int
  vertBearingX : Int
  vertBearingY : Int
  vertAdvance : Int
deriving DecidableEq

/-- The fields of the glyph slot `ftSlot` that the source reads after a
successful `FT_Load_Glyph`. -/
structure FT_GlyphSlot where
  format : FT_Glyph_Format
  bitmap : FT_Bitmap
  bitmap_left : Int
  bitmap_top : Int
  advance_x : Int
  metrics : FT_Glyph_Metrics
deriving DecidableEq

/-- What the face `ftFace` answers at the current pixel size.
`loadGlyph g` is `FT_Load_Glyph(ftFace, g, FT_LOAD_DEFAULT | FT_LOAD_RENDER)`:
`none` when it returns an error, otherwise the slot it leaves behind.
`kerningX l r` is the `x` of `FT_Get_Kerning(ftFace, l, r, FT_KERNING_DEFAULT, _)`. -/
structure FT_Face where
  charIndex : Nat → Nat
  loadGlyph : Nat → Option FT_GlyphSlot
  kerningX : Nat → Nat → Int
  hasKerning : Bool
  ascender : Int
  descender : Int

/-! ## The graphics-device collaborator (Xenos) -/

/-- A texture surface (`struct XenosSurface`): logical size, allocated pitches
and the bytes of `base`. -/
structure XenosSurface where
  width : Nat
  height : Nat
  wpitch : Nat
  hpitch : Nat
  use_filtering : Nat
  clamped : Bool
  base : List Nat
deriving DecidableEq

/-- The pitches `Xe_CreateTexture` allocates for a logical width and height. -/
structure XenosDevice where
  wpitch : Nat → Nat
  hpitch : Nat → Nat

/-- The collaborator calls that the operations issue. -/
inductive Event where
  | FT_Load_Glyph (gIndex : Nat)
  | Xe_CreateTexture (handle width height : Nat)
  | Xe_DestroyTexture (handle : Nat)
  | Xe_Surface_LockRect (handle : Nat)
  | Xe_Surface_Unlock (handle : Nat)
  | Menu_T (handle width height : Nat) (x y : Int) (color : Nat)
deriving DecidableEq

/-! ## Header constants and record types -/

/-- Modelled from the spec: the `FTGX_*` style constants of `FreeTypeGX.h`,
which is not part of the sources at hand. The spec only says that the style
word holds a justification group, an alignment group and a style group; the
values are kept as parameters. -/
structure StyleFlags where
  FTGX_JUSTIFY_LEFT : Nat
  FTGX_JUSTIFY_CENTER : Nat
  FTGX_JUSTIFY_RIGHT : Nat
  FTGX_JUSTIFY_MASK : Nat
  FTGX_ALIGN_TOP : Nat
  FTGX_ALIGN_MIDDLE : Nat
  FTGX_ALIGN_BOTTOM : Nat
  FTGX_ALIGN_BASELINE : Nat
  FTGX_ALIGN_GLYPH_TOP : Nat
  FTGX_ALIGN_GLYPH_MIDDLE : Nat
  FTGX_ALIGN_GLYPH_BOTTOM : Nat
  FTGX_ALIGN_MASK : Nat
  FTGX_STYLE_MASK : Nat

/-- Modelled from the spec: the glyph record `ftgxCharData` of `FreeTypeGX.h`
(the spec's GlyphRecord), which is not part of the sources at hand. The fields
are the ones the source reads, in the order of the positional initialiser of
`cacheGlyphData`; the offsets, the advance and the texture size are 16-bit,
the glyph index 32-bit, `glyphDataTexture` is a nullable surface handle and
`be` the raw metrics. The last field is only ever written. -/
structure ftgxCharData where
  renderOffsetX : Int
  glyphAdvanceX : Nat
  glyphIndex : Nat
  textureWidth : Nat
  textureHeight : Nat
  renderOffsetY : Int
  renderOffsetMax : Int
  renderOffsetMin : Int
  glyphDataTexture : Option Nat
  be : FT_Glyph_Metrics
  bitmapTop : Int
deriving DecidableEq

/-- The value-initialised record that `std::map::operator[]` inserts for a
key that is not in the map. -/
def ftgxCharData.zero : ftgxCharData :=
  ⟨0, 0, 0, 0, 0, 0, 0, 0, none, ⟨0, 0, 0, 0, 0, 0, 0, 0⟩, 0⟩

/-- Modelled from the spec: the extent record `ftgxDataOffset` of
`FreeTypeGX.h` (the spec's LayoutExtent), with 16-bit signed fields. -/
structure ftgxDataOffset where
  ascender : Int
  descender : Int
  max : Int
  min : Int
deriving DecidableEq

/-! ## `std::map<wchar_t, _>` as a key-ordered association list -/

/-- The iterator test `m.find(k) != m.end()`, returning the mapped value. -/
def mapFind {α : Type} (k : Nat) : List (Nat × α) → Option α
  | [] => none
  | (k', v) :: rest => if k = k' then some v else mapFind k rest

/-- The assignment `m[k] = v`: replaces the value under `k` or inserts the
pair at its place in key order. -/
def mapSet {α : Type} (k : Nat) (v : α) : List (Nat × α) → List (Nat × α)
  | [] => [(k, v)]
  | (k', v') :: rest =>
    if k < k' then (k, v) :: (k', v') :: rest
    else if k = k' then (k, v) :: rest
    else (k', v') :: mapSet k v rest

/-- Removal of the pair under `k`. -/
def mapErase {α : Type} (k : Nat) : List (Nat × α) → List (Nat × α)
  | [] => []
  | (k', v') :: rest => if k = k' then mapErase k rest else (k', v') :: mapErase k rest

/-! ## State -/

/-- The font instance together with the globals it works on: the glyph map
`fontData`, the kerning flag, whether the global scratch buffer `glyphData`
is allocated, and the textures that are live on `g_pVideoDevice`
(`nextSurface` numbers the surfaces the device hands out). -/
structure State where
  ftPointSize : Nat
  vertexIndex : Nat
  ftKerningEnabled : Bool
  fontData : List (Nat × ftgxCharData)
  glyphData : Bool
  surfaces : List (Nat × XenosSurface)
  nextSurface : Nat
deriving DecidableEq

/-- The collaborators and header constants of one run. -/
structure Env where
  face : FT_Face
  xe : XenosDevice
  K : StyleFlags

/-- Result of an operation: return value, state after it, calls issued. -/
structure Out (α : Type) where
  val : α
  st : State
  ev : List Event

/-- The record a pointer into the map refers to: `this->fontData[k]` for a
key that is present. -/
def deref (s : State) (k : Nat) : ftgxCharData :=
  (mapFind k s.fontData).getD ftgxCharData.zero

/-- Reading through `this->fontData[k]`: a key that is absent is inserted
with a value-initialised record first. -/
def fontDataIndex (s : State) (k : Nat) : ftgxCharData × State :=
  match mapFind k s.fontData with
  | some r => (r, s)
  | none => (ftgxCharData.zero, { s with fontData := mapSet k ftgxCharData.zero s.fontData })

/-- The constructor `FreeTypeGX(pixelSize, vertexIndex)` on a device without
textures; `mallocOk` tells whether the scratch buffer could be allocated. -/
def construct (E : Env) (pixelSize vertexIndex : Nat) (mallocOk : Bool) : State :=
  { ftPointSize := pixelSize
    vertexIndex := vertexIndex
    ftKerningEnabled := E.face.hasKerning
    fontData := []
    glyphData := mallocOk
    surfaces := []
    nextSurface := 0 }

/-! ## Graphics-device calls -/

/-- The call `Xe_CreateTexture(g_pVideoDevice, width, height, 0, XE_FMT_8, 0)`:
a new surface with the pitches of the device. Its bytes are unspecified until
written; both callers clear them at once, so they start as zeros here. -/
def Xe_CreateTexture (E : Env) (s : State) (width height : Nat) : Out Nat :=
  let tex : XenosSurface :=
    { width := width
      height := height
      wpitch := E.xe.wpitch width
      hpitch := E.xe.hpitch height
      use_filtering := 1
      clamped := false
      base := List.replicate (E.xe.hpitch height * E.xe.wpitch width) 0 }
  { val := s.nextSurface
    st := { s with surfaces := mapSet s.nextSurface tex s.surfaces
                   nextSurface := s.nextSurface + 1 }
    ev := [Event.Xe_CreateTexture s.nextSurface width height] }

/-- The call `Xe_DestroyTexture(g_pVideoDevice, t)`. -/
def Xe_DestroyTexture (s : State) (t : Nat) : Out Unit :=
  { val := ()
    st := { s with surfaces := mapErase t s.surfaces }
    ev := [Event.Xe_DestroyTexture t] }

/-! ## `loadGlyphData` (lines 245-327) -/

/-- The byte `src[i]` of a bitmap buffer (0 outside the buffer). -/
def readByte (src : List Nat) (i : Int) : Nat :=
  if 0 ≤ i then src.getD i.toNat 0 else 0

/-- Lines 318-321: `for (x = 0; x < bmp->width; x++) if (dst < dst_limit) *dst++ = *src++;`
with `n` iterations left, `si` and `d` the offsets of `src` and `dst`. -/
def copyRow (src : List Nat) (limit : Nat) : Nat → Int → Nat → List Nat → List Nat
  | 0, _, _, buf => buf
  | n + 1, si, d, buf =>
    if d < limit then copyRow src limit n (si + 1) (d + 1) (buf.set d (readByte src si))
    else copyRow src limit n si d buf

/-- Lines 315-322: the loop over `wpitch`, stepping by the logical width. The
first argument bounds the number of iterations (`tex.wpitch` is enough as soon
as the logical width is not 0). -/
def copyTiles (bmp : FT_Bitmap) (tex : XenosSurface) (limit y rowBase : Nat) :
    Nat → Nat → List Nat → List Nat
  | 0, _, buf => buf
  | fuel + 1, wpitch, buf =>
    if wpitch < tex.wpitch then
      copyTiles bmp tex limit y rowBase fuel (wpitch + tex.width)
        (copyRow bmp.buffer limit bmp.width ((y : Int) * bmp.pitch) (rowBase * tex.wpitch + wpitch) buf)
    else buf

/-- Lines 313-323: the loop over the bitmap rows `y` (with `dsty = y`), `n`
rows left. -/
def copyRows (bmp : FT_Bitmap) (tex : XenosSurface) (limit hpitch : Nat) :
    Nat → Nat → List Nat → List Nat
  | 0, _, buf => buf
  | n + 1, y, buf =>
    copyRows bmp tex limit hpitch n (y + 1)
      (copyTiles bmp tex limit y (y + hpitch) tex.wpitch 0 buf)

/-- Lines 307-324: the loop over `hpitch`, stepping by the logical height. -/
def copyBlocks (bmp : FT_Bitmap) (tex : XenosSurface) (limit : Nat) :
    Nat → Nat → List Nat → List Nat
  | 0, _, buf => buf
  | fuel + 1, hpitch, buf =>
    if hpitch < tex.hpitch then
      copyBlocks bmp tex limit fuel (hpitch + tex.height)
        (copyRows bmp tex limit hpitch bmp.rows 0 buf)
    else buf

/-- Lines 276-324 on a locked surface: clear all `hpitch * wpitch` bytes,
then run the copy loops with `dst_limit` at the end of the surface. -/
def packBitmap (bmp : FT_Bitmap) (tex : XenosSurface) : List Nat :=
  copyBlocks bmp tex (tex.hpitch * tex.wpitch) tex.hpitch 0
    (List.replicate (tex.hpitch * tex.wpitch) 0)

/-- The method `loadGlyphData(bmp, charData)`, `charData` pointing at the
record under `key`. The `memset` of the scratch buffer `glyphData` (line 271)
is left out: the buffer is never read. -/
def loadGlyphData (E : Env) (bmp : FT_Bitmap) (s : State) (key : Nat) : Out Unit :=
  let charData := deref s key
  if charData.textureWidth = 0 ∨ charData.textureHeight = 0 then ⟨(), s, []⟩
  else if s.glyphData = false then ⟨(), s, []⟩
  else
    let w := charData.textureWidth
    let h := charData.textureHeight
    let d : Out Unit :=
      match charData.glyphDataTexture with
      | some t => Xe_DestroyTexture s t
      | none => ⟨(), s, []⟩
    let c := Xe_CreateTexture E d.st (align32 w) (align32 h)
    let tex0 := (mapFind c.val c.st.surfaces).getD ⟨0, 0, 0, 0, 0, false, []⟩
    let tex1 := { tex0 with use_filtering := 0, clamped := true }
    let tex2 := { tex1 with base := packBitmap bmp tex1 }
    { val := ()
      st := { c.st with
                fontData := mapSet key { charData with glyphDataTexture := some c.val } c.st.fontData
                surfaces := mapSet c.val tex2 c.st.surfaces }
      ev := d.ev ++ c.ev ++ [Event.Xe_Surface_LockRect c.val, Event.Xe_Surface_Unlock c.val] }

/-! ## `cacheGlyphData` (lines 181-214) and `unloadFont` (lines 131-140) -/

/-- The identity `adjustTextureWidth` on `uint16_t`. -/
def adjustTextureWidth (textureWidth : Nat) : Nat := textureWidth

/-- The identity `adjustTextureHeight` on `uint16_t`. -/
def adjustTextureHeight (textureHeight : Nat) : Nat := textureHeight

/-- The record that `cacheGlyphData` assigns to `fontData[charCode]` from the
glyph slot (lines 196-208), each value converted to the type of its field. -/
def recordOfSlot (gIndex : Nat) (slot : FT_GlyphSlot) : ftgxCharData :=
  { renderOffsetX := toI16 slot.bitmap_left
    glyphAdvanceX := toU16 (slot.advance_x >>> 6)
    glyphIndex := gIndex
    textureWidth := adjustTextureWidth (toU16 slot.bitmap.width)
    textureHeight := adjustTextureHeight (toU16 slot.bitmap.rows)
    renderOffsetY := toI16 slot.bitmap_top
    renderOffsetMax := toI16 slot.bitmap_top
    renderOffsetMin := toI16 ((slot.bitmap.rows : Int) - slot.bitmap_top)
    glyphDataTexture := none
    be := slot.metrics
    bitmapTop := slot.bitmap_top }

/-- The method `cacheGlyphData(charCode)`; the pointer it returns is the key
of the record (`none` for `NULL`). -/
def cacheGlyphData (E : Env) (s : State) (charCode : Nat) : Out (Option Nat) :=
  let gIndex := E.face.charIndex charCode
  match E.face.loadGlyph gIndex with
  | none => ⟨none, s, [Event.FT_Load_Glyph gIndex]⟩
  | some slot =>
    if slot.format = FT_Glyph_Format.FT_GLYPH_FORMAT_BITMAP then
      let s1 := { s with fontData := mapSet charCode (recordOfSlot gIndex slot) s.fontData }
      let l := loadGlyphData E slot.bitmap s1 charCode
      ⟨some charCode, l.st, Event.FT_Load_Glyph gIndex :: l.ev⟩
    else ⟨none, s, [Event.FT_Load_Glyph gIndex]⟩

/-- The textures that `unloadFont` destroys for the records of a map, in
iteration order. -/
def ownedTextures (m : List (Nat × ftgxCharData)) : List Nat :=
  m.filterMap (fun p => p.2.glyphDataTexture)

/-- The method `unloadFont()`. -/
def unloadFont (s : State) : Out Unit :=
  if s.fontData.length = 0 then ⟨(), s, []⟩
  else
    { val := ()
      st := { s with fontData := []
                     surfaces := (ownedTextures s.fontData).foldl (fun m t => mapErase t m) s.surfaces }
      ev := (ownedTextures s.fontData).map Event.Xe_DestroyTexture }

/-! ## Layout: `getWidth`, `getOffset`, `getHeight` (lines 463-552) -/

/-- The characters a `while (text[i])` loop visits: those before the first 0. -/
def cstr (text : List Nat) : List Nat := text.takeWhile (fun c => c ≠ 0)

/-- The lookup that `getWidth`, `getOffset` and `drawText` each perform on
`text[i]` (lines 469-474, 535-540, 415-420): the record in the map if there
is one, `cacheGlyphData` otherwise. -/
def findOrCache (E : Env) (s : State) (c : Nat) : Out (Option Nat) :=
  match mapFind c s.fontData with
  | some _ => ⟨some c, s, []⟩
  | none => cacheGlyphData E s c

/-- The kerning term of lines 477-480 and 423-426 for the glyph under `k`:
`none` when kerning is off or `i` is 0, otherwise `pairDelta.x >> 6` for the
glyph indices `this->fontData[text[i - 1]].glyphIndex` and
`glyphData->glyphIndex`, `prev` being `text[i - 1]`. -/
def kerningDelta (E : Env) (s : State) (prev : Option Nat) (k : Nat) : Option Int × State :=
  if s.ftKerningEnabled then
    match prev with
    | some p =>
      (some (E.face.kerningX (fontDataIndex s p).1.glyphIndex
              (deref (fontDataIndex s p).2 k).glyphIndex >>> 6),
       (fontDataIndex s p).2)
    | none => (none, s)
  else (none, s)

/-- The `+=` of a kerning term on a `uint16_t`. -/
def addKerning (acc : Nat) : Option Int → Nat
  | some d => toU16 ((acc : Int) + d)
  | none => acc

/-- The loop of `getWidth` on the characters still to visit, with
`prev = text[i - 1]` (`none` at `i = 0`) and the running `strWidth`. -/
def getWidthLoop (E : Env) : List Nat → Option Nat → State → Nat → Out Nat
  | [], _, s, strWidth => ⟨strWidth, s, []⟩
  | c :: rest, prev, s, strWidth =>
    let g := findOrCache E s c
    match g.val with
    | none =>
      let r := getWidthLoop E rest (some c) g.st strWidth
      ⟨r.val, r.st, g.ev ++ r.ev⟩
    | some k =>
      let kd := kerningDelta E g.st prev k
      let w1 := addKerning strWidth kd.1
      let r := getWidthLoop E rest (some c) kd.2
        (toU16 ((w1 : Int) + ((deref kd.2 k).glyphAdvanceX : Int)))
      ⟨r.val, r.st, g.ev ++ r.ev⟩

/-- The method `getWidth(text)`. -/
def getWidth (E : Env) (s : State) (text : List Nat) : Out Nat :=
  getWidthLoop E (cstr text) none s 0

/-- The loop of `getOffset` with the running `strMax` and `strMin`. -/
def getOffsetLoop (E : Env) : List Nat → State → Int → Int → Out (Int × Int)
  | [], s, strMax, strMin => ⟨(strMax, strMin), s, []⟩
  | c :: rest, s, strMax, strMin =>
    let g := findOrCache E s c
    match g.val with
    | none =>
      let r := getOffsetLoop E rest g.st strMax strMin
      ⟨r.val, r.st, g.ev ++ r.ev⟩
    | some k =>
      let gd := deref g.st k
      let r := getOffsetLoop E rest g.st
        (if gd.renderOffsetMax > strMax then gd.renderOffsetMax else strMax)
        (if gd.renderOffsetMin < strMin then gd.renderOffsetMin else strMin)
      ⟨r.val, r.st, g.ev ++ r.ev⟩

/-- The method `getOffset(wchar_t *text, ftgxDataOffset *offset)`; the value
is what it writes to `*offset`. -/
def getOffset (E : Env) (s : State) (text : List Nat) : Out ftgxDataOffset :=
  let r := getOffsetLoop E (cstr text) s 0 9999
  { val :=
      { ascender := toI16 (E.face.ascender >>> 6)
        descender := toI16 (E.face.descender >>> 6)
        max := r.val.1
        min := r.val.2 }
    st := r.st
    ev := r.ev }

/-- The method `getHeight(wchar_t *text)`. -/
def getHeight (E : Env) (s : State) (text : List Nat) : Out Nat :=
  let o := getOffset E s text
  ⟨toU16 (o.val.max - o.val.min), o.st, o.ev⟩

/-! ## Style offsets (lines 337-380) -/

/-- The method `getStyleOffsetWidth(width, format)` on `uint16_t` arguments,
returning `int16_t`. -/
def getStyleOffsetWidth (K : StyleFlags) (width format : Nat) : Int :=
  if format &&& K.FTGX_JUSTIFY_LEFT ≠ 0 then 0
  else if format &&& K.FTGX_JUSTIFY_CENTER ≠ 0 then toI16 (-((width >>> 1 : Nat) : Int))
  else if format &&& K.FTGX_JUSTIFY_RIGHT ≠ 0 then toI16 (-(width : Int))
  else 0

/-- The method `getStyleOffsetHeight(offset, format)`, returning `int16_t`. -/
def getStyleOffsetHeight (K : StyleFlags) (offset : ftgxDataOffset) (format : Nat) : Int :=
  if format &&& K.FTGX_ALIGN_MASK = K.FTGX_ALIGN_TOP then offset.ascender
  else if format &&& K.FTGX_ALIGN_MASK = K.FTGX_ALIGN_MIDDLE then
    toI16 ((offset.ascender + offset.descender + 1) >>> 1)
  else if format &&& K.FTGX_ALIGN_MASK = K.FTGX_ALIGN_BOTTOM then offset.descender
  else if format &&& K.FTGX_ALIGN_MASK = K.FTGX_ALIGN_BASELINE then 0
  else if format &&& K.FTGX_ALIGN_MASK = K.FTGX_ALIGN_GLYPH_TOP then offset.max
  else if format &&& K.FTGX_ALIGN_MASK = K.FTGX_ALIGN_GLYPH_MIDDLE then
    toI16 ((offset.max + offset.min + 1) >>> 1)
  else if format &&& K.FTGX_ALIGN_MASK = K.FTGX_ALIGN_GLYPH_BOTTOM then offset.min
  else toI16 ((offset.ascender + offset.descender + 1) >>> 1)

/-! ## `drawText` (lines 395-445) -/

/-- The `Menu_T` call of lines 427-433 for the record `gd`, if it owns a
texture. -/
def drawGlyph (s : State) (gd : ftgxCharData) (x_pos x_offset y_offset : Nat) (y : Int)
    (color : Nat) : List Event :=
  match gd.glyphDataTexture with
  | some t =>
    let tex := (mapFind t s.surfaces).getD ⟨0, 0, 0, 0, 0, false, []⟩
    [Event.Menu_T t tex.width tex.height
      ((x_pos : Int) + gd.renderOffsetX + (x_offset : Int))
      (y - (gd.be.horiBearingY >>> 6) + (y_offset : Int)) color]
  | none => []

/-- The loop of `drawText` with `prev = text[i - 1]`, the cursor `x_pos` and
the counter `printed`; the value is the final `(x_pos, printed)`. -/
def drawLoop (E : Env) (y : Int) (color x_offset y_offset : Nat) :
    List Nat → Option Nat → State → Nat → Nat → Out (Nat × Nat)
  | [], _, s, x_pos, printed => ⟨(x_pos, printed), s, []⟩
  | c :: rest, prev, s, x_pos, printed =>
    let g := findOrCache E s c
    match g.val with
    | none =>
      let r := drawLoop E y color x_offset y_offset rest (some c) g.st x_pos printed
      ⟨r.val, r.st, g.ev ++ r.ev⟩
    | some k =>
      let kd := kerningDelta E g.st prev k
      let x1 := addKerning x_pos kd.1
      let gd := deref kd.2 k
      let r := drawLoop E y color x_offset y_offset rest (some c) kd.2
        (toU16 ((x1 : Int) + (gd.glyphAdvanceX : Int))) (toU16 ((printed : Int) + 1))
      ⟨r.val, r.st, g.ev ++ drawGlyph kd.2 gd x1 x_offset y_offset y color ++ r.ev⟩

/-- Lines 405-407: the justification pass, giving `x_offset` (0 when the
style word has no justification bit). -/
def justifyPass (E : Env) (s : State) (text : List Nat) (textStyle : Nat) : Out Nat :=
  if textStyle &&& E.K.FTGX_JUSTIFY_MASK ≠ 0 then
    ⟨toU16 (getStyleOffsetWidth E.K (getWidth E s text).val textStyle),
      (getWidth E s text).st, (getWidth E s text).ev⟩
  else ⟨0, s, []⟩

/-- Lines 408-411: the alignment pass, giving `y_offset` (0 when the style
word has no alignment bit). -/
def alignPass (E : Env) (s : State) (text : List Nat) (textStyle : Nat) : Out Nat :=
  if textStyle &&& E.K.FTGX_ALIGN_MASK ≠ 0 then
    ⟨toU16 (getStyleOffsetHeight E.K (getOffset E s text).val textStyle),
      (getOffset E s text).st, (getOffset E s text).ev⟩
  else ⟨0, s, []⟩

/-- Lines 440-442: the extent pass after the loop when a style bit is set. -/
def stylePass (E : Env) (s : State) (text : List Nat) (textStyle : Nat) : Out Unit :=
  if textStyle &&& E.K.FTGX_STYLE_MASK ≠ 0 then
    ⟨(), (getOffset E s text).st, (getOffset E s text).ev⟩
  else ⟨(), s, []⟩

/-- The state in which the loop of `drawText` starts: after the
justification and alignment passes. -/
def drawStart (E : Env) (s : State) (text : List Nat) (textStyle : Nat) : State :=
  (alignPass E (justifyPass E s text textStyle).st text textStyle).st

/-- The body of `drawText(x, y, text, color, textStyle)`; the value is the
final cursor `x_pos` together with `printed`. -/
def drawTextRun (E : Env) (s : State) (x y : Int) (text : List Nat) (color textStyle : Nat) :
    Out (Nat × Nat) :=
  let j := justifyPass E s text textStyle
  let a := alignPass E j.st text textStyle
  let l := drawLoop E y color j.val a.val (cstr text) none a.st (toU16 x) 0
  let t := stylePass E l.st text textStyle
  ⟨l.val, t.st, j.ev ++ a.ev ++ l.ev ++ t.ev⟩

/-- The method `drawText(x, y, text, color, textStyle)`: it returns `printed`. -/
def drawText (E : Env) (s : State) (x y : Int) (text : List Nat) (color textStyle : Nat) :
    Out Nat :=
  ⟨(drawTextRun E s x y text color textStyle).val.2,
    (drawTextRun E s x y text color textStyle).st,
    (drawTextRun E s x y text color textStyle).ev⟩

/-! ## Notions used in the statements -/

/-- The rasterizer loads the glyph of `c` and renders it in bitmap format:
the condition under which `cacheGlyphData` stores a record. -/
def rasterOK (E : Env) (c : Nat) : Bool :=
  match E.face.loadGlyph (E.face.charIndex c) with
  | some slot => decide (slot.format = FT_Glyph_Format.FT_GLYPH_FORMAT_BITMAP)
  | none => false

/-- The texture handle a record gets when it is cached in state `s`: a new
surface unless a stored dimension is 0 or the scratch buffer is missing. -/
def textureAfterCache (s : State) (slot : FT_GlyphSlot) : Option Nat :=
  if toU16 slot.bitmap.width = 0 ∨ toU16 slot.bitmap.rows = 0 ∨ s.glyphData = false then none
  else some s.nextSurface

/-- The advance of `c` in pixels as the face gives it: `advance.x >> 6` in a
`uint16_t` (0 if the glyph does not load). -/
def advanceOf (E : Env) (c : Nat) : Nat :=
  match E.face.loadGlyph (E.face.charIndex c) with
  | some slot => toU16 (slot.advance_x >>> 6)
  | none => 0

/-- Sum of the advances of the characters of a text. -/
def advanceSum (E : Env) : List Nat → Int
  | [] => 0
  | c :: rest => (advanceOf E c : Int) + advanceSum E rest

/-- Sum over adjacent characters of `kerning.x >> 6` between their glyph
indices. -/
def kerningSum (E : Env) : List Nat → Int
  | a :: b :: rest =>
    (E.face.kerningX (E.face.charIndex a) (E.face.charIndex b) >>> 6) + kerningSum E (b :: rest)
  | _ => 0

/-- The records of the map agree with the face: a record under a code that
renders carries the advance and glyph index the face gives for it. -/
def CacheSound (E : Env) (s : State) : Prop :=
  ∀ c r, mapFind c s.fontData = some r → rasterOK E c = true →
    r.glyphAdvanceX = advanceOf E c ∧ r.glyphIndex = E.face.charIndex c

/-- The code `c` has a record or cannot be rendered: looking it up again
leaves the state alone. -/
def Settled (E : Env) (s : State) (c : Nat) : Prop :=
  (mapFind c s.fontData).isSome = true ∨ rasterOK E c = false

/-- Every key of the map of `s` is a key of the map of `t`. -/
def Grows (s t : State) : Prop :=
  ∀ k, (mapFind k s.fontData).isSome = true → (mapFind k t.fontData).isSome = true

/-- States reachable from a freshly constructed instance through
`cacheGlyphData`, `getWidth`, `getHeight`, `getOffset`, `drawText` and
`unloadFont`, the face staying the same. -/
inductive Reachable (E : Env) : State → Prop where
  | fresh (pixelSize vertexIndex : Nat) (mallocOk : Bool) :
      Reachable E (construct E pixelSize vertexIndex mallocOk)
  | cache {s : State} (c : Nat) : Reachable E s → Reachable E (cacheGlyphData E s c).st
  | width {s : State} (text : List Nat) : Reachable E s → Reachable E (getWidth E s text).st
  | height {s : State} (text : List Nat) : Reachable E s → Reachable E (getHeight E s text).st
  | offset {s : State} (text : List Nat) : Reachable E s → Reachable E (getOffset E s text).st
  | draw {s : State} (x y : Int) (text : List Nat) (color textStyle : Nat) :
      Reachable E s → Reachable E (drawText E s x y text color textStyle).st
  | unload {s : State} : Reachable E s → Reachable E (unloadFont s).st

/-- What the loop of `drawText` resolves for each character in turn, from
state `s` with `prev = text[i - 1]`: `none` when no record is resolved,
otherwise the kerning term applied and the record. -/
def resolveAll (E : Env) : List Nat → Option Nat → State → List (Option (Option Int × ftgxCharData))
  | [], _, _ => []
  | c :: rest, prev, s =>
    match (findOrCache E s c).val with
    | none => none :: resolveAll E rest (some c) (findOrCache E s c).st
    | some k =>
      some ((kerningDelta E (findOrCache E s c).st prev k).1,
            deref (kerningDelta E (findOrCache E s c).st prev k).2 k) ::
        resolveAll E rest (some c) (kerningDelta E (findOrCache E s c).st prev k).2

/-- The resolutions of the loop of `drawText` on `text`. -/
def resolved (E : Env) (s : State) (text : List Nat) (textStyle : Nat) :
    List (Option (Option Int × ftgxCharData)) :=
  resolveAll E (cstr text) none (drawStart E s text textStyle)

/-- Number of characters for which a record was resolved. -/
def resolvedCount (l : List (Option (Option Int × ftgxCharData))) : Nat :=
  (l.filter Option.isSome).length

/-- The textures of the resolved records that own one, in text order. -/
def resolvedTextures (l : List (Option (Option Int × ftgxCharData))) : List Nat :=
  l.filterMap (fun o => o.bind (fun p => p.2.glyphDataTexture))

/-- The cursor movement of the resolved characters: kerning term plus advance
for each of them, with or without a texture. -/
def resolvedShift : List (Option (Option Int × ftgxCharData)) → Int
  | [] => 0
  | none :: rest => resolvedShift rest
  | some p :: rest => p.1.getD 0 + (p.2.glyphAdvanceX : Int) + resolvedShift rest

/-- The textures of the `Menu_T` calls among the events, in order. -/
def drawnTextures : List Event → List Nat
  | [] => []
  | Event.Menu_T t _ _ _ _ _ :: rest => t :: drawnTextures rest
  | _ :: rest => drawnTextures rest

/-- The event is a `Menu_T` call. -/
def Event.isDraw : Event → Bool
  | Event.Menu_T _ _ _ _ _ _ => true
  | _ => false

/-! ## A sample environment

A small face used to evaluate the operations: `A` (65) and `V` (86) render as
2x3 and 3x3 bitmaps and kern against each other, the space (32) renders as an
empty bitmap, `X` (88) fails to load, `Y` (89) loads in outline format, and
every other code maps to a glyph that fails to load. -/

/-- Sample metrics with a given vertical bearing. -/
def sampleMetrics (horiBearingY : Int) : FT_Glyph_Metrics :=
  ⟨128, 192, 0, horiBearingY, 256, 0, 0, 0⟩

/-- Sample glyph loader, by glyph index. -/
def sampleLoadGlyph (g : Nat) : Option FT_GlyphSlot :=
  if g = 36 then
    some ⟨FT_Glyph_Format.FT_GLYPH_FORMAT_BITMAP, ⟨3, 2, 2, [1, 2, 3, 4, 5, 6]⟩, 1, 3, 256,
      sampleMetrics 192⟩
  else if g = 57 then
    some ⟨FT_Glyph_Format.FT_GLYPH_FORMAT_BITMAP, ⟨3, 3, 4, [9, 8, 7, 0, 6, 5, 4, 0, 3, 2, 1, 0]⟩,
      0, 2, 200, sampleMetrics 128⟩
  else if g = 3 then
    some ⟨FT_Glyph_Format.FT_GLYPH_FORMAT_BITMAP, ⟨0, 0, 0, []⟩, 0, 0, 128, sampleMetrics 0⟩
  else if g = 60 then
    some ⟨FT_Glyph_Format.FT_GLYPH_FORMAT_OUTLINE, ⟨0, 0, 0, []⟩, 0, 0, 128, sampleMetrics 0⟩
  else none

/-- Sample character map. -/
def sampleCharIndex (c : Nat) : Nat :=
  if c = 65 then 36 else if c = 86 then 57 else if c = 32 then 3
  else if c = 88 then 59 else if c = 89 then 60 else 0

/-- Sample face with kerning between `A` and `V`. -/
def sampleFace : FT_Face :=
  { charIndex := sampleCharIndex
    loadGlyph := sampleLoadGlyph
    kerningX := fun l r => if l = 36 ∧ r = 57 then -100 else if l = 57 ∧ r = 36 then -64 else 0
    hasKerning := true
    ascender := 1216
    descender := -320 }

/-- The sample face with a kerning of 2 pixels before glyph 0. -/
def sampleFaceNotdefKerning : FT_Face :=
  { sampleFace with
    kerningX := fun l r => if r = 0 then 128 else sampleFace.kerningX l r }

/-- Sample device: rows padded to 128 bytes, row count to 32. -/
def sampleDevice : XenosDevice :=
  { wpitch := fun w => (w + 127) - (w + 127) % 128
    hpitch := fun h => (h + 31) - (h + 31) % 32 }

/-- Sample values for the style constants (three groups of distinct bits). -/
def sampleFlags : StyleFlags :=
  { FTGX_JUSTIFY_LEFT := 0x0001
    FTGX_JUSTIFY_CENTER := 0x0002
    FTGX_JUSTIFY_RIGHT := 0x0004
    FTGX_JUSTIFY_MASK := 0x000f
    FTGX_ALIGN_TOP := 0x0010
    FTGX_ALIGN_MIDDLE := 0x0020
    FTGX_ALIGN_BOTTOM := 0x0040
    FTGX_ALIGN_BASELINE := 0x0080
    FTGX_ALIGN_GLYPH_TOP := 0x0100
    FTGX_ALIGN_GLYPH_MIDDLE := 0x0200
    FTGX_ALIGN_GLYPH_BOTTOM := 0x0400
    FTGX_ALIGN_MASK := 0x0ff0
    FTGX_STYLE_MASK := 0xf000 }

/-- The sample environment. -/
def sampleEnv : Env := ⟨sampleFace, sampleDevice, sampleFlags⟩

/-- A freshly constructed instance in the sample environment. -/
def sampleFresh : State := construct sampleEnv 24 0 true

/-- A face whose glyphs all render as one row of 65536 pixels. -/
def wideFace : FT_Face :=
  { charIndex := fun c => c
    loadGlyph := fun _ =>
      some ⟨FT_Glyph_Format.FT_GLYPH_FORMAT_BITMAP, ⟨1, 65536, 65536, List.replicate 65536 255⟩, 0, 1,
        6400, ⟨4194304, 64, 0, 64, 6400, 0, 0, 0⟩⟩
    kerningX := fun _ _ => 0
    hasKerning := false
    ascender := 64
    descender := 0 }

/-- The sample environment with kerning before glyph 0. -/
def sampleEnvNotdefKerning : Env := ⟨sampleFaceNotdefKerning, sampleDevice, sampleFlags⟩

/-- The sample environment with the wide face. -/
def wideEnv : Env := ⟨wideFace, sampleDevice, sampleFlags⟩

/-! ## Further notions and samples -/

/-- The records that the loop of `getOffset` resolves for the characters of a
text, in order, from state `s`. -/
def resolveOffsets (E : Env) : List Nat → State → List ftgxCharData
  | [], _ => []
  | c :: rest, s =>
    match (findOrCache E s c).val with
    | none => resolveOffsets E rest (findOrCache E s c).st
    | some k => deref (findOrCache E s c).st k :: resolveOffsets E rest (findOrCache E s c).st

/-- The sample face with an underscore (95) that lies below the baseline:
one row of two pixels with `bitmap_top = -1`. -/
def lowFace : FT_Face :=
  { sampleFace with
    charIndex := fun c => if c = 95 then 66 else sampleFace.charIndex c
    loadGlyph := fun g =>
      if g = 66 then
        some ⟨FT_Glyph_Format.FT_GLYPH_FORMAT_BITMAP, ⟨1, 2, 2, [7, 7]⟩, 0, -1, 192,
          sampleMetrics (-64)⟩
      else sampleFace.loadGlyph g }

/-- The sample environment with the low face. -/
def lowEnv : Env := ⟨lowFace, sampleDevice, sampleFlags⟩

/-! ## The writes of the copy loops -/

/-- The writes `*dst++ = *src++` that lines 318-321 perform, in order, as
pairs of destination offset and byte (same arguments as `copyRow`). -/
def copyRowLog (src : List Nat) (limit : Nat) : Nat → Int → Nat → List (Nat × Nat)
  | 0, _, _ => []
  | n + 1, si, d =>
    if d < limit then (d, readByte src si) :: copyRowLog src limit n (si + 1) (d + 1)
    else copyRowLog src limit n si d

/-- The writes of the loop over `wpitch` (same arguments as `copyTiles`). -/
def copyTilesLog (bmp : FT_Bitmap) (tex : XenosSurface) (limit y rowBase : Nat) :
    Nat → Nat → List (Nat × Nat)
  | 0, _ => []
  | fuel + 1, wpitch =>
    if wpitch < tex.wpitch then
      copyRowLog bmp.buffer limit bmp.width ((y : Int) * bmp.pitch) (rowBase * tex.wpitch + wpitch) ++
        copyTilesLog bmp tex limit y rowBase fuel (wpitch + tex.width)
    else []

/-- The writes of the loop over the bitmap rows (same arguments as
`copyRows`). -/
def copyRowsLog (bmp : FT_Bitmap) (tex : XenosSurface) (limit hpitch : Nat) :
    Nat → Nat → List (Nat × Nat)
  | 0, _ => []
  | n + 1, y =>
    copyTilesLog bmp tex limit y (y + hpitch) tex.wpitch 0 ++
      copyRowsLog bmp tex limit hpitch n (y + 1)

/-- The writes of the loop over `hpitch` (same arguments as `copyBlocks`). -/
def copyBlocksLog (bmp : FT_Bitmap) (tex : XenosSurface) (limit : Nat) :
    Nat → Nat → List (Nat × Nat)
  | 0, _ => []
  | fuel + 1, hpitch =>
    if hpitch < tex.hpitch then
      copyRowsLog bmp tex limit hpitch bmp.rows 0 ++
        copyBlocksLog bmp tex limit fuel (hpitch + tex.height)
    else []

/-- A buffer after a sequence of byte writes. -/
def applyWrites (buf : List Nat) : List (Nat × Nat) → List Nat
  | [] => buf
  | p :: rest => applyWrites (buf.set p.1 p.2) rest

/-- The surface that `loadGlyphData` creates for a record of texture size
`w` x `h` (lines 266-269), before its bytes are written. -/
def glyphSurface (E : Env) (w h : Nat) : XenosSurface :=
  { width := align32 w
    height := align32 h
    wpitch := E.xe.wpitch (align32 w)
    hpitch := E.xe.hpitch (align32 h)
    use_filtering := 0
    clamped := true
    base := List.replicate (E.xe.hpitch (align32 h) * E.xe.wpitch (align32 w)) 0 }

/-! ## The `wchar_t const *` overloads and `createText` (lines 489-495, 516-518, 558-649) -/

/-- The overload `getWidth(wchar_t const *text)`: it casts and calls
`getWidth(wchar_t *)`. -/
def getWidthConst (E : Env) (s : State) (text : List Nat) : Out Nat := getWidth E s text

/-- The overload `getHeight(wchar_t const *text)`: it casts and calls
`getHeight(wchar_t *)`. -/
def getHeightConst (E : Env) (s : State) (text : List Nat) : Out Nat := getHeight E s text

/-- The overload `getOffset(wchar_t const *text, ftgxDataOffset *offset)`
(lines 558-560). Its body is `this->getOffset(text, offset)` with `text` of
type `wchar_t const *`, an argument that only this overload accepts: the call
is to itself. The last argument bounds the depth of nested calls; `none` is
"no return within that depth". -/
def getOffsetConst (E : Env) (s : State) (text : List Nat) : Nat → Option (Out ftgxDataOffset)
  | 0 => none
  | depth + 1 => getOffsetConst E s text depth

/-- How code that stores bytes through a locked pointer ends: it completes
with a value, or it stores a byte at `base[offset]` outside the bytes of the
surface, after which the program has no defined behaviour. -/
inductive Access (α : Type) where
  | ok (a : α)
  | outside (offset : Int)

/-- The value of a completed run. -/
def Access.map {α β : Type} (f : α → β) : Access α → Access β
  | Access.ok a => Access.ok (f a)
  | Access.outside k => Access.outside k

/-- The value a call returns, when it returns: `none` stands for a call that
does not return and for one that stored outside the surface. -/
def returned {α : Type} : Option (Access α) → Option α
  | some (Access.ok a) => some a
  | _ => none

/-- The offset of the first store outside the surface, if there is one. -/
def storedOutside {α : Type} : Option (Access α) → Option Int
  | some (Access.outside k) => some k
  | _ => none

/-- Byte writes through a pointer `surfbuf = base + off` into a surface of
`size` bytes (`hpitch * wpitch`, the bytes that line 580 clears): the write
to `surfbuf[d]` lands on `base[off + d]`. The first write that does not land
on a byte of the surface ends the run. -/
def applyWritesAt (size : Nat) (off : Int) (buf : List Nat) :
    List (Nat × Nat) → Access (List Nat)
  | [] => Access.ok buf
  | p :: rest =>
    if 0 ≤ off + (p.1 : Int) ∧ off + (p.1 : Int) < (size : Int) then
      applyWritesAt size off (buf.set (off + (p.1 : Int)).toNat p.2) rest
    else Access.outside (off + (p.1 : Int))

/-- Lines 631-638 of `createText`: the loop over `wpitch`, stepping by the
logical width, storing through `surfbuf = base + off`. The first argument
bounds the number of iterations; `none` is a loop that is still running when
the bound is used up. With `tex.wpitch` as the bound that happens only when
the logical width is 0, and then the loop never ends. -/
def lockedTiles (bmp : FT_Bitmap) (tex : XenosSurface) (off : Int) (limit y rowBase : Nat) :
    Nat → Nat → List Nat → Option (Access (List Nat))
  | 0, wpitch, buf => if wpitch < tex.wpitch then none else some (Access.ok buf)
  | fuel + 1, wpitch, buf =>
    if wpitch < tex.wpitch then
      match applyWritesAt (tex.hpitch * tex.wpitch) off buf
          (copyRowLog bmp.buffer limit bmp.width ((y : Int) * bmp.pitch)
            (rowBase * tex.wpitch + wpitch)) with
      | Access.ok buf1 => lockedTiles bmp tex off limit y rowBase fuel (wpitch + tex.width) buf1
      | Access.outside k => some (Access.outside k)
    else some (Access.ok buf)

/-- Lines 629-639 of `createText`: the loop over the bitmap rows `y` (with
`dsty = y`), `n` rows left. -/
def lockedRows (bmp : FT_Bitmap) (tex : XenosSurface) (off : Int) (limit hpitch : Nat) :
    Nat → Nat → List Nat → Option (Access (List Nat))
  | 0, _, buf => some (Access.ok buf)
  | n + 1, y, buf =>
    match lockedTiles bmp tex off limit y (y + hpitch) tex.wpitch 0 buf with
    | some (Access.ok buf1) => lockedRows bmp tex off limit hpitch n (y + 1) buf1
    | r => r

/-- Lines 623-640 of `createText`: the loop over `hpitch`, stepping by the
logical height; `none` as for `lockedTiles`. -/
def lockedBlocks (bmp : FT_Bitmap) (tex : XenosSurface) (off : Int) (limit : Nat) :
    Nat → Nat → List Nat → Option (Access (List Nat))
  | 0, hpitch, buf => if hpitch < tex.hpitch then none else some (Access.ok buf)
  | fuel + 1, hpitch, buf =>
    if hpitch < tex.hpitch then
      match lockedRows bmp tex off limit hpitch bmp.rows 0 buf with
      | some (Access.ok buf1) => lockedBlocks bmp tex off limit fuel (hpitch + tex.height) buf1
      | r => r
    else some (Access.ok buf)

/-- The loop of `createText` (lines 594-647) on the surface `tex` of handle
`t`, with the running `RenderOffsetX` and `RenderOffsetY`. `lock tex x y` is
the offset from `base` of the pointer that `Xe_Surface_LockRect` returns for
the origin `(x, y)`; `dst_limit` is `hpitch * wpitch` bytes after that
pointer (line 619). The loop works on the rasterizer and the surface alone:
the glyph map is not among its arguments. The result is the surface and the
calls of a loop that completes, `none` for one that does not end. -/
def createTextLoop (E : Env) (lock : XenosSurface → Int → Int → Int) (t : Nat) :
    List Nat → XenosSurface → Int → Int → Option (Access (XenosSurface × List Event))
  | [], tex, _, _ => some (Access.ok (tex, []))
  | c :: rest, tex, rx, ry =>
    match E.face.loadGlyph (E.face.charIndex c) with
    | none =>
      (createTextLoop E lock t rest tex rx ry).map
        (Access.map (fun l => (l.1, Event.FT_Load_Glyph (E.face.charIndex c) :: l.2)))
    | some slot =>
      if slot.format = FT_Glyph_Format.FT_GLYPH_FORMAT_BITMAP then
        match lockedBlocks slot.bitmap tex
            (lock tex (rx + slot.bitmap_left) (ry + (slot.metrics.horiBearingY >>> 6)))
            (tex.hpitch * tex.wpitch) tex.hpitch 0 tex.base with
        | none => none
        | some (Access.outside k) => some (Access.outside k)
        | some (Access.ok buf) =>
          (createTextLoop E lock t rest { tex with base := buf }
              (rx + slot.bitmap_left) (ry + (slot.metrics.horiBearingY >>> 6))).map
            (Access.map (fun l =>
              (l.1, Event.FT_Load_Glyph (E.face.charIndex c) :: Event.Xe_Surface_LockRect t ::
                Event.Xe_Surface_Unlock t :: l.2)))
      else
        (createTextLoop E lock t rest tex rx ry).map
          (Access.map (fun l => (l.1, Event.FT_Load_Glyph (E.face.charIndex c) :: l.2)))

/-- Lines 585-588 of `createText`: the alignment pass, which calls the
`wchar_t const *` overload of `getOffset`. -/
def alignPassConst (E : Env) (s : State) (text : List Nat) (textStyle depth : Nat) :
    Option (Out Nat) :=
  if textStyle &&& E.K.FTGX_ALIGN_MASK ≠ 0 then
    (getOffsetConst E s text depth).map
      (fun o => ⟨toU16 (getStyleOffsetHeight E.K o.val textStyle), o.st, o.ev⟩)
  else some ⟨0, s, []⟩

/-- The state after lines 566-580 of `createText`: width and height are
measured, the texture is created, set up and cleared. -/
def createTextSetup (E : Env) (s : State) (text : List Nat) : Out Nat :=
  let w := getWidthConst E s text
  let h := getHeightConst E w.st text
  let c := Xe_CreateTexture E h.st (align32 w.val) (align32 h.val)
  let tex := (mapFind c.val c.st.surfaces).getD ⟨0, 0, 0, 0, 0, false, []⟩
  ⟨c.val,
    { c.st with
      surfaces := mapSet c.val
        { tex with use_filtering := 1, clamped := true,
                   base := List.replicate (tex.hpitch * tex.wpitch) 0 } c.st.surfaces },
    w.ev ++ h.ev ++ c.ev⟩

/-- The method `createText(text, color, textStyle)`. The value of a call
that returns is the handle of the texture it returns; `none` is a call that
does not return (within the depth of nested calls, or because a copy loop
does not end), and `Access.outside` one that stored outside the texture. The
justification pass (lines 582-584) is the code of lines 405-407. -/
def createText (E : Env) (lock : XenosSurface → Int → Int → Int) (depth : Nat) (s : State)
    (text : List Nat) (_color textStyle : Nat) : Option (Access (Out Nat)) :=
  let c := createTextSetup E s text
  let j := justifyPass E c.st text textStyle
  match alignPassConst E j.st text textStyle depth with
  | none => none
  | some a =>
    let tex := (mapFind c.val a.st.surfaces).getD ⟨0, 0, 0, 0, 0, false, []⟩
    (createTextLoop E lock c.val (cstr text) tex 0 0).map
      (Access.map (fun l =>
        ⟨c.val, { a.st with surfaces := mapSet c.val l.1 a.st.surfaces },
          c.ev ++ j.ev ++ a.ev ++ l.2⟩))

/-- The offset `y * wpitch + x` of a locked origin, as for an 8-bit surface. -/
def sampleLock (tex : XenosSurface) (x y : Int) : Int := y * (tex.wpitch : Int) + x

/-! ## Runs of calls and the ledger of textures -/

/-- The handles of the `Xe_CreateTexture` calls among the events, in order. -/
def createdTextures : List Event → List Nat
  | [] => []
  | Event.Xe_CreateTexture t _ _ :: rest => t :: createdTextures rest
  | _ :: rest => createdTextures rest

/-- The handles of the `Xe_DestroyTexture` calls among the events, in order. -/
def destroyedTextures : List Event → List Nat
  | [] => []
  | Event.Xe_DestroyTexture t :: rest => t :: destroyedTextures rest
  | _ :: rest => destroyedTextures rest

/-- A call of `getWidth`, `getHeight`, `getOffset` or `drawText`. -/
inductive Call where
  | width (text : List Nat)
  | height (text : List Nat)
  | offset (text : List Nat)
  | draw (x y : Int) (text : List Nat) (color textStyle : Nat)

/-- The state after a call and the events it issues. -/
def runCall (E : Env) (s : State) : Call → State × List Event
  | Call.width text => ((getWidth E s text).st, (getWidth E s text).ev)
  | Call.height text => ((getHeight E s text).st, (getHeight E s text).ev)
  | Call.offset text => ((getOffset E s text).st, (getOffset E s text).ev)
  | Call.draw x y text color textStyle =>
    ((drawText E s x y text color textStyle).st, (drawText E s x y text color textStyle).ev)

/-- The state after a sequence of calls and all the events they issue. -/
def runCalls (E : Env) (s : State) : List Call → State × List Event
  | [] => (s, [])
  | c :: rest =>
    ((runCalls E (runCall E s c).1 rest).1,
      (runCall E s c).2 ++ (runCalls E (runCall E s c).1 rest).2)

/-- The textures `cr` created so far are distinct, each is the handle of a
record and no two records share one, they are the textures live on the
device, and the device has numbered all of them already. -/
def Ledger (s : State) (cr : List Nat) : Prop :=
  cr.Nodup ∧ (ownedTextures s.fontData).Nodup ∧
  (∀ t, t ∈ ownedTextures s.fontData ↔ t ∈ cr) ∧
  (∀ t, (mapFind t s.surfaces).isSome = true ↔ t ∈ cr) ∧
  (∀ t ∈ cr, t < s.nextSurface)

/-- A step from `s` to `t` issuing `ev` destroys nothing and keeps the
ledger, the textures it creates being added. -/
def Keeps (s t : State) (ev : List Event) : Prop :=
  destroyedTextures ev = [] ∧ ∀ cr, Ledger s cr → Ledger t (cr ++ createdTextures ev)

/-! ## `UTF8_to_UNICODE` and `charToWideChar` (lines 63-99) -/

/-- What a run of `UTF8_to_UNICODE` does: the indices at which it reads
`utf8`, and the assignments `unicode[j] = ch` as pairs `(j, ch)`, both in
order. -/
structure UtfRun where
  reads : List Nat
  writes : List (Nat × Nat)
deriving DecidableEq

/-- The loop of `UTF8_to_UNICODE` (lines 67-86) from `i` and `j`, ending with
`unicode[j] = 0`. `utf8 k` is the byte at index `k` from the input pointer,
whatever `k` is; the masks make the signedness of `char` irrelevant. The first
argument bounds the number of iterations (`len` is enough, `i` grows in each
one). -/
def UTF8_to_UNICODE_loop (utf8 : Nat → Nat) (len : Nat) : Nat → Nat → Nat → UtfRun
  | 0, _, j => ⟨[], [(j, 0)]⟩
  | fuel + 1, i, j =>
    if i < len then
      if utf8 i ≥ 0xF0 then
        ⟨i :: i :: (i + 1) :: (i + 2) :: (i + 3) ::
            (UTF8_to_UNICODE_loop utf8 len fuel (i + 4) (j + 1)).reads,
          (j, ((((utf8 i &&& 0x07) <<< 18) ||| ((utf8 (i + 1) &&& 0x3F) <<< 12)) |||
                ((utf8 (i + 2) &&& 0x3F) <<< 6)) ||| (utf8 (i + 3) &&& 0x3F)) ::
            (UTF8_to_UNICODE_loop utf8 len fuel (i + 4) (j + 1)).writes⟩
      else if utf8 i ≥ 0xE0 then
        ⟨i :: i :: (i + 1) :: (i + 2) ::
            (UTF8_to_UNICODE_loop utf8 len fuel (i + 3) (j + 1)).reads,
          (j, (((utf8 i &&& 0x0F) <<< 12) ||| ((utf8 (i + 1) &&& 0x3F) <<< 6)) |||
                (utf8 (i + 2) &&& 0x3F)) ::
            (UTF8_to_UNICODE_loop utf8 len fuel (i + 3) (j + 1)).writes⟩
      else if utf8 i ≥ 0xC0 then
        ⟨i :: i :: (i + 1) :: (UTF8_to_UNICODE_loop utf8 len fuel (i + 2) (j + 1)).reads,
          (j, ((utf8 i &&& 0x1F) <<< 6) ||| (utf8 (i + 1) &&& 0x3F)) ::
            (UTF8_to_UNICODE_loop utf8 len fuel (i + 2) (j + 1)).writes⟩
      else
        ⟨i :: (UTF8_to_UNICODE_loop utf8 len fuel (i + 1) (j + 1)).reads,
          (j, utf8 i) :: (UTF8_to_UNICODE_loop utf8 len fuel (i + 1) (j + 1)).writes⟩
    else ⟨[], [(j, 0)]⟩

/-- The function `UTF8_to_UNICODE(unicode, utf8, len)`. -/
def UTF8_to_UNICODE (utf8 : Nat → Nat) (len : Nat) : UtfRun :=
  UTF8_to_UNICODE_loop utf8 len len 0 0

/-- The memory from the pointer `strChar` of a C string: its bytes (those
before the first 0 of `bytes`), the terminator, then whatever lies `beyond`. -/
def cString (bytes : List Nat) (beyond : Nat → Nat) (k : Nat) : Nat :=
  if k < (cstr bytes).length then (cstr bytes).getD k 0
  else if k = (cstr bytes).length then 0
  else beyond k

/-- The function `charToWideChar(strChar)`: the number of elements it
allocates, `strlen(strChar) + 1`, and the run of `UTF8_to_UNICODE` on them. -/
def charToWideChar (bytes : List Nat) (beyond : Nat → Nat) : Nat × UtfRun :=
  ((cstr bytes).length + 1, UTF8_to_UNICODE (cString bytes beyond) (cstr bytes).length)

/-- A Unicode scalar value: U+0000..U+10FFFF without the surrogates. -/
def isScalar (c : Nat) : Prop := c < 0x110000 ∧ ¬ (0xD800 ≤ c ∧ c < 0xE000)

/-- The standard UTF-8 encoding of a code point (RFC 3629), in its 1-, 2-, 3-
and 4-byte forms. -/
def utf8Encode (c : Nat) : List Nat :=
  if c < 0x80 then [c]
  else if c < 0x800 then [0xC0 + c / 64, 0x80 + c % 64]
  else if c < 0x10000 then [0xE0 + c / 4096, 0x80 + c / 64 % 64, 0x80 + c % 64]
  else [0xF0 + c / 262144, 0x80 + c / 4096 % 64, 0x80 + c / 64 % 64, 0x80 + c % 64]

/-- The standard UTF-8 encoding of a sequence of code points. -/
def utf8EncodeAll : List Nat → List Nat
  | [] => []
  | c :: rest => utf8Encode c ++ utf8EncodeAll rest

/-- The memory that holds the bytes of a list from index 0, and 0 after them. -/
def memOf (bytes : List Nat) (k : Nat) : Nat := bytes.getD k 0

/-- Being a scalar value is decided by comparing numbers. -/
instance isScalar.decide : DecidablePred isScalar := fun c => by
  unfold isScalar
  infer_instance

/-- The state in which the loop of `createText` starts when the alignment
pass is skipped: the one that lines 566-584 leave. -/
def createTextState (E : Env) (s : State) (text : List Nat) (textStyle : Nat) : State :=
  (justifyPass E (createTextSetup E s text).st text textStyle).st

/-- The texture of `createText` as its loop finds it in that state. -/
def createTextSurface (E : Env) (s : State) (text : List Nat) (textStyle : Nat) : XenosSurface :=
  (mapFind (createTextSetup E s text).val (createTextState E s text textStyle).surfaces).getD
    ⟨0, 0, 0, 0, 0, false, []⟩

/-! ## Lemmas -/

theorem toU16_lt (z : Int) : toU16 z < 65536 := by
  unfold toU16; omega

theorem toU16_of_lt (n : Nat) (h : n < 65536) : toU16 (n : Int) = n := by
  unfold toU16; omega

theorem toU16_add_left (a b : Int) : toU16 ((toU16 a : Int) + b) = toU16 (a + b) := by
  unfold toU16; omega

theorem toU16_add_right (a b : Int) : toU16 (a + (toU16 b : Int)) = toU16 (a + b) := by
  unfold toU16; omega

theorem mapFind_mapSet_self {α : Type} (k : Nat) (v : α) (m : List (Nat × α)) :
    mapFind k (mapSet k v m) = some v := by
  induction m with
  | nil => simp [mapSet, mapFind]
  | cons p rest ih =>
    obtain ⟨k', v'⟩ := p
    by_cases h1 : k < k'
    · simp [mapSet, mapFind, h1]
    · by_cases h2 : k = k'
      · simp [mapSet, mapFind, h2]
      · simp [mapSet, mapFind, h1, h2, ih]

theorem mapFind_mapSet_ne {α : Type} (k j : Nat) (v : α) (m : List (Nat × α)) (h : j ≠ k) :
    mapFind j (mapSet k v m) = mapFind j m := by
  induction m with
  | nil => simp [mapSet, mapFind, h]
  | cons p rest ih =>
    obtain ⟨k', v'⟩ := p
    by_cases h1 : k < k'
    · simp [mapSet, mapFind, h1, h]
    · by_cases h2 : k = k'
      · subst h2; simp [mapSet, mapFind, h]
      · simp [mapSet, mapFind, h1, h2, ih]

theorem mapSet_mapSet {α : Type} (k : Nat) (v w : α) (m : List (Nat × α)) :
    mapSet k w (mapSet k v m) = mapSet k w m := by
  induction m with
  | nil => simp [mapSet]
  | cons p rest ih =>
    obtain ⟨k', v'⟩ := p
    by_cases h1 : k < k'
    · simp [mapSet, h1]
    · by_cases h2 : k = k'
      · simp [mapSet, h2]
      · simp [mapSet, h1, h2, ih]

theorem cacheGlyphData_ok (E : Env) (s : State) (c : Nat) (slot : FT_GlyphSlot)
    (hl : E.face.loadGlyph (E.face.charIndex c) = some slot)
    (hf : slot.format = FT_Glyph_Format.FT_GLYPH_FORMAT_BITMAP) :
    (cacheGlyphData E s c).val = some c ∧
    (cacheGlyphData E s c).st.fontData =
      mapSet c { recordOfSlot (E.face.charIndex c) slot with
                  glyphDataTexture := textureAfterCache s slot } s.fontData := by
  by_cases hw : toU16 slot.bitmap.width = 0
  · simp [cacheGlyphData, loadGlyphData, hl, hf, deref, mapFind_mapSet_self, textureAfterCache,
      recordOfSlot, adjustTextureWidth, adjustTextureHeight, hw]
  · by_cases hh : toU16 slot.bitmap.rows = 0
    · simp [cacheGlyphData, loadGlyphData, hl, hf, deref, mapFind_mapSet_self, textureAfterCache,
        recordOfSlot, adjustTextureWidth, adjustTextureHeight, hw, hh]
    · cases hg : s.glyphData
      · simp [cacheGlyphData, loadGlyphData, hl, hf, deref, mapFind_mapSet_self, textureAfterCache,
          recordOfSlot, adjustTextureWidth, adjustTextureHeight, hw, hh, hg]
      · simp [cacheGlyphData, loadGlyphData, hl, hf, deref, mapFind_mapSet_self, textureAfterCache,
          recordOfSlot, adjustTextureWidth, adjustTextureHeight, hw, hh, hg, Xe_CreateTexture,
          mapSet_mapSet]

theorem cacheGlyphData_fail (E : Env) (s : State) (c : Nat) (h : rasterOK E c = false) :
    cacheGlyphData E s c = ⟨none, s, [Event.FT_Load_Glyph (E.face.charIndex c)]⟩ := by
  unfold rasterOK at h
  unfold cacheGlyphData
  cases hl : E.face.loadGlyph (E.face.charIndex c) with
  | none => simp [hl]
  | some slot =>
    rw [hl] at h
    simp at h
    simp [hl, h]

theorem rasterOK_iff (E : Env) (c : Nat) :
    rasterOK E c = true ↔ ∃ slot, E.face.loadGlyph (E.face.charIndex c) = some slot ∧
      slot.format = FT_Glyph_Format.FT_GLYPH_FORMAT_BITMAP := by
  unfold rasterOK
  cases hl : E.face.loadGlyph (E.face.charIndex c) with
  | none => simp
  | some slot => simp

theorem Grows.refl (s : State) : Grows s s := fun _ h => h

theorem Grows.trans {s t u : State} (h1 : Grows s t) (h2 : Grows t u) : Grows s u :=
  fun k h => h2 k (h1 k h)

theorem Settled.mono {E : Env} {s t : State} {c : Nat} (h : Settled E s c) (g : Grows s t) :
    Settled E t c := by
  cases h with
  | inl h => exact Or.inl (g c h)
  | inr h => exact Or.inr h

theorem cacheGlyphData_kerning (E : Env) (s : State) (c : Nat) :
    (cacheGlyphData E s c).st.ftKerningEnabled = s.ftKerningEnabled := by
  unfold cacheGlyphData loadGlyphData
  cases hl : E.face.loadGlyph (E.face.charIndex c) with
  | none => simp [hl]
  | some slot =>
    simp only [hl]
    split_ifs
    all_goals simp [Xe_CreateTexture, Xe_DestroyTexture]
    split <;> simp [Xe_DestroyTexture]

theorem cacheGlyphData_sound (E : Env) (s : State) (c : Nat) (h : CacheSound E s) :
    CacheSound E (cacheGlyphData E s c).st := by
  cases hr : rasterOK E c with
  | false => rw [cacheGlyphData_fail E s c hr]; exact h
  | true =>
    obtain ⟨slot, hl, hf⟩ := (rasterOK_iff E c).1 hr
    intro k r hk hok
    rw [(cacheGlyphData_ok E s c slot hl hf).2] at hk
    by_cases hkc : k = c
    · subst hkc
      rw [mapFind_mapSet_self] at hk
      cases hk
      simp [advanceOf, hl, recordOfSlot]
    · rw [mapFind_mapSet_ne _ _ _ _ hkc] at hk
      exact h k r hk hok

theorem cacheGlyphData_grows (E : Env) (s : State) (c : Nat) :
    Grows s (cacheGlyphData E s c).st := by
  cases hr : rasterOK E c with
  | false => rw [cacheGlyphData_fail E s c hr]; exact Grows.refl s
  | true =>
    obtain ⟨slot, hl, hf⟩ := (rasterOK_iff E c).1 hr
    intro k hk
    rw [(cacheGlyphData_ok E s c slot hl hf).2]
    by_cases hkc : k = c
    · subst hkc; rw [mapFind_mapSet_self]; rfl
    · rw [mapFind_mapSet_ne _ _ _ _ hkc]; exact hk

theorem cacheGlyphData_settled (E : Env) (s : State) (c : Nat) :
    Settled E (cacheGlyphData E s c).st c := by
  cases hr : rasterOK E c with
  | false => exact Or.inr hr
  | true =>
    obtain ⟨slot, hl, hf⟩ := (rasterOK_iff E c).1 hr
    left
    rw [(cacheGlyphData_ok E s c slot hl hf).2, mapFind_mapSet_self]; rfl

theorem findOrCache_hit (E : Env) (s : State) (c : Nat)
    (h : (mapFind c s.fontData).isSome = true) : findOrCache E s c = ⟨some c, s, []⟩ := by
  unfold findOrCache
  cases hm : mapFind c s.fontData with
  | none => rw [hm] at h; cases h
  | some r => rfl

theorem findOrCache_miss (E : Env) (s : State) (c : Nat)
    (h : mapFind c s.fontData = none) : findOrCache E s c = cacheGlyphData E s c := by
  unfold findOrCache
  rw [h]

theorem findOrCache_cases (E : Env) (s : State) (c : Nat) :
    findOrCache E s c = ⟨some c, s, []⟩ ∨ findOrCache E s c = cacheGlyphData E s c := by
  cases hm : mapFind c s.fontData with
  | none => exact Or.inr (findOrCache_miss E s c hm)
  | some r => exact Or.inl (findOrCache_hit E s c (by rw [hm]; rfl))

theorem findOrCache_sound (E : Env) (s : State) (c : Nat) (h : CacheSound E s) :
    CacheSound E (findOrCache E s c).st := by
  rcases findOrCache_cases E s c with h1 | h1 <;> rw [h1]
  · exact h
  · exact cacheGlyphData_sound E s c h

theorem findOrCache_grows (E : Env) (s : State) (c : Nat) :
    Grows s (findOrCache E s c).st := by
  rcases findOrCache_cases E s c with h1 | h1 <;> rw [h1]
  · exact Grows.refl s
  · exact cacheGlyphData_grows E s c

theorem findOrCache_kerning (E : Env) (s : State) (c : Nat) :
    (findOrCache E s c).st.ftKerningEnabled = s.ftKerningEnabled := by
  rcases findOrCache_cases E s c with h1 | h1 <;> rw [h1]
  exact cacheGlyphData_kerning E s c

theorem findOrCache_settled (E : Env) (s : State) (c : Nat) :
    Settled E (findOrCache E s c).st c := by
  cases hm : mapFind c s.fontData with
  | none => rw [findOrCache_miss E s c hm]; exact cacheGlyphData_settled E s c
  | some r =>
    rw [findOrCache_hit E s c (by rw [hm]; rfl)]
    exact Or.inl (by rw [hm]; rfl)

theorem findOrCache_none (E : Env) (s : State) (c : Nat) (h : (findOrCache E s c).val = none) :
    rasterOK E c = false ∧ findOrCache E s c = ⟨none, s, [Event.FT_Load_Glyph (E.face.charIndex c)]⟩ := by
  cases hm : mapFind c s.fontData with
  | some r => rw [findOrCache_hit E s c (by rw [hm]; rfl)] at h; cases h
  | none =>
    rw [findOrCache_miss E s c hm] at h ⊢
    cases hr : rasterOK E c with
    | false => exact ⟨rfl, cacheGlyphData_fail E s c hr⟩
    | true =>
      obtain ⟨slot, hl, hf⟩ := (rasterOK_iff E c).1 hr
      rw [(cacheGlyphData_ok E s c slot hl hf).1] at h
      cases h

theorem findOrCache_some (E : Env) (s : State) (c k : Nat) (h : (findOrCache E s c).val = some k) :
    k = c ∧ (mapFind c (findOrCache E s c).st.fontData).isSome = true := by
  cases hm : mapFind c s.fontData with
  | some r =>
    rw [findOrCache_hit E s c (by rw [hm]; rfl)] at h ⊢
    simp at h
    exact ⟨h.symm, by simp [hm]⟩
  | none =>
    rw [findOrCache_miss E s c hm] at h ⊢
    cases hr : rasterOK E c with
    | false => rw [cacheGlyphData_fail E s c hr] at h; cases h
    | true =>
      obtain ⟨slot, hl, hf⟩ := (rasterOK_iff E c).1 hr
      rw [(cacheGlyphData_ok E s c slot hl hf).1] at h
      simp at h
      refine ⟨h.symm, ?_⟩
      rw [(cacheGlyphData_ok E s c slot hl hf).2, mapFind_mapSet_self]; rfl

theorem fontDataIndex_hit (s : State) (p : Nat) (h : (mapFind p s.fontData).isSome = true) :
    fontDataIndex s p = (deref s p, s) := by
  unfold fontDataIndex deref
  cases hm : mapFind p s.fontData with
  | none => rw [hm] at h; cases h
  | some r => rfl

theorem fontDataIndex_miss (s : State) (p : Nat) (h : mapFind p s.fontData = none) :
    fontDataIndex s p =
      (ftgxCharData.zero, { s with fontData := mapSet p ftgxCharData.zero s.fontData }) := by
  unfold fontDataIndex
  rw [h]

theorem kerningDelta_hit (E : Env) (s : State) (prev : Option Nat) (k : Nat)
    (h : ∀ p, prev = some p → (mapFind p s.fontData).isSome = true) :
    (kerningDelta E s prev k).2 = s := by
  unfold kerningDelta
  cases s.ftKerningEnabled with
  | false => rfl
  | true =>
    cases prev with
    | none => rfl
    | some p => simp [fontDataIndex_hit s p (h p rfl)]

theorem kerningDelta_kerning (E : Env) (s : State) (prev : Option Nat) (k : Nat) :
    (kerningDelta E s prev k).2.ftKerningEnabled = s.ftKerningEnabled := by
  unfold kerningDelta
  cases hk : s.ftKerningEnabled with
  | false => simp [hk]
  | true =>
    cases prev with
    | none => simp [hk]
    | some p =>
      cases hm : mapFind p s.fontData with
      | none => simp [fontDataIndex_miss s p hm, hk]
      | some r => simp [fontDataIndex_hit s p (by rw [hm]; rfl), hk]

theorem kerningDelta_grows (E : Env) (s : State) (prev : Option Nat) (k : Nat) :
    Grows s (kerningDelta E s prev k).2 := by
  unfold kerningDelta
  cases hk : s.ftKerningEnabled with
  | false => exact Grows.refl s
  | true =>
    cases prev with
    | none => exact Grows.refl s
    | some p =>
      cases hm : mapFind p s.fontData with
      | none =>
        simp only [fontDataIndex_miss s p hm, if_true]
        intro j hj
        by_cases hjp : j = p
        · subst hjp; rw [hm] at hj; cases hj
        · simp only [mapFind_mapSet_ne _ _ _ _ hjp]; exact hj
      | some r =>
        simp only [fontDataIndex_hit s p (by rw [hm]; rfl), if_true]
        exact Grows.refl s

theorem kerningDelta_sound (E : Env) (s : State) (prev : Option Nat) (k : Nat)
    (h : CacheSound E s) (hp : ∀ p, prev = some p → Settled E s p) :
    CacheSound E (kerningDelta E s prev k).2 := by
  unfold kerningDelta
  cases hk : s.ftKerningEnabled with
  | false => exact h
  | true =>
    cases prev with
    | none => exact h
    | some p =>
      cases hm : mapFind p s.fontData with
      | none =>
        simp only [fontDataIndex_miss s p hm, if_true]
        intro j r hj hok
        by_cases hjp : j = p
        · subst hjp
          rcases hp j rfl with h1 | h1
          · rw [hm] at h1; cases h1
          · rw [h1] at hok; cases hok
        · simp only [mapFind_mapSet_ne _ _ _ _ hjp] at hj
          exact h j r hj hok
      | some r =>
        simp only [fontDataIndex_hit s p (by rw [hm]; rfl), if_true]
        exact h

theorem getWidthLoop_cons_none (E : Env) (c : Nat) (rest : List Nat) (prev : Option Nat)
    (s : State) (w : Nat) (h : (findOrCache E s c).val = none) :
    getWidthLoop E (c :: rest) prev s w =
      ⟨(getWidthLoop E rest (some c) (findOrCache E s c).st w).val,
       (getWidthLoop E rest (some c) (findOrCache E s c).st w).st,
       (findOrCache E s c).ev ++ (getWidthLoop E rest (some c) (findOrCache E s c).st w).ev⟩ := by
  simp only [getWidthLoop, h]

theorem getWidthLoop_cons_some (E : Env) (c k : Nat) (rest : List Nat) (prev : Option Nat)
    (s : State) (w : Nat) (h : (findOrCache E s c).val = some k) :
    getWidthLoop E (c :: rest) prev s w =
      ⟨(getWidthLoop E rest (some c) (kerningDelta E (findOrCache E s c).st prev k).2
          (toU16 ((addKerning w (kerningDelta E (findOrCache E s c).st prev k).1 : Int) +
            ((deref (kerningDelta E (findOrCache E s c).st prev k).2 k).glyphAdvanceX : Int)))).val,
       (getWidthLoop E rest (some c) (kerningDelta E (findOrCache E s c).st prev k).2
          (toU16 ((addKerning w (kerningDelta E (findOrCache E s c).st prev k).1 : Int) +
            ((deref (kerningDelta E (findOrCache E s c).st prev k).2 k).glyphAdvanceX : Int)))).st,
       (findOrCache E s c).ev ++
       (getWidthLoop E rest (some c) (kerningDelta E (findOrCache E s c).st prev k).2
          (toU16 ((addKerning w (kerningDelta E (findOrCache E s c).st prev k).1 : Int) +
            ((deref (kerningDelta E (findOrCache E s c).st prev k).2 k).glyphAdvanceX : Int)))).ev⟩ := by
  simp only [getWidthLoop, h]

theorem getWidthLoop_inv (E : Env) : ∀ (text : List Nat) (prev : Option Nat) (s : State) (w : Nat),
    CacheSound E s → (∀ p, prev = some p → Settled E s p) →
    CacheSound E (getWidthLoop E text prev s w).st ∧ Grows s (getWidthLoop E text prev s w).st ∧
    (∀ c ∈ text, Settled E (getWidthLoop E text prev s w).st c) ∧
    (getWidthLoop E text prev s w).st.ftKerningEnabled = s.ftKerningEnabled := by
  intro text
  induction text with
  | nil =>
    intro prev s w h _
    exact ⟨h, Grows.refl s, by simp, rfl⟩
  | cons c rest ih =>
    intro prev s w h hp
    have hs1 := findOrCache_sound E s c h
    have hg1 := findOrCache_grows E s c
    have hc1 := findOrCache_settled E s c
    have hk1 := findOrCache_kerning E s c
    cases hg : (findOrCache E s c).val with
    | none =>
      rw [getWidthLoop_cons_none E c rest prev s w hg]
      obtain ⟨a1, a2, a3, a4⟩ := ih (some c) (findOrCache E s c).st w hs1
        (by intro p hp'; cases hp'; exact hc1)
      refine ⟨a1, hg1.trans a2, ?_, a4.trans hk1⟩
      intro d hd
      rcases List.mem_cons.1 hd with rfl | hd
      · exact hc1.mono a2
      · exact a3 d hd
    | some k =>
      rw [getWidthLoop_cons_some E c k rest prev s w hg]
      have hs2 := kerningDelta_sound E (findOrCache E s c).st prev k hs1
        (fun p hp' => (hp p hp').mono hg1)
      have hg2 := kerningDelta_grows E (findOrCache E s c).st prev k
      have hk2 := kerningDelta_kerning E (findOrCache E s c).st prev k
      obtain ⟨a1, a2, a3, a4⟩ := ih (some c) (kerningDelta E (findOrCache E s c).st prev k).2
        (toU16 ((addKerning w (kerningDelta E (findOrCache E s c).st prev k).1 : Int) +
            ((deref (kerningDelta E (findOrCache E s c).st prev k).2 k).glyphAdvanceX : Int)))
        hs2 (by intro p hp'; cases hp'; exact hc1.mono hg2)
      refine ⟨a1, (hg1.trans hg2).trans a2, ?_, (a4.trans hk2).trans hk1⟩
      intro d hd
      rcases List.mem_cons.1 hd with rfl | hd
      · exact (hc1.mono hg2).mono a2
      · exact a3 d hd

theorem drawLoop_cons_none (E : Env) (y : Int) (color xo yo : Nat) (c : Nat) (rest : List Nat)
    (prev : Option Nat) (s : State) (xp pr : Nat) (h : (findOrCache E s c).val = none) :
    drawLoop E y color xo yo (c :: rest) prev s xp pr =
      ⟨(drawLoop E y color xo yo rest (some c) (findOrCache E s c).st xp pr).val,
       (drawLoop E y color xo yo rest (some c) (findOrCache E s c).st xp pr).st,
       (findOrCache E s c).ev ++
         (drawLoop E y color xo yo rest (some c) (findOrCache E s c).st xp pr).ev⟩ := by
  simp only [drawLoop, h]

theorem drawLoop_cons_some (E : Env) (y : Int) (color xo yo : Nat) (c k : Nat) (rest : List Nat)
    (prev : Option Nat) (s : State) (xp pr : Nat) (h : (findOrCache E s c).val = some k) :
    drawLoop E y color xo yo (c :: rest) prev s xp pr =
      ⟨(drawLoop E y color xo yo rest (some c) (kerningDelta E (findOrCache E s c).st prev k).2
          (toU16 ((addKerning xp (kerningDelta E (findOrCache E s c).st prev k).1 : Int) +
            ((deref (kerningDelta E (findOrCache E s c).st prev k).2 k).glyphAdvanceX : Int)))
          (toU16 ((pr : Int) + 1))).val,
       (drawLoop E y color xo yo rest (some c) (kerningDelta E (findOrCache E s c).st prev k).2
          (toU16 ((addKerning xp (kerningDelta E (findOrCache E s c).st prev k).1 : Int) +
            ((deref (kerningDelta E (findOrCache E s c).st prev k).2 k).glyphAdvanceX : Int)))
          (toU16 ((pr : Int) + 1))).st,
       (findOrCache E s c).ev ++
         drawGlyph (kerningDelta E (findOrCache E s c).st prev k).2
           (deref (kerningDelta E (findOrCache E s c).st prev k).2 k)
           (addKerning xp (kerningDelta E (findOrCache E s c).st prev k).1) xo yo y color ++
       (drawLoop E y color xo yo rest (some c) (kerningDelta E (findOrCache E s c).st prev k).2
          (toU16 ((addKerning xp (kerningDelta E (findOrCache E s c).st prev k).1 : Int) +
            ((deref (kerningDelta E (findOrCache E s c).st prev k).2 k).glyphAdvanceX : Int)))
          (toU16 ((pr : Int) + 1))).ev⟩ := by
  simp only [drawLoop, h]

theorem addKerning_shift (x0 : Int) (xp w : Nat) (d : Option Int) (h : xp = toU16 (x0 + w)) :
    addKerning xp d = toU16 (x0 + (addKerning w d : Int)) := by
  cases d with
  | none => exact h
  | some d =>
    simp only [addKerning]
    rw [h, toU16_add_left, toU16_add_right, add_assoc]

theorem drawLoop_getWidthLoop (E : Env) (y : Int) (color xo yo : Nat) (x0 : Int) :
    ∀ (text : List Nat) (prev : Option Nat) (s : State) (xp pr w : Nat),
    xp = toU16 (x0 + w) →
    (drawLoop E y color xo yo text prev s xp pr).st = (getWidthLoop E text prev s w).st ∧
    (drawLoop E y color xo yo text prev s xp pr).val.1 =
      toU16 (x0 + ((getWidthLoop E text prev s w).val : Int)) := by
  intro text
  induction text with
  | nil =>
    intro prev s xp pr w h
    exact ⟨rfl, h⟩
  | cons c rest ih =>
    intro prev s xp pr w h
    cases hg : (findOrCache E s c).val with
    | none =>
      rw [drawLoop_cons_none E y color xo yo c rest prev s xp pr hg,
        getWidthLoop_cons_none E c rest prev s w hg]
      exact ih (some c) (findOrCache E s c).st xp pr w h
    | some k =>
      rw [drawLoop_cons_some E y color xo yo c k rest prev s xp pr hg,
        getWidthLoop_cons_some E c k rest prev s w hg]
      apply ih
      rw [addKerning_shift x0 xp w _ h, toU16_add_left, toU16_add_right, add_assoc]

theorem getWidthLoop_grows (E : Env) : ∀ (text : List Nat) (prev : Option Nat) (s : State) (w : Nat),
    Grows s (getWidthLoop E text prev s w).st ∧
    (∀ c ∈ text, Settled E (getWidthLoop E text prev s w).st c) ∧
    (getWidthLoop E text prev s w).st.ftKerningEnabled = s.ftKerningEnabled := by
  intro text
  induction text with
  | nil =>
    intro prev s w
    exact ⟨Grows.refl s, by simp, rfl⟩
  | cons c rest ih =>
    intro prev s w
    have hg1 := findOrCache_grows E s c
    have hc1 := findOrCache_settled E s c
    have hk1 := findOrCache_kerning E s c
    cases hg : (findOrCache E s c).val with
    | none =>
      rw [getWidthLoop_cons_none E c rest prev s w hg]
      obtain ⟨a2, a3, a4⟩ := ih (some c) (findOrCache E s c).st w
      refine ⟨hg1.trans a2, ?_, a4.trans hk1⟩
      intro d hd
      rcases List.mem_cons.1 hd with rfl | hd
      · exact hc1.mono a2
      · exact a3 d hd
    | some k =>
      rw [getWidthLoop_cons_some E c k rest prev s w hg]
      have hg2 := kerningDelta_grows E (findOrCache E s c).st prev k
      have hk2 := kerningDelta_kerning E (findOrCache E s c).st prev k
      obtain ⟨a2, a3, a4⟩ := ih (some c) (kerningDelta E (findOrCache E s c).st prev k).2
        (toU16 ((addKerning w (kerningDelta E (findOrCache E s c).st prev k).1 : Int) +
            ((deref (kerningDelta E (findOrCache E s c).st prev k).2 k).glyphAdvanceX : Int)))
      refine ⟨(hg1.trans hg2).trans a2, ?_, (a4.trans hk2).trans hk1⟩
      intro d hd
      rcases List.mem_cons.1 hd with rfl | hd
      · exact (hc1.mono hg2).mono a2
      · exact a3 d hd

theorem deref_of_sound (E : Env) (s : State) (c : Nat) (h : CacheSound E s)
    (hm : (mapFind c s.fontData).isSome = true) (hr : rasterOK E c = true) :
    (deref s c).glyphAdvanceX = advanceOf E c ∧ (deref s c).glyphIndex = E.face.charIndex c := by
  unfold deref
  cases hf : mapFind c s.fontData with
  | none => rw [hf] at hm; cases hm
  | some r => exact h c r hf hr

theorem kerningDelta_val (E : Env) (s : State) (prev : Option Nat) (c : Nat)
    (h : CacheSound E s) (hc : (mapFind c s.fontData).isSome = true) (hr : rasterOK E c = true)
    (hp : ∀ p, prev = some p → rasterOK E p = true ∧ (mapFind p s.fontData).isSome = true) :
    kerningDelta E s prev c =
      (if s.ftKerningEnabled then
         prev.map (fun p => E.face.kerningX (E.face.charIndex p) (E.face.charIndex c) >>> 6)
       else none, s) := by
  unfold kerningDelta
  cases hk : s.ftKerningEnabled with
  | false => simp
  | true =>
    cases prev with
    | none => simp
    | some p =>
      obtain ⟨hp1, hp2⟩ := hp p rfl
      simp [fontDataIndex_hit s p hp2, (deref_of_sound E s p h hp2 hp1).2,
        (deref_of_sound E s c h hc hr).2]

theorem getWidthLoop_val (E : Env) : ∀ (text : List Nat) (prev : Option Nat) (s : State) (w : Nat),
    CacheSound E s → (∀ c ∈ text, rasterOK E c = true) →
    (∀ p, prev = some p → rasterOK E p = true ∧ (mapFind p s.fontData).isSome = true) →
    w < 65536 →
    (getWidthLoop E text prev s w).val =
      toU16 ((w : Int) + advanceSum E text +
        (if s.ftKerningEnabled then kerningSum E (prev.toList ++ text) else 0)) := by
  intro text
  induction text with
  | nil =>
    intro prev s w _ _ _ hw
    have : kerningSum E (prev.toList ++ []) = 0 := by
      cases prev <;> simp [kerningSum]
    simp only [getWidthLoop, advanceSum, this]
    unfold toU16
    split_ifs <;> omega
  | cons c rest ih =>
    intro prev s w h hok hp hw
    have hrc : rasterOK E c = true := hok c (List.mem_cons_self c rest)
    cases hg : (findOrCache E s c).val with
    | none =>
      have := (findOrCache_none E s c hg).1
      rw [this] at hrc; cases hrc
    | some k =>
      obtain ⟨hkc, hmem⟩ := findOrCache_some E s c k hg
      subst hkc
      have hs1 := findOrCache_sound E s k h
      have hg1 := findOrCache_grows E s k
      have hk1 := findOrCache_kerning E s k
      have hkd := kerningDelta_val E (findOrCache E s k).st prev k hs1 hmem hrc
        (fun p hp' => ⟨(hp p hp').1, hg1 p (hp p hp').2⟩)
      rw [getWidthLoop_cons_some E k k rest prev s w hg, hkd]
      simp only
      rw [ih (some k) (findOrCache E s k).st _ hs1
        (fun d hd => hok d (List.mem_cons_of_mem k hd))
        (by intro p hp'; cases hp'; exact ⟨hrc, hmem⟩) (toU16_lt _)]
      rw [(deref_of_sound E (findOrCache E s k).st k hs1 hmem hrc).1, hk1]
      cases hk : s.ftKerningEnabled with
      | false =>
        simp only [addKerning, advanceSum]
        unfold toU16
        simp
        omega
      | true =>
        cases prev with
        | none =>
          simp only [addKerning, advanceSum, Option.map, Option.toList, List.nil_append,
            List.singleton_append, if_true]
          unfold toU16
          omega
        | some p =>
          simp only [addKerning, advanceSum, Option.map, Option.toList, List.nil_append,
            List.singleton_append, if_true, kerningSum]
          unfold toU16
          omega

theorem getOffsetLoop_cons_none (E : Env) (c : Nat) (rest : List Nat) (s : State) (M m : Int)
    (h : (findOrCache E s c).val = none) :
    getOffsetLoop E (c :: rest) s M m =
      ⟨(getOffsetLoop E rest (findOrCache E s c).st M m).val,
       (getOffsetLoop E rest (findOrCache E s c).st M m).st,
       (findOrCache E s c).ev ++ (getOffsetLoop E rest (findOrCache E s c).st M m).ev⟩ := by
  simp only [getOffsetLoop, h]

theorem getOffsetLoop_cons_some (E : Env) (c k : Nat) (rest : List Nat) (s : State) (M m : Int)
    (h : (findOrCache E s c).val = some k) :
    getOffsetLoop E (c :: rest) s M m =
      ⟨(getOffsetLoop E rest (findOrCache E s c).st
          (if (deref (findOrCache E s c).st k).renderOffsetMax > M then
            (deref (findOrCache E s c).st k).renderOffsetMax else M)
          (if (deref (findOrCache E s c).st k).renderOffsetMin < m then
            (deref (findOrCache E s c).st k).renderOffsetMin else m)).val,
       (getOffsetLoop E rest (findOrCache E s c).st
          (if (deref (findOrCache E s c).st k).renderOffsetMax > M then
            (deref (findOrCache E s c).st k).renderOffsetMax else M)
          (if (deref (findOrCache E s c).st k).renderOffsetMin < m then
            (deref (findOrCache E s c).st k).renderOffsetMin else m)).st,
       (findOrCache E s c).ev ++
       (getOffsetLoop E rest (findOrCache E s c).st
          (if (deref (findOrCache E s c).st k).renderOffsetMax > M then
            (deref (findOrCache E s c).st k).renderOffsetMax else M)
          (if (deref (findOrCache E s c).st k).renderOffsetMin < m then
            (deref (findOrCache E s c).st k).renderOffsetMin else m)).ev⟩ := by
  simp only [getOffsetLoop, h]

theorem getOffsetLoop_inv (E : Env) : ∀ (text : List Nat) (s : State) (M m : Int),
    (CacheSound E s → CacheSound E (getOffsetLoop E text s M m).st) ∧
    Grows s (getOffsetLoop E text s M m).st ∧
    (getOffsetLoop E text s M m).st.ftKerningEnabled = s.ftKerningEnabled := by
  intro text
  induction text with
  | nil =>
    intro s M m
    exact ⟨fun h => h, Grows.refl s, rfl⟩
  | cons c rest ih =>
    intro s M m
    have hg1 := findOrCache_grows E s c
    have hk1 := findOrCache_kerning E s c
    cases hg : (findOrCache E s c).val with
    | none =>
      rw [getOffsetLoop_cons_none E c rest s M m hg]
      obtain ⟨a1, a2, a3⟩ := ih (findOrCache E s c).st M m
      exact ⟨fun h => a1 (findOrCache_sound E s c h), hg1.trans a2, a3.trans hk1⟩
    | some k =>
      rw [getOffsetLoop_cons_some E c k rest s M m hg]
      obtain ⟨a1, a2, a3⟩ := ih (findOrCache E s c).st
          (if (deref (findOrCache E s c).st k).renderOffsetMax > M then
            (deref (findOrCache E s c).st k).renderOffsetMax else M)
          (if (deref (findOrCache E s c).st k).renderOffsetMin < m then
            (deref (findOrCache E s c).st k).renderOffsetMin else m)
      exact ⟨fun h => a1 (findOrCache_sound E s c h), hg1.trans a2, a3.trans hk1⟩

theorem findOrCache_st_of_settled (E : Env) (s : State) (c : Nat) (h : Settled E s c) :
    (findOrCache E s c).st = s := by
  cases hm : mapFind c s.fontData with
  | some r => rw [findOrCache_hit E s c (by rw [hm]; rfl)]
  | none =>
    rcases h with h | h
    · rw [hm] at h; cases h
    · rw [findOrCache_miss E s c hm, cacheGlyphData_fail E s c h]

theorem getOffsetLoop_st_of_settled (E : Env) : ∀ (text : List Nat) (s : State) (M m : Int),
    (∀ c ∈ text, Settled E s c) → (getOffsetLoop E text s M m).st = s := by
  intro text
  induction text with
  | nil => intro s M m _; rfl
  | cons c rest ih =>
    intro s M m h
    have h1 := findOrCache_st_of_settled E s c (h c (List.mem_cons_self c rest))
    cases hg : (findOrCache E s c).val with
    | none =>
      rw [getOffsetLoop_cons_none E c rest s M m hg, h1]
      exact ih s M m (fun d hd => h d (List.mem_cons_of_mem c hd))
    | some k =>
      rw [getOffsetLoop_cons_some E c k rest s M m hg, h1]
      exact ih s _ _ (fun d hd => h d (List.mem_cons_of_mem c hd))

theorem drawnTextures_append (a b : List Event) :
    drawnTextures (a ++ b) = drawnTextures a ++ drawnTextures b := by
  induction a with
  | nil => rfl
  | cons e rest ih => cases e <;> simp [drawnTextures, ih]

theorem drawnTextures_of_noDraw (a : List Event) (h : ∀ e ∈ a, e.isDraw = false) :
    drawnTextures a = [] := by
  induction a with
  | nil => rfl
  | cons e rest ih =>
    have h1 := h e (List.mem_cons_self e rest)
    have h2 := ih (fun d hd => h d (List.mem_cons_of_mem e hd))
    cases e <;> simp_all [drawnTextures, Event.isDraw]

theorem cacheGlyphData_noDraw (E : Env) (s : State) (c : Nat) :
    ∀ e ∈ (cacheGlyphData E s c).ev, e.isDraw = false := by
  unfold cacheGlyphData loadGlyphData
  cases hl : E.face.loadGlyph (E.face.charIndex c) with
  | none => simp [hl, Event.isDraw]
  | some slot =>
    simp only [hl]
    split_ifs
    all_goals simp [Xe_CreateTexture, Xe_DestroyTexture, Event.isDraw]
    split <;> simp [Xe_DestroyTexture, Event.isDraw]

theorem findOrCache_noDraw (E : Env) (s : State) (c : Nat) :
    ∀ e ∈ (findOrCache E s c).ev, e.isDraw = false := by
  rcases findOrCache_cases E s c with h1 | h1 <;> rw [h1]
  · simp
  · exact cacheGlyphData_noDraw E s c

theorem getWidthLoop_noDraw (E : Env) : ∀ (text : List Nat) (prev : Option Nat) (s : State)
    (w : Nat), ∀ e ∈ (getWidthLoop E text prev s w).ev, e.isDraw = false := by
  intro text
  induction text with
  | nil => intro prev s w e he; simp [getWidthLoop] at he
  | cons c rest ih =>
    intro prev s w e he
    cases hg : (findOrCache E s c).val with
    | none =>
      rw [getWidthLoop_cons_none E c rest prev s w hg] at he
      rcases List.mem_append.1 he with h | h
      · exact findOrCache_noDraw E s c e h
      · exact ih _ _ _ e h
    | some k =>
      rw [getWidthLoop_cons_some E c k rest prev s w hg] at he
      rcases List.mem_append.1 he with h | h
      · exact findOrCache_noDraw E s c e h
      · exact ih _ _ _ e h

theorem getOffsetLoop_noDraw (E : Env) : ∀ (text : List Nat) (s : State) (M m : Int),
    ∀ e ∈ (getOffsetLoop E text s M m).ev, e.isDraw = false := by
  intro text
  induction text with
  | nil => intro s M m e he; simp [getOffsetLoop] at he
  | cons c rest ih =>
    intro s M m e he
    cases hg : (findOrCache E s c).val with
    | none =>
      rw [getOffsetLoop_cons_none E c rest s M m hg] at he
      rcases List.mem_append.1 he with h | h
      · exact findOrCache_noDraw E s c e h
      · exact ih _ _ _ e h
    | some k =>
      rw [getOffsetLoop_cons_some E c k rest s M m hg] at he
      rcases List.mem_append.1 he with h | h
      · exact findOrCache_noDraw E s c e h
      · exact ih _ _ _ e h

theorem drawnTextures_drawGlyph (s : State) (gd : ftgxCharData) (xp xo yo : Nat) (y : Int)
    (color : Nat) : drawnTextures (drawGlyph s gd xp xo yo y color) = gd.glyphDataTexture.toList := by
  unfold drawGlyph
  cases gd.glyphDataTexture <;> simp [drawnTextures]

theorem drawGlyph_isDraw (s : State) (gd : ftgxCharData) (xp xo yo : Nat) (y : Int)
    (color : Nat) : ∀ e ∈ drawGlyph s gd xp xo yo y color, e.isDraw = true := by
  unfold drawGlyph
  cases gd.glyphDataTexture <;> simp [Event.isDraw]

theorem drawLoop_resolve (E : Env) (y : Int) (color xo yo : Nat) :
    ∀ (text : List Nat) (prev : Option Nat) (s : State) (xp pr : Nat),
    xp < 65536 → pr < 65536 →
    (drawLoop E y color xo yo text prev s xp pr).val.2 =
      toU16 ((pr : Int) + (resolvedCount (resolveAll E text prev s) : Int)) ∧
    (drawLoop E y color xo yo text prev s xp pr).val.1 =
      toU16 ((xp : Int) + resolvedShift (resolveAll E text prev s)) ∧
    drawnTextures (drawLoop E y color xo yo text prev s xp pr).ev =
      resolvedTextures (resolveAll E text prev s) := by
  intro text
  induction text with
  | nil =>
    intro prev s xp pr hx hp
    simp only [drawLoop, resolveAll, resolvedCount, resolvedShift, resolvedTextures, drawnTextures,
      List.filter_nil, List.length_nil, List.filterMap_nil]
    refine ⟨?_, ?_, trivial⟩
    · unfold toU16; omega
    · unfold toU16; omega
  | cons c rest ih =>
    intro prev s xp pr hx hp
    cases hg : (findOrCache E s c).val with
    | none =>
      rw [drawLoop_cons_none E y color xo yo c rest prev s xp pr hg]
      obtain ⟨a1, a2, a3⟩ := ih (some c) (findOrCache E s c).st xp pr hx hp
      simp only [resolveAll, hg]
      refine ⟨?_, ?_, ?_⟩
      · simpa [resolvedCount] using a1
      · simpa [resolvedShift] using a2
      · simp only [drawnTextures_append,
          drawnTextures_of_noDraw _ (findOrCache_noDraw E s c), List.nil_append, a3]
        simp [resolvedTextures]
    | some k =>
      rw [drawLoop_cons_some E y color xo yo c k rest prev s xp pr hg]
      obtain ⟨a1, a2, a3⟩ := ih (some c) (kerningDelta E (findOrCache E s c).st prev k).2
        (toU16 ((addKerning xp (kerningDelta E (findOrCache E s c).st prev k).1 : Int) +
            ((deref (kerningDelta E (findOrCache E s c).st prev k).2 k).glyphAdvanceX : Int)))
        (toU16 ((pr : Int) + 1)) (toU16_lt _) (toU16_lt _)
      simp only [resolveAll, hg]
      refine ⟨?_, ?_, ?_⟩
      · rw [a1]
        simp only [resolvedCount, List.filter_cons, Option.isSome_some, if_true, List.length_cons]
        unfold toU16; omega
      · rw [a2]
        simp only [resolvedShift]
        cases (kerningDelta E (findOrCache E s c).st prev k).1 with
        | none => simp only [addKerning, Option.getD]; unfold toU16; omega
        | some d => simp only [addKerning, Option.getD]; unfold toU16; omega
      · simp only [drawnTextures_append,
          drawnTextures_of_noDraw _ (findOrCache_noDraw E s c), List.nil_append, a3,
          drawnTextures_drawGlyph]
        cases hh : (deref (kerningDelta E (findOrCache E s c).st prev k).2 k).glyphDataTexture <;>
          simp [resolvedTextures, hh]

theorem getWidthLoop_warm (E : Env) : ∀ (text : List Nat) (prev : Option Nat) (s : State) (w : Nat),
    (∀ c ∈ text, (mapFind c s.fontData).isSome = true) →
    (∀ p, prev = some p → (mapFind p s.fontData).isSome = true) →
    (getWidthLoop E text prev s w).st = s ∧ (getWidthLoop E text prev s w).ev = [] := by
  intro text
  induction text with
  | nil => intro prev s w _ _; exact ⟨rfl, rfl⟩
  | cons c rest ih =>
    intro prev s w h hp
    have hc := h c (List.mem_cons_self c rest)
    have hf := findOrCache_hit E s c hc
    have hg : (findOrCache E s c).val = some c := by rw [hf]
    rw [getWidthLoop_cons_some E c c rest prev s w hg, hf]
    simp only [kerningDelta_hit E s prev c hp, List.nil_append]
    exact ih (some c) s _ (fun d hd => h d (List.mem_cons_of_mem c hd))
      (by intro p hp'; cases hp'; exact hc)

theorem getOffsetLoop_warm (E : Env) : ∀ (text : List Nat) (s : State) (M m : Int),
    (∀ c ∈ text, (mapFind c s.fontData).isSome = true) →
    (getOffsetLoop E text s M m).st = s ∧ (getOffsetLoop E text s M m).ev = [] := by
  intro text
  induction text with
  | nil => intro s M m _; exact ⟨rfl, rfl⟩
  | cons c rest ih =>
    intro s M m h
    have hc := h c (List.mem_cons_self c rest)
    have hf := findOrCache_hit E s c hc
    have hg : (findOrCache E s c).val = some c := by rw [hf]
    rw [getOffsetLoop_cons_some E c c rest s M m hg, hf]
    simp only [List.nil_append]
    exact ih s _ _ (fun d hd => h d (List.mem_cons_of_mem c hd))

theorem drawLoop_warm (E : Env) (y : Int) (color xo yo : Nat) :
    ∀ (text : List Nat) (prev : Option Nat) (s : State) (xp pr : Nat),
    (∀ c ∈ text, (mapFind c s.fontData).isSome = true) →
    (∀ p, prev = some p → (mapFind p s.fontData).isSome = true) →
    (drawLoop E y color xo yo text prev s xp pr).st = s ∧
    ∀ e ∈ (drawLoop E y color xo yo text prev s xp pr).ev, e.isDraw = true := by
  intro text
  induction text with
  | nil => intro prev s xp pr _ _; exact ⟨rfl, by simp [drawLoop]⟩
  | cons c rest ih =>
    intro prev s xp pr h hp
    have hc := h c (List.mem_cons_self c rest)
    have hf := findOrCache_hit E s c hc
    have hg : (findOrCache E s c).val = some c := by rw [hf]
    rw [drawLoop_cons_some E y color xo yo c c rest prev s xp pr hg, hf]
    simp only [kerningDelta_hit E s prev c hp, List.nil_append]
    obtain ⟨a1, a2⟩ := ih (some c) s
      (toU16 ((addKerning xp (kerningDelta E s prev c).1 : Int) + ((deref s c).glyphAdvanceX : Int)))
      (toU16 ((pr : Int) + 1)) (fun d hd => h d (List.mem_cons_of_mem c hd))
      (by intro p hp'; cases hp'; exact hc)
    refine ⟨a1, ?_⟩
    intro e he
    rcases List.mem_append.1 he with h1 | h1
    · exact drawGlyph_isDraw _ _ _ _ _ _ _ e h1
    · exact a2 e h1

theorem drawLoop_st (E : Env) (y : Int) (color xo yo : Nat) :
    ∀ (text : List Nat) (prev : Option Nat) (s : State) (xp pr w : Nat),
    (drawLoop E y color xo yo text prev s xp pr).st = (getWidthLoop E text prev s w).st := by
  intro text
  induction text with
  | nil => intro prev s xp pr w; rfl
  | cons c rest ih =>
    intro prev s xp pr w
    cases hg : (findOrCache E s c).val with
    | none =>
      rw [drawLoop_cons_none E y color xo yo c rest prev s xp pr hg,
        getWidthLoop_cons_none E c rest prev s w hg]
      exact ih (some c) (findOrCache E s c).st xp pr w
    | some k =>
      rw [drawLoop_cons_some E y color xo yo c k rest prev s xp pr hg,
        getWidthLoop_cons_some E c k rest prev s w hg]
      exact ih _ _ _ _ _

theorem construct_sound (E : Env) (pixelSize vertexIndex : Nat) (mallocOk : Bool) :
    CacheSound E (construct E pixelSize vertexIndex mallocOk) := by
  intro c r h _
  simp [construct, mapFind] at h

theorem unloadFont_sound (E : Env) (s : State) (h : CacheSound E s) :
    CacheSound E (unloadFont s).st := by
  unfold unloadFont
  split_ifs
  · exact h
  · intro c r hc _
    simp [mapFind] at hc

theorem getWidth_sound (E : Env) (s : State) (text : List Nat) (h : CacheSound E s) :
    CacheSound E (getWidth E s text).st :=
  (getWidthLoop_inv E (cstr text) none s 0 h (by intro p hp; cases hp)).1

theorem getOffset_sound (E : Env) (s : State) (text : List Nat) (h : CacheSound E s) :
    CacheSound E (getOffset E s text).st :=
  (getOffsetLoop_inv E (cstr text) s 0 9999).1 h

theorem drawTextRun_sound (E : Env) (s : State) (x y : Int) (text : List Nat)
    (color textStyle : Nat) (h : CacheSound E s) :
    CacheSound E (drawTextRun E s x y text color textStyle).st := by
  have hj : CacheSound E (justifyPass E s text textStyle).st := by
    unfold justifyPass
    split_ifs
    · exact getWidth_sound E s text h
    · exact h
  have ha : CacheSound E (alignPass E (justifyPass E s text textStyle).st text textStyle).st := by
    unfold alignPass
    split_ifs
    · exact getOffset_sound E _ text hj
    · exact hj
  have hl := (getWidthLoop_inv E (cstr text) none _ (toU16 x) ha (by intro p hp; cases hp)).1
  rw [← drawLoop_st E y color (justifyPass E s text textStyle).val
    (alignPass E (justifyPass E s text textStyle).st text textStyle).val (cstr text) none _
    (toU16 x) 0 (toU16 x)] at hl
  show CacheSound E (stylePass E _ text textStyle).st
  unfold stylePass
  split_ifs
  · exact getOffset_sound E _ text hl
  · exact hl

theorem Reachable.sound {E : Env} {s : State} (h : Reachable E s) : CacheSound E s := by
  induction h with
  | fresh p v m => exact construct_sound E p v m
  | cache c _ ih => exact cacheGlyphData_sound E _ c ih
  | width text _ ih => exact getWidth_sound E _ text ih
  | height text _ ih => exact getOffset_sound E _ text ih
  | offset text _ ih => exact getOffset_sound E _ text ih
  | draw x y text color textStyle _ ih => exact drawTextRun_sound E _ x y text color textStyle ih
  | unload _ ih => exact unloadFont_sound E _ ih

theorem toI16_of_range (z : Int) (h1 : -32768 ≤ z) (h2 : z < 32768) : toI16 z = z := by
  unfold toI16; omega

theorem resolvedTextures_length_le (l : List (Option (Option Int × ftgxCharData))) :
    (resolvedTextures l).length ≤ resolvedCount l := by
  induction l with
  | nil => simp [resolvedTextures, resolvedCount]
  | cons o rest ih =>
    cases o with
    | none => simpa [resolvedTextures, resolvedCount] using ih
    | some p =>
      cases hp : p.2.glyphDataTexture with
      | none =>
        simp only [resolvedTextures, resolvedCount] at ih ⊢
        simp [hp]
        omega
      | some t =>
        simp only [resolvedTextures, resolvedCount] at ih ⊢
        simp [hp]
        omega

theorem resolvedCount_le (l : List (Option (Option Int × ftgxCharData))) :
    resolvedCount l ≤ l.length := by
  unfold resolvedCount
  exact List.length_filter_le _ _

theorem resolveAll_length (E : Env) : ∀ (text : List Nat) (prev : Option Nat) (s : State),
    (resolveAll E text prev s).length = text.length := by
  intro text
  induction text with
  | nil => intro prev s; rfl
  | cons c rest ih =>
    intro prev s
    cases hg : (findOrCache E s c).val with
    | none => simp [resolveAll, hg, ih]
    | some k => simp [resolveAll, hg, ih]

theorem resolveAll_of_rasterOK (E : Env) : ∀ (text : List Nat) (prev : Option Nat) (s : State),
    (∀ c ∈ text, rasterOK E c = true) →
    resolvedCount (resolveAll E text prev s) = text.length := by
  intro text
  induction text with
  | nil => intro prev s _; rfl
  | cons c rest ih =>
    intro prev s h
    cases hg : (findOrCache E s c).val with
    | none =>
      have h1 := (findOrCache_none E s c hg).1
      rw [h c (List.mem_cons_self c rest)] at h1
      cases h1
    | some k =>
      have := ih (some c) (kerningDelta E (findOrCache E s c).st prev k).2
        (fun d hd => h d (List.mem_cons_of_mem c hd))
      simp only [resolvedCount] at this
      simp [resolveAll, hg, resolvedCount, this]

theorem cstr_replicate (n c : Nat) (h : c ≠ 0) : cstr (List.replicate n c) = List.replicate n c := by
  unfold cstr
  induction n with
  | zero => rfl
  | succ n ih => simp [List.replicate_succ, List.takeWhile_cons, h, ih]

theorem justifyPass_off (E : Env) (s : State) (text : List Nat) (textStyle : Nat)
    (h : textStyle &&& E.K.FTGX_JUSTIFY_MASK = 0) : justifyPass E s text textStyle = ⟨0, s, []⟩ := by
  unfold justifyPass
  simp [h]

theorem alignPass_off (E : Env) (s : State) (text : List Nat) (textStyle : Nat)
    (h : textStyle &&& E.K.FTGX_ALIGN_MASK = 0) : alignPass E s text textStyle = ⟨0, s, []⟩ := by
  unfold alignPass
  simp [h]

theorem justifyPass_noDraw (E : Env) (s : State) (text : List Nat) (textStyle : Nat) :
    ∀ e ∈ (justifyPass E s text textStyle).ev, e.isDraw = false := by
  unfold justifyPass
  split_ifs
  · exact getWidthLoop_noDraw E _ _ _ _
  · simp

theorem alignPass_noDraw (E : Env) (s : State) (text : List Nat) (textStyle : Nat) :
    ∀ e ∈ (alignPass E s text textStyle).ev, e.isDraw = false := by
  unfold alignPass
  split_ifs
  · exact getOffsetLoop_noDraw E _ _ _ _
  · simp

theorem stylePass_noDraw (E : Env) (s : State) (text : List Nat) (textStyle : Nat) :
    ∀ e ∈ (stylePass E s text textStyle).ev, e.isDraw = false := by
  unfold stylePass
  split_ifs
  · exact getOffsetLoop_noDraw E _ _ _ _
  · simp

theorem drawTextRun_resolve (E : Env) (s : State) (x y : Int) (text : List Nat)
    (color textStyle : Nat) :
    (drawTextRun E s x y text color textStyle).val.2 =
      toU16 (resolvedCount (resolved E s text textStyle) : Int) ∧
    (drawTextRun E s x y text color textStyle).val.1 =
      toU16 (x + resolvedShift (resolved E s text textStyle)) ∧
    drawnTextures (drawTextRun E s x y text color textStyle).ev =
      resolvedTextures (resolved E s text textStyle) := by
  obtain ⟨a1, a2, a3⟩ := drawLoop_resolve E y color (justifyPass E s text textStyle).val
    (alignPass E (justifyPass E s text textStyle).st text textStyle).val (cstr text) none
    (drawStart E s text textStyle) (toU16 x) 0 (toU16_lt x) (by norm_num)
  refine ⟨?_, ?_, ?_⟩
  · show (drawLoop E y color _ _ (cstr text) none (drawStart E s text textStyle) (toU16 x) 0).val.2 = _
    rw [a1]; unfold resolved; simp
  · show (drawLoop E y color _ _ (cstr text) none (drawStart E s text textStyle) (toU16 x) 0).val.1 = _
    rw [a2, toU16_add_left]; rfl
  · show drawnTextures ((justifyPass E s text textStyle).ev ++
      (alignPass E (justifyPass E s text textStyle).st text textStyle).ev ++
      (drawLoop E y color _ _ (cstr text) none (drawStart E s text textStyle) (toU16 x) 0).ev ++
      (stylePass E _ text textStyle).ev) = _
    simp only [drawnTextures_append, drawnTextures_of_noDraw _ (justifyPass_noDraw E s text textStyle),
      drawnTextures_of_noDraw _ (alignPass_noDraw E _ text textStyle),
      drawnTextures_of_noDraw _ (stylePass_noDraw E _ text textStyle), List.nil_append,
      List.append_nil, a3]
    rfl

theorem drawText_val (E : Env) (s : State) (x y : Int) (text : List Nat) (color textStyle : Nat) :
    (drawText E s x y text color textStyle).val =
      (drawTextRun E s x y text color textStyle).val.2 := rfl

/-! ## Theorems about the claims -/

/-- C1 (what the code does): `cacheGlyphData` never issues `Xe_DestroyTexture`,
because it overwrites the record, handle included, before `loadGlyphData`
looks for an old handle. On the sample face, caching `A` twice on a fresh
instance stores handle 0 and then handle 1 with the same metrics, while
texture 0 stays live on the device and belongs to no record. -/
theorem cacheGlyphData_twice_keeps_first_texture :
    (∀ (E : Env) (s : State) (c t : Nat), Event.Xe_DestroyTexture t ∉ (cacheGlyphData E s c).ev) ∧
    (deref (cacheGlyphData sampleEnv sampleFresh 65).st 65).glyphDataTexture = some 0 ∧
    deref (cacheGlyphData sampleEnv (cacheGlyphData sampleEnv sampleFresh 65).st 65).st 65 =
      { deref (cacheGlyphData sampleEnv sampleFresh 65).st 65 with glyphDataTexture := some 1 } ∧
    (mapFind 0 (cacheGlyphData sampleEnv
      (cacheGlyphData sampleEnv sampleFresh 65).st 65).st.surfaces).isSome = true ∧
    (cacheGlyphData sampleEnv (cacheGlyphData sampleEnv sampleFresh 65).st 65).ev =
      [Event.FT_Load_Glyph 36, Event.Xe_CreateTexture 1 32 32, Event.Xe_Surface_LockRect 1,
        Event.Xe_Surface_Unlock 1] ∧
    ownedTextures (cacheGlyphData sampleEnv
      (cacheGlyphData sampleEnv sampleFresh 65).st 65).st.fontData = [1] := by
  refine ⟨?_, by decide, by decide, by decide, by decide, by decide⟩
  intro E s c t
  unfold cacheGlyphData loadGlyphData
  cases hl : E.face.loadGlyph (E.face.charIndex c) with
  | none => simp [hl]
  | some slot =>
    simp only [hl]
    split_ifs
    all_goals simp [Xe_CreateTexture, Xe_DestroyTexture, deref, mapFind_mapSet_self, recordOfSlot]

/-- C2: `getWidth` of the empty text is 0, and in a reachable state, for a
text all of whose characters render, `getWidth` is the 16-bit sum of the
advances, plus the sum of `kerning.x >> 6` over adjacent characters when
kerning is enabled; the value does not depend on what is cached already. -/
theorem getWidth_eq_advances_plus_kerning (E : Env) (s : State) (text : List Nat)
    (hs : Reachable E s) (hok : ∀ c ∈ cstr text, rasterOK E c = true) :
    (getWidth E s []).val = 0 ∧
    (getWidth E s text).val =
      toU16 (advanceSum E (cstr text) +
        (if s.ftKerningEnabled then kerningSum E (cstr text) else 0)) := by
  refine ⟨rfl, ?_⟩
  unfold getWidth
  rw [getWidthLoop_val E (cstr text) none s 0 hs.sound hok (by intro p hp; cases hp) (by norm_num)]
  simp

/-- Witness of C2 on the sample face: the text `AV A` on a fresh instance. -/
theorem getWidth_eq_advances_plus_kerning_witness :
    (getWidth sampleEnv sampleFresh []).val = 0 ∧
    (getWidth sampleEnv sampleFresh [65, 86, 32, 65]).val =
      toU16 (advanceSum sampleEnv (cstr [65, 86, 32, 65]) +
        (if sampleFresh.ftKerningEnabled then kerningSum sampleEnv (cstr [65, 86, 32, 65]) else 0)) :=
  getWidth_eq_advances_plus_kerning sampleEnv sampleFresh [65, 86, 32, 65]
    (Reachable.fresh 24 0 true) (by decide)

/-- C3: with no justification and no alignment bit in the style word,
`drawText` ends with its cursor at `x + getWidth(text)` in 16-bit unsigned
arithmetic, and it leaves the same state, glyph map included, as `getWidth`
from the same starting state. -/
theorem drawText_cursor_eq_x_plus_getWidth (E : Env) (s : State) (x y : Int) (text : List Nat)
    (color textStyle : Nat) (hj : textStyle &&& E.K.FTGX_JUSTIFY_MASK = 0)
    (ha : textStyle &&& E.K.FTGX_ALIGN_MASK = 0) :
    (drawTextRun E s x y text color textStyle).val.1 =
      toU16 (x + ((getWidth E s text).val : Int)) ∧
    (drawText E s x y text color textStyle).st = (getWidth E s text).st ∧
    (drawText E s x y text color textStyle).st.fontData = (getWidth E s text).st.fontData := by
  have hl := drawLoop_getWidthLoop E y color 0 0 x (cstr text) none s (toU16 x) 0 0 (by simp)
  have hst : (drawText E s x y text color textStyle).st = (getWidth E s text).st := by
    show (stylePass E (drawLoop E y color _ _ (cstr text) none _ (toU16 x) 0).st text textStyle).st = _
    rw [justifyPass_off E s text textStyle hj, alignPass_off E s text textStyle ha]
    unfold stylePass
    split_ifs
    · show (getOffsetLoop E (cstr text) _ 0 9999).st = _
      rw [hl.1]
      exact getOffsetLoop_st_of_settled E (cstr text) _ 0 9999
        (getWidthLoop_grows E (cstr text) none s 0).2.1
    · exact hl.1
  refine ⟨?_, hst, by rw [hst]⟩
  show (drawLoop E y color _ _ (cstr text) none _ (toU16 x) 0).val.1 = _
  rw [justifyPass_off E s text textStyle hj, alignPass_off E s text textStyle ha]
  exact hl.2

/-- Witness of C3 on the sample face: drawing `AV A` at x = 10 with style 0. -/
theorem drawText_cursor_eq_x_plus_getWidth_witness :
    (drawTextRun sampleEnv sampleFresh 10 20 [65, 86, 32, 65] 0 0).val.1 =
      toU16 (10 + ((getWidth sampleEnv sampleFresh [65, 86, 32, 65]).val : Int)) ∧
    (drawText sampleEnv sampleFresh 10 20 [65, 86, 32, 65] 0 0).st =
      (getWidth sampleEnv sampleFresh [65, 86, 32, 65]).st ∧
    (drawText sampleEnv sampleFresh 10 20 [65, 86, 32, 65] 0 0).st.fontData =
      (getWidth sampleEnv sampleFresh [65, 86, 32, 65]).st.fontData :=
  drawText_cursor_eq_x_plus_getWidth sampleEnv sampleFresh 10 20 [65, 86, 32, 65] 0 0
    (by decide) (by decide)

/-- C4 (what the code does): on the sample face, where `X` and `Y` cannot be
rendered, `getWidth` of `XYA` on a fresh instance with kerning leaves 2
records (for `A`, and a zero record that `fontData[text[i - 1]]` inserted for
`Y`); a second `getWidth` of the same text finds the record of `Y`, reads
`fontData[X]` for its kerning and so adds a third record. When the face kerns
before glyph 0, the value changes as well: `AXV` measures 7, then 9. -/
theorem getWidth_twice_adds_record :
    rasterOK sampleEnv 88 = false ∧ rasterOK sampleEnv 89 = false ∧
    (getWidth sampleEnv sampleFresh [88, 89, 65]).st.fontData.length = 2 ∧
    mapFind 89 (getWidth sampleEnv sampleFresh [88, 89, 65]).st.fontData =
      some ftgxCharData.zero ∧
    (getWidth sampleEnv (getWidth sampleEnv sampleFresh [88, 89, 65]).st
      [88, 89, 65]).st.fontData.length = 3 ∧
    mapFind 88 (getWidth sampleEnv (getWidth sampleEnv sampleFresh [88, 89, 65]).st
      [88, 89, 65]).st.fontData = some ftgxCharData.zero ∧
    (getWidth sampleEnvNotdefKerning (construct sampleEnvNotdefKerning 24 0 true)
      [65, 88, 86]).val = 7 ∧
    (getWidth sampleEnvNotdefKerning
      (getWidth sampleEnvNotdefKerning (construct sampleEnvNotdefKerning 24 0 true)
        [65, 88, 86]).st [65, 88, 86]).val = 9 := by
  decide

/-- C5 (what the code does): on the sample face, `drawText` of `XAX` on a
fresh instance with kerning returns 2: the second `X` is counted although `X`
cannot be rendered, through the zero record that `fontData[text[i - 1]]`
inserted under `X` while kerning `A`; `cacheGlyphData` never stored it. -/
theorem drawText_counts_unrendered_code :
    rasterOK sampleEnv 88 = false ∧
    (cacheGlyphData sampleEnv sampleFresh 88).val = none ∧
    (drawText sampleEnv sampleFresh 10 20 [88, 65, 88] 0 0).val = 2 ∧
    mapFind 88 (drawText sampleEnv sampleFresh 10 20 [88, 65, 88] 0 0).st.fontData =
      some ftgxCharData.zero := by
  decide

/-- C6 (the claim as stated fails): on the sample face a text of 65536 `A`
resolves a record for each of its 65536 characters, and `drawText` returns 0,
its counter being a `uint16_t`. -/
theorem drawText_count_wraps :
    resolvedCount (resolved sampleEnv sampleFresh (List.replicate 65536 65) 0) = 65536 ∧
    (drawText sampleEnv sampleFresh 0 0 (List.replicate 65536 65) 0 0).val = 0 := by
  have hc : resolvedCount (resolved sampleEnv sampleFresh (List.replicate 65536 65) 0) = 65536 := by
    unfold resolved
    rw [cstr_replicate 65536 65 (by decide), resolveAll_of_rasterOK]
    · exact List.length_replicate 65536 65
    · intro c hc
      rw [List.eq_of_mem_replicate hc]
      decide
  refine ⟨hc, ?_⟩
  rw [drawText_val, (drawTextRun_resolve sampleEnv sampleFresh 0 0 (List.replicate 65536 65) 0 0).1,
    hc]
  unfold toU16
  omega

/-- C6 (amended): `drawText` returns, modulo 2^16, the number of characters
for which its loop resolved a record, and that number itself for a text of
fewer than 65536 characters; the `Menu_T` calls it issues are, in text order,
exactly those for the resolved records that own a texture; every resolved
character moves the cursor by its kerning term and advance, texture or not;
and draws issued <= resolved characters <= length of the text. -/
theorem drawText_count_and_draws (E : Env) (s : State) (x y : Int) (text : List Nat)
    (color textStyle : Nat) :
    (drawText E s x y text color textStyle).val =
      toU16 (resolvedCount (resolved E s text textStyle) : Int) ∧
    drawnTextures (drawText E s x y text color textStyle).ev =
      resolvedTextures (resolved E s text textStyle) ∧
    (drawTextRun E s x y text color textStyle).val.1 =
      toU16 (x + resolvedShift (resolved E s text textStyle)) ∧
    (drawnTextures (drawText E s x y text color textStyle).ev).length ≤
      resolvedCount (resolved E s text textStyle) ∧
    resolvedCount (resolved E s text textStyle) ≤ (cstr text).length ∧
    ((cstr text).length < 65536 →
      (drawText E s x y text color textStyle).val = resolvedCount (resolved E s text textStyle)) := by
  obtain ⟨a1, a2, a3⟩ := drawTextRun_resolve E s x y text color textStyle
  have hle : resolvedCount (resolved E s text textStyle) ≤ (cstr text).length := by
    have := resolvedCount_le (resolved E s text textStyle)
    unfold resolved at this ⊢
    rwa [resolveAll_length] at this
  refine ⟨a1, a3, a2, ?_, hle, ?_⟩
  · show (drawnTextures (drawTextRun E s x y text color textStyle).ev).length ≤ _
    rw [a3]
    exact resolvedTextures_length_le _
  · intro hlt
    show (drawTextRun E s x y text color textStyle).val.2 = _
    rw [a1]
    exact toU16_of_lt _ (by omega)

/-- Witness of C6 on the sample face: `XA A` drawn on a fresh instance. -/
theorem drawText_count_and_draws_witness :
    (cstr [88, 65, 32, 65]).length < 65536 ∧
    (drawText sampleEnv sampleFresh 10 20 [88, 65, 32, 65] 0 0).val =
      resolvedCount (resolved sampleEnv sampleFresh [88, 65, 32, 65] 0) :=
  ⟨by decide,
    (drawText_count_and_draws sampleEnv sampleFresh 10 20 [88, 65, 32, 65] 0 0).2.2.2.2.2
      (by decide)⟩

/-- C7: when every character of the text has a record in the glyph map,
`getWidth` and `getOffset` leave the whole state (glyph map and device) as
it was and call no collaborator, and `drawText` leaves the state as it was
and issues nothing but `Menu_T` draws. -/
theorem warm_text_leaves_cache_unchanged (E : Env) (s : State) (text : List Nat) (x y : Int)
    (color textStyle : Nat) (h : ∀ c ∈ cstr text, (mapFind c s.fontData).isSome = true) :
    (getWidth E s text).st = s ∧ (getWidth E s text).ev = [] ∧
    (getOffset E s text).st = s ∧ (getOffset E s text).ev = [] ∧
    (drawText E s x y text color textStyle).st = s ∧
    ∀ e ∈ (drawText E s x y text color textStyle).ev, e.isDraw = true := by
  have hw := getWidthLoop_warm E (cstr text) none s 0 h (by intro p hp; cases hp)
  have ho := getOffsetLoop_warm E (cstr text) s 0 9999 h
  have hj : (justifyPass E s text textStyle).st = s ∧ (justifyPass E s text textStyle).ev = [] := by
    unfold justifyPass
    split_ifs
    · exact hw
    · exact ⟨rfl, rfl⟩
  have ha : (alignPass E s text textStyle).st = s ∧ (alignPass E s text textStyle).ev = [] := by
    unfold alignPass
    split_ifs
    · exact ho
    · exact ⟨rfl, rfl⟩
  have ht : (stylePass E s text textStyle).st = s ∧ (stylePass E s text textStyle).ev = [] := by
    unfold stylePass
    split_ifs
    · exact ho
    · exact ⟨rfl, rfl⟩
  have hl := drawLoop_warm E y color (justifyPass E s text textStyle).val
    (alignPass E s text textStyle).val (cstr text) none s (toU16 x) 0 h (by intro p hp; cases hp)
  refine ⟨hw.1, hw.2, ho.1, ho.2, ?_, ?_⟩
  · show (stylePass E (drawLoop E y color _ _ (cstr text) none
      (alignPass E (justifyPass E s text textStyle).st text textStyle).st (toU16 x) 0).st
      text textStyle).st = s
    rw [hj.1, ha.1, hl.1, ht.1]
  · show ∀ e ∈ (justifyPass E s text textStyle).ev ++
      (alignPass E (justifyPass E s text textStyle).st text textStyle).ev ++
      (drawLoop E y color _ _ (cstr text) none
        (alignPass E (justifyPass E s text textStyle).st text textStyle).st (toU16 x) 0).ev ++
      (stylePass E (drawLoop E y color _ _ (cstr text) none
        (alignPass E (justifyPass E s text textStyle).st text textStyle).st (toU16 x) 0).st
        text textStyle).ev, e.isDraw = true
    rw [hj.1, ha.1, hl.1, hj.2, ha.2, ht.2]
    simpa using hl.2

/-- Witness of C7 on the sample face: `AV` measured and drawn (centred, on
the baseline of the glyphs) after `getWidth` has cached both. -/
theorem warm_text_leaves_cache_unchanged_witness :
    (getWidth sampleEnv (getWidth sampleEnv sampleFresh [65, 86]).st [65, 86]).st =
      (getWidth sampleEnv sampleFresh [65, 86]).st ∧
    (getWidth sampleEnv (getWidth sampleEnv sampleFresh [65, 86]).st [65, 86]).ev = [] ∧
    (getOffset sampleEnv (getWidth sampleEnv sampleFresh [65, 86]).st [65, 86]).st =
      (getWidth sampleEnv sampleFresh [65, 86]).st ∧
    (getOffset sampleEnv (getWidth sampleEnv sampleFresh [65, 86]).st [65, 86]).ev = [] ∧
    (drawText sampleEnv (getWidth sampleEnv sampleFresh [65, 86]).st 10 20 [65, 86] 0 0x22).st =
      (getWidth sampleEnv sampleFresh [65, 86]).st ∧
    ∀ e ∈ (drawText sampleEnv (getWidth sampleEnv sampleFresh [65, 86]).st 10 20 [65, 86] 0
      0x22).ev, e.isDraw = true :=
  warm_text_leaves_cache_unchanged sampleEnv (getWidth sampleEnv sampleFresh [65, 86]).st [65, 86]
    10 20 0 0x22 (by decide)

/-- C8 (the claim as stated fails): on the wide face the glyph of `A` renders
as a bitmap of width 65536 and 1 row; `adjustTextureWidth` takes the width as
a `uint16_t`, so the record stores width 0, and it owns no texture although
both bitmap dimensions are non-zero. -/
theorem cacheGlyphData_wide_bitmap_truncated :
    rasterOK wideEnv 65 = true ∧
    (wideEnv.face.loadGlyph (wideEnv.face.charIndex 65)).map
      (fun (slot : FT_GlyphSlot) => (slot.bitmap.width, slot.bitmap.rows)) = some (65536, 1) ∧
    (cacheGlyphData wideEnv (construct wideEnv 24 0 true) 65).val = some 65 ∧
    (deref (cacheGlyphData wideEnv (construct wideEnv 24 0 true) 65).st 65).textureWidth = 0 ∧
    (deref (cacheGlyphData wideEnv (construct wideEnv 24 0 true) 65).st 65).textureHeight = 1 ∧
    (deref (cacheGlyphData wideEnv (construct wideEnv 24 0 true) 65).st 65).glyphDataTexture =
      none := by
  decide

/-- C8 (amended): when the rasterizer loads `c` and renders it in bitmap
format, `cacheGlyphData c` returns the record now stored under `c`, whose
glyph index is the face's index for `c` and whose offset, advance, size and
extrema are `bitmap_left`, `advance.x >> 6`, the bitmap width and rows (no
rounding), `bitmap_top` and `rows - bitmap_top`, each reduced to its 16-bit
field and hence equal to it when it fits; the record owns a texture exactly
when both stored dimensions are non-zero and the scratch buffer `glyphData`
is allocated; no record under another key changes. -/
theorem cacheGlyphData_stores_record (E : Env) (s : State) (c : Nat) (slot : FT_GlyphSlot)
    (hl : E.face.loadGlyph (E.face.charIndex c) = some slot)
    (hf : slot.format = FT_Glyph_Format.FT_GLYPH_FORMAT_BITMAP) :
    (cacheGlyphData E s c).val = some c ∧
    (∃ r, mapFind c (cacheGlyphData E s c).st.fontData = some r ∧
      r.glyphIndex = E.face.charIndex c ∧
      r.renderOffsetX = toI16 slot.bitmap_left ∧
      r.glyphAdvanceX = toU16 (slot.advance_x >>> 6) ∧
      r.textureWidth = toU16 slot.bitmap.width ∧
      r.textureHeight = toU16 slot.bitmap.rows ∧
      r.renderOffsetMax = toI16 slot.bitmap_top ∧
      r.renderOffsetMin = toI16 ((slot.bitmap.rows : Int) - slot.bitmap_top) ∧
      (r.glyphDataTexture.isSome = true ↔
        (r.textureWidth ≠ 0 ∧ r.textureHeight ≠ 0 ∧ s.glyphData = true))) ∧
    (∀ k, k ≠ c → mapFind k (cacheGlyphData E s c).st.fontData = mapFind k s.fontData) ∧
    (∀ n : Nat, n < 65536 → toU16 (n : Int) = n) ∧
    (∀ z : Int, -32768 ≤ z → z < 32768 → toI16 z = z) := by
  obtain ⟨h1, h2⟩ := cacheGlyphData_ok E s c slot hl hf
  refine ⟨h1, ⟨_, by rw [h2, mapFind_mapSet_self], rfl, rfl, rfl, rfl, rfl, rfl, rfl, ?_⟩, ?_,
    toU16_of_lt, toI16_of_range⟩
  · simp only [recordOfSlot, adjustTextureWidth, adjustTextureHeight, textureAfterCache]
    split_ifs with h
    · simp only [Option.isSome_none, Bool.false_eq_true, false_iff]
      intro hh
      rcases h with h | h | h
      · exact hh.1 h
      · exact hh.2.1 h
      · rw [hh.2.2] at h; cases h
    · simp only [Option.isSome_some, true_iff]
      push_neg at h
      refine ⟨h.1, h.2.1, ?_⟩
      cases hg : s.glyphData
      · exact absurd hg h.2.2
      · rfl
  · intro k hk
    rw [h2, mapFind_mapSet_ne _ _ _ _ hk]

/-- Witness of C8 on the sample face: caching `A` on a fresh instance. -/
theorem cacheGlyphData_stores_record_witness :
    (cacheGlyphData sampleEnv sampleFresh 65).val = some 65 ∧
    (∃ r, mapFind 65 (cacheGlyphData sampleEnv sampleFresh 65).st.fontData = some r ∧
      r.glyphIndex = 36 ∧ r.renderOffsetX = 1 ∧ r.glyphAdvanceX = 4 ∧ r.textureWidth = 2 ∧
      r.textureHeight = 3 ∧ r.renderOffsetMax = 3 ∧ r.renderOffsetMin = 0 ∧
      r.glyphDataTexture.isSome = true) := by
  obtain ⟨h1, ⟨r, hr, a1, a2, a3, a4, a5, a6, a7, a8⟩, _⟩ :=
    cacheGlyphData_stores_record sampleEnv sampleFresh 65
      ⟨FT_Glyph_Format.FT_GLYPH_FORMAT_BITMAP, ⟨3, 2, 2, [1, 2, 3, 4, 5, 6]⟩, 1, 3, 256,
        sampleMetrics 192⟩ (by decide) (by decide)
  refine ⟨h1, r, hr, a1, a2, a3, a4, a5, a6, a7, ?_⟩
  rw [a8, a4, a5]
  decide

/-- C9: `cacheGlyphData c` returns `NULL` exactly when the rasterizer fails to
load the glyph of `c` or yields a glyph that is not in bitmap format; the
state (glyph map and textures) is then what it was, and the only
collaborator call is the `FT_Load_Glyph` itself. -/
theorem cacheGlyphData_null_iff (E : Env) (s : State) (c : Nat) :
    ((cacheGlyphData E s c).val = none ↔
      (E.face.loadGlyph (E.face.charIndex c) = none ∨
        ∃ slot, E.face.loadGlyph (E.face.charIndex c) = some slot ∧
          slot.format ≠ FT_Glyph_Format.FT_GLYPH_FORMAT_BITMAP)) ∧
    ((cacheGlyphData E s c).val = none →
      (cacheGlyphData E s c).st = s ∧
      (cacheGlyphData E s c).ev = [Event.FT_Load_Glyph (E.face.charIndex c)]) := by
  cases hr : rasterOK E c with
  | true =>
    obtain ⟨slot, hl, hf⟩ := (rasterOK_iff E c).1 hr
    have h1 := (cacheGlyphData_ok E s c slot hl hf).1
    constructor
    · constructor
      · intro h; rw [h1] at h; cases h
      · rintro (h | ⟨sl, h, hn⟩)
        · rw [hl] at h; cases h
        · rw [hl] at h; cases h; exact absurd hf hn
    · intro h; rw [h1] at h; cases h
  | false =>
    have h1 := cacheGlyphData_fail E s c hr
    constructor
    · constructor
      · intro _
        cases hl : E.face.loadGlyph (E.face.charIndex c) with
        | none => exact Or.inl rfl
        | some slot =>
          refine Or.inr ⟨slot, rfl, ?_⟩
          intro hf
          have := (rasterOK_iff E c).2 ⟨slot, hl, hf⟩
          rw [hr] at this; cases this
      · intro _; rw [h1]
    · intro _; rw [h1]; exact ⟨rfl, rfl⟩

/-- Witness of C9 on the sample face: `X`, whose glyph fails to load. -/
theorem cacheGlyphData_null_iff_witness :
    (cacheGlyphData sampleEnv sampleFresh 88).val = none ∧
    (cacheGlyphData sampleEnv sampleFresh 88).st = sampleFresh ∧
    (cacheGlyphData sampleEnv sampleFresh 88).ev = [Event.FT_Load_Glyph 59] :=
  ⟨by decide, (cacheGlyphData_null_iff sampleEnv sampleFresh 88).2 (by decide)⟩

theorem land_of_group (f m b v : Nat) (hb : b &&& m = b) (h : f &&& m = v) :
    f &&& b = v &&& b := by
  rw [← h, Nat.land_assoc, Nat.land_comm m b, hb]

/-- C10: for a 16-bit width `w`, `getStyleOffsetWidth` returns `-(w / 2)` when
the justification group of the style word is "center" (so -5 for `w = 11`),
0 when it is "left" and 0 when it is empty; it depends on the style word only
through its justification group. The constants of the header are parameters:
each flag lies inside the mask, "left" and "center" are non-zero and share
no bit. -/
theorem getStyleOffsetWidth_center_left_none (K : StyleFlags) (w format : Nat) (hw : w < 65536)
    (hL : K.FTGX_JUSTIFY_LEFT &&& K.FTGX_JUSTIFY_MASK = K.FTGX_JUSTIFY_LEFT)
    (hC : K.FTGX_JUSTIFY_CENTER &&& K.FTGX_JUSTIFY_MASK = K.FTGX_JUSTIFY_CENTER)
    (hR : K.FTGX_JUSTIFY_RIGHT &&& K.FTGX_JUSTIFY_MASK = K.FTGX_JUSTIFY_RIGHT)
    (hL0 : K.FTGX_JUSTIFY_LEFT ≠ 0) (hC0 : K.FTGX_JUSTIFY_CENTER ≠ 0)
    (hCL : K.FTGX_JUSTIFY_CENTER &&& K.FTGX_JUSTIFY_LEFT = 0) :
    (format &&& K.FTGX_JUSTIFY_MASK = K.FTGX_JUSTIFY_CENTER →
      getStyleOffsetWidth K w format = -((w / 2 : Nat) : Int)) ∧
    (format &&& K.FTGX_JUSTIFY_MASK = K.FTGX_JUSTIFY_CENTER →
      getStyleOffsetWidth K 11 format = -5) ∧
    (format &&& K.FTGX_JUSTIFY_MASK = K.FTGX_JUSTIFY_LEFT → getStyleOffsetWidth K w format = 0) ∧
    (format &&& K.FTGX_JUSTIFY_MASK = 0 → getStyleOffsetWidth K w format = 0) ∧
    getStyleOffsetWidth K w format = getStyleOffsetWidth K w (format &&& K.FTGX_JUSTIFY_MASK) := by
  have center : ∀ v : Nat, v < 65536 → format &&& K.FTGX_JUSTIFY_MASK = K.FTGX_JUSTIFY_CENTER →
      getStyleOffsetWidth K v format = -((v / 2 : Nat) : Int) := by
    intro v hv h
    have h1 : format &&& K.FTGX_JUSTIFY_LEFT = 0 := by
      rw [land_of_group _ _ _ _ hL h, hCL]
    have h2 : format &&& K.FTGX_JUSTIFY_CENTER ≠ 0 := by
      rw [land_of_group _ _ _ _ hC h, Nat.and_self]; exact hC0
    unfold getStyleOffsetWidth
    rw [if_neg (by simpa using h1), if_pos h2, Nat.shiftRight_eq_div_pow]
    apply toI16_of_range <;> omega
  refine ⟨center w hw, ?_, ?_, ?_, ?_⟩
  · intro h
    rw [center 11 (by norm_num) h]
    rfl
  · intro h
    have h1 : format &&& K.FTGX_JUSTIFY_LEFT ≠ 0 := by
      rw [land_of_group _ _ _ _ hL h, Nat.and_self]; exact hL0
    unfold getStyleOffsetWidth
    rw [if_pos h1]
  · intro h
    have z : ∀ b, b &&& K.FTGX_JUSTIFY_MASK = b → format &&& b = 0 := by
      intro b hb
      rw [land_of_group _ _ _ _ hb h]
      simp
    unfold getStyleOffsetWidth
    simp [z _ hL, z _ hC, z _ hR]
  · have e : ∀ b, b &&& K.FTGX_JUSTIFY_MASK = b →
        format &&& K.FTGX_JUSTIFY_MASK &&& b = format &&& b := by
      intro b hb
      rw [Nat.land_assoc, Nat.land_comm K.FTGX_JUSTIFY_MASK b, hb]
    unfold getStyleOffsetWidth
    rw [e _ hL, e _ hC, e _ hR]

/-- Witness of C10 with the sample constants: width 11, centred, with
alignment and style bits set as well. -/
theorem getStyleOffsetWidth_center_left_none_witness :
    getStyleOffsetWidth sampleFlags 11 0x1022 = -5 :=
  (getStyleOffsetWidth_center_left_none sampleFlags 11 0x1022 (by decide) (by decide) (by decide)
    (by decide) (by decide) (by decide) (by decide)).2.1 (by decide)

/-- C11 (the claim as stated fails): with the sample constants, right
justification of a width of 40000 returns 25536, the value of -40000 in an
`int16_t`. -/
theorem getStyleOffsetWidth_right_wraps :
    (0x0004 : Nat) &&& sampleFlags.FTGX_JUSTIFY_MASK = sampleFlags.FTGX_JUSTIFY_RIGHT ∧
    getStyleOffsetWidth sampleFlags 40000 0x0004 = 25536 := by
  decide

/-- C11 (amended): for a 16-bit width `w` and a style word whose justification
group is "right", `getStyleOffsetWidth` returns `-w` reduced to an `int16_t`:
`-w` itself when `w <= 32768`, and `65536 - w` above. The constants of the
header are parameters: "right" is non-zero, lies inside the mask and shares no
bit with "left" and "center", which lie inside the mask too. -/
theorem getStyleOffsetWidth_right (K : StyleFlags) (w format : Nat) (hw : w < 65536)
    (hL : K.FTGX_JUSTIFY_LEFT &&& K.FTGX_JUSTIFY_MASK = K.FTGX_JUSTIFY_LEFT)
    (hC : K.FTGX_JUSTIFY_CENTER &&& K.FTGX_JUSTIFY_MASK = K.FTGX_JUSTIFY_CENTER)
    (hR0 : K.FTGX_JUSTIFY_RIGHT ≠ 0)
    (hRL : K.FTGX_JUSTIFY_RIGHT &&& K.FTGX_JUSTIFY_LEFT = 0)
    (hRC : K.FTGX_JUSTIFY_RIGHT &&& K.FTGX_JUSTIFY_CENTER = 0)
    (hf : format &&& K.FTGX_JUSTIFY_MASK = K.FTGX_JUSTIFY_RIGHT) :
    getStyleOffsetWidth K w format = toI16 (-(w : Int)) ∧
    (w ≤ 32768 → getStyleOffsetWidth K w format = -(w : Int)) ∧
    (32768 < w → getStyleOffsetWidth K w format = 65536 - (w : Int)) := by
  have h1 : format &&& K.FTGX_JUSTIFY_LEFT = 0 := by
    rw [land_of_group _ _ _ _ hL hf, hRL]
  have h2 : format &&& K.FTGX_JUSTIFY_CENTER = 0 := by
    rw [land_of_group _ _ _ _ hC hf, hRC]
  have h3 : format &&& K.FTGX_JUSTIFY_RIGHT ≠ 0 := by
    have : format &&& K.FTGX_JUSTIFY_RIGHT = K.FTGX_JUSTIFY_RIGHT := by
      rw [← hf, ← Nat.land_assoc, Nat.and_self]
    rw [this]; exact hR0
  have e : getStyleOffsetWidth K w format = toI16 (-(w : Int)) := by
    unfold getStyleOffsetWidth
    rw [if_neg (by simpa using h1), if_neg (by simpa using h2), if_pos h3]
  refine ⟨e, ?_, ?_⟩
  · intro h; rw [e]; unfold toI16; omega
  · intro h; rw [e]; unfold toI16; omega

/-- Witness of C11 with the sample constants: widths 100 and 40000. -/
theorem getStyleOffsetWidth_right_witness :
    getStyleOffsetWidth sampleFlags 100 0x0004 = -100 ∧
    getStyleOffsetWidth sampleFlags 40000 0x0004 = 65536 - 40000 :=
  ⟨(getStyleOffsetWidth_right sampleFlags 100 0x0004 (by decide) (by decide) (by decide)
      (by decide) (by decide) (by decide) (by decide)).2.1 (by decide),
   (getStyleOffsetWidth_right sampleFlags 40000 0x0004 (by decide) (by decide) (by decide)
      (by decide) (by decide) (by decide) (by decide)).2.2 (by decide)⟩

theorem shiftRight_one_eq_div (x : Int) : x >>> (1 : Int) = x / 2 := by
  cases x with
  | ofNat m =>
    have h := Int.shiftRight_coe_nat m 1
    simp only [Nat.cast_one, Nat.shiftRight_eq_div_pow, pow_one] at h
    rw [Int.ofNat_eq_coe, h]
    omega
  | negSucc m =>
    have h := Int.shiftRight_negSucc m 1
    simp only [Nat.cast_one, Nat.shiftRight_eq_div_pow, pow_one] at h
    rw [h, Int.negSucc_eq, Int.negSucc_eq]
    omega

theorem toI16_half (a b : Int) (ha1 : -32768 ≤ a) (ha2 : a < 32768) (hb1 : -32768 ≤ b)
    (hb2 : b < 32768) : toI16 ((a + b + 1) >>> (1 : Int)) = (a + b + 1) / 2 := by
  rw [shiftRight_one_eq_div]
  apply toI16_of_range <;> omega

/-- C12: for an extent with 16-bit signed fields, `getStyleOffsetHeight`
depends on the style word only through its alignment group and returns
`ascender` for "top", the floor of `(ascender + descender + 1) / 2` for
"middle" and for every value of the group that is none of the seven
constants (4 for ascender 10 and descender -2), `descender` for "bottom", 0
for "baseline", `max` for "glyph-top", the floor of `(max + min + 1) / 2` for
"glyph-middle" and `min` for "glyph-bottom". The seven `case` constants of the
header are parameters, pairwise distinct as a `switch` requires. -/
theorem getStyleOffsetHeight_by_alignment (K : StyleFlags) (offset : ftgxDataOffset)
    (format : Nat)
    (hd : [K.FTGX_ALIGN_TOP, K.FTGX_ALIGN_MIDDLE, K.FTGX_ALIGN_BOTTOM, K.FTGX_ALIGN_BASELINE,
      K.FTGX_ALIGN_GLYPH_TOP, K.FTGX_ALIGN_GLYPH_MIDDLE, K.FTGX_ALIGN_GLYPH_BOTTOM].Nodup)
    (ha : -32768 ≤ offset.ascender ∧ offset.ascender < 32768)
    (hb : -32768 ≤ offset.descender ∧ offset.descender < 32768)
    (hx : -32768 ≤ offset.max ∧ offset.max < 32768)
    (hn : -32768 ≤ offset.min ∧ offset.min < 32768) :
    getStyleOffsetHeight K offset format =
      getStyleOffsetHeight K offset (format &&& K.FTGX_ALIGN_MASK) ∧
    (format &&& K.FTGX_ALIGN_MASK = K.FTGX_ALIGN_TOP →
      getStyleOffsetHeight K offset format = offset.ascender) ∧
    (format &&& K.FTGX_ALIGN_MASK = K.FTGX_ALIGN_MIDDLE →
      getStyleOffsetHeight K offset format = (offset.ascender + offset.descender + 1) / 2) ∧
    (format &&& K.FTGX_ALIGN_MASK = K.FTGX_ALIGN_MIDDLE →
      getStyleOffsetHeight K ⟨10, -2, offset.max, offset.min⟩ format = 4) ∧
    (format &&& K.FTGX_ALIGN_MASK = K.FTGX_ALIGN_BOTTOM →
      getStyleOffsetHeight K offset format = offset.descender) ∧
    (format &&& K.FTGX_ALIGN_MASK = K.FTGX_ALIGN_BASELINE →
      getStyleOffsetHeight K offset format = 0) ∧
    (format &&& K.FTGX_ALIGN_MASK = K.FTGX_ALIGN_GLYPH_TOP →
      getStyleOffsetHeight K offset format = offset.max) ∧
    (format &&& K.FTGX_ALIGN_MASK = K.FTGX_ALIGN_GLYPH_MIDDLE →
      getStyleOffsetHeight K offset format = (offset.max + offset.min + 1) / 2) ∧
    (format &&& K.FTGX_ALIGN_MASK = K.FTGX_ALIGN_GLYPH_BOTTOM →
      getStyleOffsetHeight K offset format = offset.min) ∧
    (format &&& K.FTGX_ALIGN_MASK ∉ [K.FTGX_ALIGN_TOP, K.FTGX_ALIGN_MIDDLE, K.FTGX_ALIGN_BOTTOM,
        K.FTGX_ALIGN_BASELINE, K.FTGX_ALIGN_GLYPH_TOP, K.FTGX_ALIGN_GLYPH_MIDDLE,
        K.FTGX_ALIGN_GLYPH_BOTTOM] →
      getStyleOffsetHeight K offset format = (offset.ascender + offset.descender + 1) / 2) := by
  simp only [List.nodup_cons, List.mem_cons, List.mem_singleton, not_or, List.not_mem_nil,
    not_false_eq_true, List.nodup_nil, and_true, or_false] at hd
  obtain ⟨⟨h12, h13, h14, h15, h16, h17⟩, ⟨h23, h24, h25, h26, h27⟩, ⟨h34, h35, h36, h37⟩,
    ⟨h45, h46, h47⟩, ⟨h56, h57⟩, h67⟩ := hd
  have hm := toI16_half offset.ascender offset.descender ha.1 ha.2 hb.1 hb.2
  have hg := toI16_half offset.max offset.min hx.1 hx.2 hn.1 hn.2
  refine ⟨?_, ?_, ?_, ?_, ?_, ?_, ?_, ?_, ?_, ?_⟩
  · unfold getStyleOffsetHeight
    rw [Nat.land_assoc, Nat.and_self]
  · intro h
    unfold getStyleOffsetHeight
    rw [if_pos h]
  · intro h
    unfold getStyleOffsetHeight
    rw [h, if_neg (Ne.symm h12), if_pos rfl, hm]
  · intro h
    unfold getStyleOffsetHeight
    rw [h, if_neg (Ne.symm h12), if_pos rfl]
    rfl
  · intro h
    unfold getStyleOffsetHeight
    rw [h, if_neg (Ne.symm h13), if_neg (Ne.symm h23), if_pos rfl]
  · intro h
    unfold getStyleOffsetHeight
    rw [h, if_neg (Ne.symm h14), if_neg (Ne.symm h24), if_neg (Ne.symm h34), if_pos rfl]
  · intro h
    unfold getStyleOffsetHeight
    rw [h, if_neg (Ne.symm h15), if_neg (Ne.symm h25), if_neg (Ne.symm h35),
      if_neg (Ne.symm h45), if_pos rfl]
  · intro h
    unfold getStyleOffsetHeight
    rw [h, if_neg (Ne.symm h16), if_neg (Ne.symm h26), if_neg (Ne.symm h36),
      if_neg (Ne.symm h46), if_neg (Ne.symm h56), if_pos rfl, hg]
  · intro h
    unfold getStyleOffsetHeight
    rw [h, if_neg (Ne.symm h17), if_neg (Ne.symm h27), if_neg (Ne.symm h37),
      if_neg (Ne.symm h47), if_neg (Ne.symm h57), if_neg (Ne.symm h67), if_pos rfl]
  · intro h
    simp only [List.mem_cons, List.mem_singleton, not_or, List.not_mem_nil, or_false] at h
    obtain ⟨n1, n2, n3, n4, n5, n6, n7⟩ := h
    unfold getStyleOffsetHeight
    rw [if_neg n1, if_neg n2, if_neg n3, if_neg n4, if_neg n5, if_neg n6, if_neg n7, hm]

/-- Witness of C12 with the sample constants: the extent with ascender 10 and
descender -2 under "middle" (with a justification bit set as well), and
under a value of the alignment group that is none of the constants. -/
theorem getStyleOffsetHeight_by_alignment_witness :
    getStyleOffsetHeight sampleFlags ⟨10, -2, 7, 1⟩ 0x0022 = (10 + -2 + 1) / 2 ∧
    getStyleOffsetHeight sampleFlags ⟨10, -2, 7, 1⟩ 0x0022 = 4 ∧
    getStyleOffsetHeight sampleFlags ⟨10, -2, 7, 1⟩ 0x0030 = (10 + -2 + 1) / 2 :=
  ⟨(getStyleOffsetHeight_by_alignment sampleFlags ⟨10, -2, 7, 1⟩ 0x0022 (by decide) (by decide)
      (by decide) (by decide) (by decide)).2.2.1 (by decide),
   (getStyleOffsetHeight_by_alignment sampleFlags ⟨10, -2, 7, 1⟩ 0x0022 (by decide) (by decide)
      (by decide) (by decide) (by decide)).2.2.2.1 (by decide),
   (getStyleOffsetHeight_by_alignment sampleFlags ⟨10, -2, 7, 1⟩ 0x0030 (by decide) (by decide)
      (by decide) (by decide) (by decide)).2.2.2.2.2.2.2.2.2 (by decide)⟩

/-- C13: for a record whose `textureWidth` or `textureHeight` is 0 and every
bitmap, `loadGlyphData` returns at once: the state after it (glyph map with
the record and its handle, textures on the device with their bytes) is the
state before it, and it calls no collaborator (no create, destroy, lock or
unlock). -/
theorem loadGlyphData_zero_size_noop (E : Env) (bmp : FT_Bitmap) (s : State) (key : Nat)
    (h : (deref s key).textureWidth = 0 ∨ (deref s key).textureHeight = 0) :
    loadGlyphData E bmp s key = ⟨(), s, []⟩ ∧
    (loadGlyphData E bmp s key).st.fontData = s.fontData ∧
    (loadGlyphData E bmp s key).st.surfaces = s.surfaces ∧
    (loadGlyphData E bmp s key).ev = [] := by
  have e : loadGlyphData E bmp s key = ⟨(), s, []⟩ := by
    unfold loadGlyphData
    simp only [if_pos h]
  rw [e]
  exact ⟨rfl, rfl, rfl, rfl⟩

/-- Witness of C13 on the sample face: the record of the space, cached with
texture size 0x0, and the bitmap of `A`, with the textures of `AV` live. -/
theorem loadGlyphData_zero_size_noop_witness :
    loadGlyphData sampleEnv ⟨3, 2, 2, [1, 2, 3, 4, 5, 6]⟩
        (getWidth sampleEnv sampleFresh [65, 86, 32]).st 32 =
      ⟨(), (getWidth sampleEnv sampleFresh [65, 86, 32]).st, []⟩ :=
  (loadGlyphData_zero_size_noop sampleEnv ⟨3, 2, 2, [1, 2, 3, 4, 5, 6]⟩
    (getWidth sampleEnv sampleFresh [65, 86, 32]).st 32 (by decide)).1

/-- C16 (the claim as stated fails): on the sample environment the extent of
the empty text has max 0 and min 9999 and `getHeight` returns 55537, not
-9999; on the low face the extent of an underscore has max 0 and min 2 and
`getHeight` returns 65534, not -2. -/
theorem getHeight_wraps :
    (getOffset sampleEnv sampleFresh []).val.max - (getOffset sampleEnv sampleFresh []).val.min =
      -9999 ∧
    (getHeight sampleEnv sampleFresh []).val = 55537 ∧
    (getOffset lowEnv (construct lowEnv 24 0 true) [95]).val.max -
      (getOffset lowEnv (construct lowEnv 24 0 true) [95]).val.min = -2 ∧
    (getHeight lowEnv (construct lowEnv 24 0 true) [95]).val = 65534 := by
  decide

/-- C16 (amended): `getHeight` returns `max - min` of the extent that
`getOffset` reports for the same text, reduced to a `uint16_t`: the difference
itself when it lies in 0..65535, and `max - min + 65536` when it is negative
(but not below -65536), as for the empty text; the state and the collaborator
calls are those of `getOffset`. -/
theorem getHeight_eq_max_sub_min_mod (E : Env) (s : State) (text : List Nat) :
    (getHeight E s text).val =
      toU16 ((getOffset E s text).val.max - (getOffset E s text).val.min) ∧
    (getHeight E s text).st = (getOffset E s text).st ∧
    (getHeight E s text).ev = (getOffset E s text).ev ∧
    (0 ≤ (getOffset E s text).val.max - (getOffset E s text).val.min →
      (getOffset E s text).val.max - (getOffset E s text).val.min < 65536 →
      ((getHeight E s text).val : Int) =
        (getOffset E s text).val.max - (getOffset E s text).val.min) ∧
    ((getOffset E s text).val.max - (getOffset E s text).val.min < 0 →
      -65536 ≤ (getOffset E s text).val.max - (getOffset E s text).val.min →
      ((getHeight E s text).val : Int) =
        (getOffset E s text).val.max - (getOffset E s text).val.min + 65536) := by
  refine ⟨rfl, rfl, rfl, ?_, ?_⟩
  · intro h1 h2
    show ((toU16 _ : Nat) : Int) = _
    unfold toU16; omega
  · intro h1 h2
    show ((toU16 _ : Nat) : Int) = _
    unfold toU16; omega

/-- Witness of C16 on the sample face: the height of `AV` is 3 - 0. -/
theorem getHeight_eq_max_sub_min_mod_witness :
    ((getHeight sampleEnv sampleFresh [65, 86]).val : Int) =
      (getOffset sampleEnv sampleFresh [65, 86]).val.max -
        (getOffset sampleEnv sampleFresh [65, 86]).val.min :=
  (getHeight_eq_max_sub_min_mod sampleEnv sampleFresh [65, 86]).2.2.2.1 (by decide) (by decide)

theorem getOffsetLoop_extrema (E : Env) : ∀ (text : List Nat) (s : State) (M m : Int),
    M ≤ (getOffsetLoop E text s M m).val.1 ∧
    (∀ r ∈ resolveOffsets E text s, r.renderOffsetMax ≤ (getOffsetLoop E text s M m).val.1) ∧
    ((getOffsetLoop E text s M m).val.1 = M ∨
      ∃ r ∈ resolveOffsets E text s, r.renderOffsetMax = (getOffsetLoop E text s M m).val.1) ∧
    (getOffsetLoop E text s M m).val.2 ≤ m ∧
    (∀ r ∈ resolveOffsets E text s, (getOffsetLoop E text s M m).val.2 ≤ r.renderOffsetMin) ∧
    ((getOffsetLoop E text s M m).val.2 = m ∨
      ∃ r ∈ resolveOffsets E text s, r.renderOffsetMin = (getOffsetLoop E text s M m).val.2) := by
  intro text
  induction text with
  | nil =>
    intro s M m
    simp [getOffsetLoop, resolveOffsets]
  | cons c rest ih =>
    intro s M m
    cases hg : (findOrCache E s c).val with
    | none =>
      rw [getOffsetLoop_cons_none E c rest s M m hg]
      simp only [resolveOffsets, hg]
      exact ih (findOrCache E s c).st M m
    | some k =>
      rw [getOffsetLoop_cons_some E c k rest s M m hg]
      simp only [resolveOffsets, hg]
      have hM : M ≤ (if (deref (findOrCache E s c).st k).renderOffsetMax > M then
            (deref (findOrCache E s c).st k).renderOffsetMax else M) ∧
          (deref (findOrCache E s c).st k).renderOffsetMax ≤
            (if (deref (findOrCache E s c).st k).renderOffsetMax > M then
              (deref (findOrCache E s c).st k).renderOffsetMax else M) ∧
          ((if (deref (findOrCache E s c).st k).renderOffsetMax > M then
              (deref (findOrCache E s c).st k).renderOffsetMax else M) = M ∨
            (if (deref (findOrCache E s c).st k).renderOffsetMax > M then
              (deref (findOrCache E s c).st k).renderOffsetMax else M) =
              (deref (findOrCache E s c).st k).renderOffsetMax) := by
        split_ifs <;> omega
      have hm : (if (deref (findOrCache E s c).st k).renderOffsetMin < m then
            (deref (findOrCache E s c).st k).renderOffsetMin else m) ≤ m ∧
          (if (deref (findOrCache E s c).st k).renderOffsetMin < m then
              (deref (findOrCache E s c).st k).renderOffsetMin else m) ≤
            (deref (findOrCache E s c).st k).renderOffsetMin ∧
          ((if (deref (findOrCache E s c).st k).renderOffsetMin < m then
              (deref (findOrCache E s c).st k).renderOffsetMin else m) = m ∨
            (if (deref (findOrCache E s c).st k).renderOffsetMin < m then
              (deref (findOrCache E s c).st k).renderOffsetMin else m) =
              (deref (findOrCache E s c).st k).renderOffsetMin) := by
        split_ifs <;> omega
      generalize (if (deref (findOrCache E s c).st k).renderOffsetMax > M then
            (deref (findOrCache E s c).st k).renderOffsetMax else M) = M' at hM ⊢
      generalize (if (deref (findOrCache E s c).st k).renderOffsetMin < m then
            (deref (findOrCache E s c).st k).renderOffsetMin else m) = m' at hm ⊢
      obtain ⟨a1, a2, a3, a4, a5, a6⟩ := ih (findOrCache E s c).st M' m'
      refine ⟨by omega, ?_, ?_, by omega, ?_, ?_⟩
      · intro r hr
        rcases List.mem_cons.1 hr with rfl | hr
        · omega
        · exact a2 r hr
      · rcases a3 with h | ⟨r, hr, h⟩
        · rcases hM.2.2 with h' | h'
          · exact Or.inl (h.trans h')
          · exact Or.inr ⟨_, List.mem_cons_self _ _, (h.trans h').symm⟩
        · exact Or.inr ⟨r, List.mem_cons_of_mem _ hr, h⟩
      · intro r hr
        rcases List.mem_cons.1 hr with rfl | hr
        · omega
        · exact a5 r hr
      · rcases a6 with h | ⟨r, hr, h⟩
        · rcases hm.2.2 with h' | h'
          · exact Or.inl (h.trans h')
          · exact Or.inr ⟨_, List.mem_cons_self _ _, (h.trans h').symm⟩
        · exact Or.inr ⟨r, List.mem_cons_of_mem _ hr, h⟩

/-- C15 (the claim as stated fails): on the low face the text `_` resolves one
record, with `renderOffsetMax = -1`, and `getOffset` reports max 0, the value
`strMax` starts from. -/
theorem getOffset_max_seed :
    (resolveOffsets lowEnv (cstr [95]) (construct lowEnv 24 0 true)).map
      (fun r => (r.renderOffsetMax, r.renderOffsetMin)) = [(-1, 2)] ∧
    (getOffset lowEnv (construct lowEnv 24 0 true) [95]).val.max = 0 ∧
    (getOffset lowEnv (construct lowEnv 24 0 true) [95]).val.min = 2 := by
  decide

/-- C15 (amended): `getOffset` reports as max the larger of 0 and the largest
`renderOffsetMax`, and as min the smaller of 9999 and the smallest
`renderOffsetMin`, among the records its loop resolves for the characters of
the text; so max is the largest `renderOffsetMax` as soon as one resolved
record has it at 0 or above, and min the smallest `renderOffsetMin` as soon
as one has it at 9999 or below. Ascender and descender are the size metrics
of the face shifted right by 6, in 16-bit signed fields. -/
theorem getOffset_extent (E : Env) (s : State) (text : List Nat) :
    (getOffset E s text).val.ascender = toI16 (E.face.ascender >>> 6) ∧
    (getOffset E s text).val.descender = toI16 (E.face.descender >>> 6) ∧
    0 ≤ (getOffset E s text).val.max ∧
    (∀ r ∈ resolveOffsets E (cstr text) s, r.renderOffsetMax ≤ (getOffset E s text).val.max) ∧
    ((getOffset E s text).val.max = 0 ∨
      ∃ r ∈ resolveOffsets E (cstr text) s, r.renderOffsetMax = (getOffset E s text).val.max) ∧
    (getOffset E s text).val.min ≤ 9999 ∧
    (∀ r ∈ resolveOffsets E (cstr text) s, (getOffset E s text).val.min ≤ r.renderOffsetMin) ∧
    ((getOffset E s text).val.min = 9999 ∨
      ∃ r ∈ resolveOffsets E (cstr text) s, r.renderOffsetMin = (getOffset E s text).val.min) ∧
    ((∃ r ∈ resolveOffsets E (cstr text) s, 0 ≤ r.renderOffsetMax) →
      ∃ r ∈ resolveOffsets E (cstr text) s, r.renderOffsetMax = (getOffset E s text).val.max) ∧
    ((∃ r ∈ resolveOffsets E (cstr text) s, r.renderOffsetMin ≤ 9999) →
      ∃ r ∈ resolveOffsets E (cstr text) s, r.renderOffsetMin = (getOffset E s text).val.min) := by
  obtain ⟨a1, a2, a3, a4, a5, a6⟩ := getOffsetLoop_extrema E (cstr text) s 0 9999
  refine ⟨rfl, rfl, a1, a2, a3, a4, a5, a6, ?_, ?_⟩
  · rintro ⟨r, hr, h0⟩
    rcases a3 with h | h
    · refine ⟨r, hr, ?_⟩
      have := a2 r hr
      show r.renderOffsetMax = (getOffsetLoop E (cstr text) s 0 9999).val.1
      omega
    · exact h
  · rintro ⟨r, hr, h0⟩
    rcases a6 with h | h
    · refine ⟨r, hr, ?_⟩
      have := a5 r hr
      show r.renderOffsetMin = (getOffsetLoop E (cstr text) s 0 9999).val.2
      omega
    · exact h

/-- Witness of C15 on the sample face: for `AV` the largest `renderOffsetMax`
is 3 (of `A`) and the smallest `renderOffsetMin` is 0 (of `A`). -/
theorem getOffset_extent_witness :
    (∃ r ∈ resolveOffsets sampleEnv (cstr [65, 86]) sampleFresh,
      r.renderOffsetMax = (getOffset sampleEnv sampleFresh [65, 86]).val.max) ∧
    (getOffset sampleEnv sampleFresh [65, 86]).val.max = 3 ∧
    (getOffset sampleEnv sampleFresh [65, 86]).val.min = 0 :=
  ⟨(getOffset_extent sampleEnv sampleFresh [65, 86]).2.2.2.2.2.2.2.2.1
      ⟨deref (findOrCache sampleEnv sampleFresh 65).st 65, by decide, by decide⟩,
    by decide, by decide⟩

theorem applyWrites_append (buf : List Nat) (a b : List (Nat × Nat)) :
    applyWrites buf (a ++ b) = applyWrites (applyWrites buf a) b := by
  induction a generalizing buf with
  | nil => rfl
  | cons p rest ih => exact ih _

theorem copyRow_eq_applyWrites (src : List Nat) (limit : Nat) :
    ∀ (n : Nat) (si : Int) (d : Nat) (buf : List Nat),
    copyRow src limit n si d buf = applyWrites buf (copyRowLog src limit n si d) := by
  intro n
  induction n with
  | zero => intro si d buf; rfl
  | succ n ih =>
    intro si d buf
    by_cases h : d < limit
    · simp only [copyRow, copyRowLog, if_pos h, applyWrites]
      exact ih _ _ _
    · simp only [copyRow, copyRowLog, if_neg h]
      exact ih _ _ _

theorem copyTiles_eq_applyWrites (bmp : FT_Bitmap) (tex : XenosSurface) (limit y rowBase : Nat) :
    ∀ (fuel wpitch : Nat) (buf : List Nat),
    copyTiles bmp tex limit y rowBase fuel wpitch buf =
      applyWrites buf (copyTilesLog bmp tex limit y rowBase fuel wpitch) := by
  intro fuel
  induction fuel with
  | zero => intro wpitch buf; rfl
  | succ fuel ih =>
    intro wpitch buf
    by_cases h : wpitch < tex.wpitch
    · simp only [copyTiles, copyTilesLog, if_pos h, applyWrites_append, ih,
        copyRow_eq_applyWrites]
    · simp only [copyTiles, copyTilesLog, if_neg h, applyWrites]

theorem copyRows_eq_applyWrites (bmp : FT_Bitmap) (tex : XenosSurface) (limit hpitch : Nat) :
    ∀ (n y : Nat) (buf : List Nat),
    copyRows bmp tex limit hpitch n y buf =
      applyWrites buf (copyRowsLog bmp tex limit hpitch n y) := by
  intro n
  induction n with
  | zero => intro y buf; rfl
  | succ n ih =>
    intro y buf
    simp only [copyRows, copyRowsLog, applyWrites_append, ih, copyTiles_eq_applyWrites]

theorem copyBlocks_eq_applyWrites (bmp : FT_Bitmap) (tex : XenosSurface) (limit : Nat) :
    ∀ (fuel hpitch : Nat) (buf : List Nat),
    copyBlocks bmp tex limit fuel hpitch buf =
      applyWrites buf (copyBlocksLog bmp tex limit fuel hpitch) := by
  intro fuel
  induction fuel with
  | zero => intro hpitch buf; rfl
  | succ fuel ih =>
    intro hpitch buf
    by_cases h : hpitch < tex.hpitch
    · simp only [copyBlocks, copyBlocksLog, if_pos h, applyWrites_append, ih,
        copyRows_eq_applyWrites]
    · simp only [copyBlocks, copyBlocksLog, if_neg h, applyWrites]

theorem copyRowLog_lt (src : List Nat) (limit : Nat) :
    ∀ (n : Nat) (si : Int) (d : Nat), ∀ p ∈ copyRowLog src limit n si d, p.1 < limit := by
  intro n
  induction n with
  | zero => intro si d p hp; simp [copyRowLog] at hp
  | succ n ih =>
    intro si d p hp
    by_cases h : d < limit
    · simp only [copyRowLog, if_pos h, List.mem_cons] at hp
      rcases hp with rfl | hp
      · exact h
      · exact ih _ _ p hp
    · simp only [copyRowLog, if_neg h] at hp
      exact ih _ _ p hp

theorem copyTilesLog_lt (bmp : FT_Bitmap) (tex : XenosSurface) (limit y rowBase : Nat) :
    ∀ (fuel wpitch : Nat), ∀ p ∈ copyTilesLog bmp tex limit y rowBase fuel wpitch, p.1 < limit := by
  intro fuel
  induction fuel with
  | zero => intro wpitch p hp; simp [copyTilesLog] at hp
  | succ fuel ih =>
    intro wpitch p hp
    by_cases h : wpitch < tex.wpitch
    · simp only [copyTilesLog, if_pos h, List.mem_append] at hp
      rcases hp with hp | hp
      · exact copyRowLog_lt _ _ _ _ _ p hp
      · exact ih _ p hp
    · simp [copyTilesLog, if_neg h] at hp

theorem copyRowsLog_lt (bmp : FT_Bitmap) (tex : XenosSurface) (limit hpitch : Nat) :
    ∀ (n y : Nat), ∀ p ∈ copyRowsLog bmp tex limit hpitch n y, p.1 < limit := by
  intro n
  induction n with
  | zero => intro y p hp; simp [copyRowsLog] at hp
  | succ n ih =>
    intro y p hp
    simp only [copyRowsLog, List.mem_append] at hp
    rcases hp with hp | hp
    · exact copyTilesLog_lt _ _ _ _ _ _ _ p hp
    · exact ih _ p hp

theorem copyBlocksLog_lt (bmp : FT_Bitmap) (tex : XenosSurface) (limit : Nat) :
    ∀ (fuel hpitch : Nat), ∀ p ∈ copyBlocksLog bmp tex limit fuel hpitch, p.1 < limit := by
  intro fuel
  induction fuel with
  | zero => intro hpitch p hp; simp [copyBlocksLog] at hp
  | succ fuel ih =>
    intro hpitch p hp
    by_cases h : hpitch < tex.hpitch
    · simp only [copyBlocksLog, if_pos h, List.mem_append] at hp
      rcases hp with hp | hp
      · exact copyRowsLog_lt _ _ _ _ _ _ p hp
      · exact ih _ p hp
    · simp [copyBlocksLog, if_neg h] at hp

theorem copyTilesLog_fuel (bmp : FT_Bitmap) (tex : XenosSurface) (limit y rowBase : Nat)
    (hw : 1 ≤ tex.width) : ∀ (fuel wpitch k : Nat), tex.wpitch ≤ wpitch + fuel →
    copyTilesLog bmp tex limit y rowBase (fuel + k) wpitch =
      copyTilesLog bmp tex limit y rowBase fuel wpitch := by
  intro fuel
  induction fuel with
  | zero =>
    intro wpitch k h
    cases k with
    | zero => rfl
    | succ k => simp only [Nat.zero_add, copyTilesLog, if_neg (show ¬ wpitch < tex.wpitch by omega)]
  | succ fuel ih =>
    intro wpitch k h
    rw [Nat.add_right_comm]
    by_cases hlt : wpitch < tex.wpitch
    · simp only [copyTilesLog, if_pos hlt]
      rw [ih (wpitch + tex.width) k (by omega)]
    · simp only [copyTilesLog, if_neg hlt]

theorem copyBlocksLog_fuel (bmp : FT_Bitmap) (tex : XenosSurface) (limit : Nat)
    (hh : 1 ≤ tex.height) : ∀ (fuel hpitch k : Nat), tex.hpitch ≤ hpitch + fuel →
    copyBlocksLog bmp tex limit (fuel + k) hpitch = copyBlocksLog bmp tex limit fuel hpitch := by
  intro fuel
  induction fuel with
  | zero =>
    intro hpitch k h
    cases k with
    | zero => rfl
    | succ k => simp only [Nat.zero_add, copyBlocksLog, if_neg (show ¬ hpitch < tex.hpitch by omega)]
  | succ fuel ih =>
    intro hpitch k h
    rw [Nat.add_right_comm]
    by_cases hlt : hpitch < tex.hpitch
    · simp only [copyBlocksLog, if_pos hlt]
      rw [ih (hpitch + tex.height) k (by omega)]
    · simp only [copyBlocksLog, if_neg hlt]

theorem getOffsetConst_none (E : Env) (s : State) (text : List Nat) :
    ∀ depth, getOffsetConst E s text depth = none := by
  intro depth
  induction depth with
  | zero => rfl
  | succ d ih => exact ih

/-- C18 (what the code does): the `wchar_t const *` overload of `getOffset`
calls itself, so it returns within no depth of calls, for every state and
text; the overloads of `getWidth` and `getHeight` cast and return what the
`wchar_t *` versions return; and `createText`, which reaches the overload of
`getOffset` when the style word has an alignment bit, does not return then. -/
theorem getOffsetConst_never_returns :
    (∀ (E : Env) (s : State) (text : List Nat) (depth : Nat),
      getOffsetConst E s text depth = none) ∧
    (∀ (E : Env) (s : State) (text : List Nat), getWidthConst E s text = getWidth E s text) ∧
    (∀ (E : Env) (s : State) (text : List Nat), getHeightConst E s text = getHeight E s text) ∧
    (∀ (E : Env) (lock : XenosSurface → Int → Int → Int) (depth : Nat) (s : State)
      (text : List Nat) (color textStyle : Nat), textStyle &&& E.K.FTGX_ALIGN_MASK ≠ 0 →
      createText E lock depth s text color textStyle = none) ∧
    (∀ depth, (createText sampleEnv sampleLock depth sampleFresh [65] 0 0x0020).isSome = false) := by
  have hc : ∀ (E : Env) (lock : XenosSurface → Int → Int → Int) (depth : Nat) (s : State)
      (text : List Nat) (color textStyle : Nat), textStyle &&& E.K.FTGX_ALIGN_MASK ≠ 0 →
      createText E lock depth s text color textStyle = none := by
    intro E lock depth s text color textStyle h
    unfold createText alignPassConst
    simp only [ne_eq, h, not_false_eq_true, if_true, getOffsetConst_none, Option.map_none']
  refine ⟨getOffsetConst_none, fun _ _ _ => rfl, fun _ _ _ => rfl, hc, ?_⟩
  intro depth
  rw [hc sampleEnv sampleLock depth sampleFresh [65] 0 0x0020 (by decide)]
  rfl

theorem loadGlyphData_run (E : Env) (bmp : FT_Bitmap) (s : State) (key : Nat)
    (hw : (deref s key).textureWidth ≠ 0) (hh : (deref s key).textureHeight ≠ 0)
    (hg : s.glyphData = true) :
    mapFind s.nextSurface (loadGlyphData E bmp s key).st.surfaces =
      some { glyphSurface E (deref s key).textureWidth (deref s key).textureHeight with
              base := packBitmap bmp
                (glyphSurface E (deref s key).textureWidth (deref s key).textureHeight) } ∧
    Event.Xe_CreateTexture s.nextSurface (align32 (deref s key).textureWidth)
      (align32 (deref s key).textureHeight) ∈ (loadGlyphData E bmp s key).ev := by
  unfold loadGlyphData
  simp only [hw, hh, or_self, if_false, hg, Bool.true_eq_false]
  cases (deref s key).glyphDataTexture <;>
    simp [Xe_CreateTexture, Xe_DestroyTexture, mapFind_mapSet_self, glyphSurface]

/-- C14: the copy loops of `loadGlyphData` perform exactly the writes listed
by `copyBlocksLog` (on every buffer, of whatever length, they give what
applying that list gives), and every destination offset among them is below
`hpitch * wpitch`, the guard `dst < dst_limit` being tested before each
write. This holds for every bitmap, every surface geometry, every start and
every bound on the number of iterations; when the logical width and height are
at least 1 the loops end within `wpitch` and `hpitch` iterations, so the
list is that of the complete loops. -/
theorem loadGlyphData_writes_below_limit (bmp : FT_Bitmap) (tex : XenosSurface) :
    packBitmap bmp tex =
      applyWrites (List.replicate (tex.hpitch * tex.wpitch) 0)
        (copyBlocksLog bmp tex (tex.hpitch * tex.wpitch) tex.hpitch 0) ∧
    (∀ (fuel hpitch : Nat) (buf : List Nat),
      copyBlocks bmp tex (tex.hpitch * tex.wpitch) fuel hpitch buf =
        applyWrites buf (copyBlocksLog bmp tex (tex.hpitch * tex.wpitch) fuel hpitch)) ∧
    (∀ (fuel hpitch : Nat), ∀ p ∈ copyBlocksLog bmp tex (tex.hpitch * tex.wpitch) fuel hpitch,
      p.1 < tex.hpitch * tex.wpitch) ∧
    (1 ≤ tex.width → 1 ≤ tex.height →
      (∀ k, copyBlocksLog bmp tex (tex.hpitch * tex.wpitch) (tex.hpitch + k) 0 =
        copyBlocksLog bmp tex (tex.hpitch * tex.wpitch) tex.hpitch 0) ∧
      (∀ k y rowBase, copyTilesLog bmp tex (tex.hpitch * tex.wpitch) y rowBase (tex.wpitch + k) 0 =
        copyTilesLog bmp tex (tex.hpitch * tex.wpitch) y rowBase tex.wpitch 0)) := by
  refine ⟨?_, copyBlocks_eq_applyWrites bmp tex _, ?_, ?_⟩
  · unfold packBitmap
    exact copyBlocks_eq_applyWrites _ _ _ _ _ _
  · exact copyBlocksLog_lt bmp tex _
  · intro hw hh
    exact ⟨fun k => copyBlocksLog_fuel bmp tex _ hh tex.hpitch 0 k (by omega),
      fun k y rowBase => copyTilesLog_fuel bmp tex _ y rowBase hw tex.wpitch 0 k (by omega)⟩

/-- Witness of C14: a 3x2 bitmap on a surface of logical size 2x1 with a row
pitch of 3 and 2 rows, neither a multiple of the logical size. -/
theorem loadGlyphData_writes_below_limit_witness :
    (copyBlocksLog ⟨2, 3, 3, [1, 2, 3, 4, 5, 6]⟩ ⟨2, 1, 3, 2, 0, true, []⟩ (2 * 3) 2 0).map
      (fun p => p.1) = [0, 1, 2, 2, 3, 4, 3, 4, 5, 5, 3, 4, 5, 5] ∧
    (∀ k, copyBlocksLog ⟨2, 3, 3, [1, 2, 3, 4, 5, 6]⟩ ⟨2, 1, 3, 2, 0, true, []⟩ (2 * 3) (2 + k) 0 =
      copyBlocksLog ⟨2, 3, 3, [1, 2, 3, 4, 5, 6]⟩ ⟨2, 1, 3, 2, 0, true, []⟩ (2 * 3) 2 0) :=
  ⟨by decide,
    ((loadGlyphData_writes_below_limit ⟨2, 3, 3, [1, 2, 3, 4, 5, 6]⟩
      ⟨2, 1, 3, 2, 0, true, []⟩).2.2.2 (by decide) (by decide)).1⟩

theorem getD_set_ne (l : List Nat) (i j v : Nat) (h : i ≠ j) :
    (l.set i v).getD j 0 = l.getD j 0 := by
  simp [List.getD_eq_getElem?_getD, List.getElem?_set_ne h]

theorem getD_set_self (l : List Nat) (i v : Nat) (h : i < l.length) :
    (l.set i v).getD i 0 = v := by
  simp [List.getD_eq_getElem?_getD, h]

theorem copyRow_length (src : List Nat) (limit : Nat) :
    ∀ (n : Nat) (si : Int) (d : Nat) (buf : List Nat),
    (copyRow src limit n si d buf).length = buf.length := by
  intro n
  induction n with
  | zero => intro si d buf; rfl
  | succ n ih =>
    intro si d buf
    by_cases h : d < limit
    · simp only [copyRow, if_pos h, ih, List.length_set]
    · simp only [copyRow, if_neg h, ih]

theorem copyRow_getD_below (src : List Nat) (limit : Nat) :
    ∀ (n : Nat) (si : Int) (d : Nat) (buf : List Nat) (i : Nat), i < d →
    (copyRow src limit n si d buf).getD i 0 = buf.getD i 0 := by
  intro n
  induction n with
  | zero => intro si d buf i _; rfl
  | succ n ih =>
    intro si d buf i hi
    by_cases h : d < limit
    · simp only [copyRow, if_pos h]
      rw [ih _ _ _ i (by omega), getD_set_ne _ _ _ _ (by omega)]
    · simp only [copyRow, if_neg h]
      exact ih _ _ _ i hi

theorem copyRow_getD_written (src : List Nat) (limit : Nat) :
    ∀ (n : Nat) (si : Int) (d : Nat) (buf : List Nat) (j : Nat),
    d + n ≤ limit → d + n ≤ buf.length → j < n →
    (copyRow src limit n si d buf).getD (d + j) 0 = readByte src (si + (j : Int)) := by
  intro n
  induction n with
  | zero => intro si d buf j _ _ hj; omega
  | succ n ih =>
    intro si d buf j h1 h2 hj
    simp only [copyRow, if_pos (show d < limit by omega)]
    rcases Nat.eq_zero_or_pos j with rfl | hpos
    · simp only [Nat.add_zero, Nat.cast_zero, add_zero]
      rw [copyRow_getD_below _ _ _ _ _ _ d (by omega), getD_set_self _ _ _ (by omega)]
    · obtain ⟨j', rfl⟩ : ∃ j', j = j' + 1 := ⟨j - 1, by omega⟩
      have := ih (si + 1) (d + 1) (buf.set d (readByte src si)) j' (by omega)
        (by rw [List.length_set]; omega) (by omega)
      rw [show d + (j' + 1) = d + 1 + j' by omega, this]
      congr 1
      push_cast
      ring

theorem copyTiles_length (bmp : FT_Bitmap) (tex : XenosSurface) (limit y rowBase : Nat) :
    ∀ (fuel wpitch : Nat) (buf : List Nat),
    (copyTiles bmp tex limit y rowBase fuel wpitch buf).length = buf.length := by
  intro fuel
  induction fuel with
  | zero => intro wpitch buf; rfl
  | succ fuel ih =>
    intro wpitch buf
    by_cases h : wpitch < tex.wpitch
    · simp only [copyTiles, if_pos h, ih, copyRow_length]
    · simp only [copyTiles, if_neg h]

theorem copyTiles_getD_below (bmp : FT_Bitmap) (tex : XenosSurface) (limit y rowBase : Nat) :
    ∀ (fuel wpitch : Nat) (buf : List Nat) (i : Nat), i < rowBase * tex.wpitch + wpitch →
    (copyTiles bmp tex limit y rowBase fuel wpitch buf).getD i 0 = buf.getD i 0 := by
  intro fuel
  induction fuel with
  | zero => intro wpitch buf i _; rfl
  | succ fuel ih =>
    intro wpitch buf i hi
    by_cases h : wpitch < tex.wpitch
    · simp only [copyTiles, if_pos h]
      rw [ih _ _ i (by omega), copyRow_getD_below _ _ _ _ _ _ i hi]
    · simp only [copyTiles, if_neg h]

theorem copyRows_length (bmp : FT_Bitmap) (tex : XenosSurface) (limit hpitch : Nat) :
    ∀ (n y : Nat) (buf : List Nat),
    (copyRows bmp tex limit hpitch n y buf).length = buf.length := by
  intro n
  induction n with
  | zero => intro y buf; rfl
  | succ n ih =>
    intro y buf
    simp only [copyRows, ih, copyTiles_length]

theorem copyRows_getD_below (bmp : FT_Bitmap) (tex : XenosSurface) (limit hpitch : Nat) :
    ∀ (n y : Nat) (buf : List Nat) (i : Nat), i < (y + hpitch) * tex.wpitch →
    (copyRows bmp tex limit hpitch n y buf).getD i 0 = buf.getD i 0 := by
  intro n
  induction n with
  | zero => intro y buf i _; rfl
  | succ n ih =>
    intro y buf i hi
    simp only [copyRows]
    have e : (y + 1 + hpitch) * tex.wpitch = (y + hpitch) * tex.wpitch + tex.wpitch := by ring
    rw [ih _ _ i (by omega), copyTiles_getD_below _ _ _ _ _ _ _ _ i (by omega)]

theorem copyBlocks_getD_below (bmp : FT_Bitmap) (tex : XenosSurface) (limit : Nat) :
    ∀ (fuel hpitch : Nat) (buf : List Nat) (i : Nat), i < hpitch * tex.wpitch →
    (copyBlocks bmp tex limit fuel hpitch buf).getD i 0 = buf.getD i 0 := by
  intro fuel
  induction fuel with
  | zero => intro hpitch buf i _; rfl
  | succ fuel ih =>
    intro hpitch buf i hi
    by_cases h : hpitch < tex.hpitch
    · simp only [copyBlocks, if_pos h]
      have e : (hpitch + tex.height) * tex.wpitch =
          hpitch * tex.wpitch + tex.height * tex.wpitch := by ring
      rw [ih _ _ i (by omega), copyRows_getD_below _ _ _ _ _ _ _ i (by simpa using hi)]
    · simp only [copyBlocks, if_neg h]

theorem copyTiles_first (bmp : FT_Bitmap) (tex : XenosSurface) (limit y rowBase : Nat)
    (fuel : Nat) (buf : List Nat) (x : Nat) (hf : 1 ≤ fuel) (hwp : 0 < tex.wpitch)
    (hW : bmp.width ≤ tex.width) (hlim : rowBase * tex.wpitch + bmp.width ≤ limit)
    (hlen : rowBase * tex.wpitch + bmp.width ≤ buf.length) (hx : x < bmp.width) :
    (copyTiles bmp tex limit y rowBase fuel 0 buf).getD (rowBase * tex.wpitch + x) 0 =
      readByte bmp.buffer ((y : Int) * bmp.pitch + (x : Int)) := by
  obtain ⟨f, rfl⟩ : ∃ f, fuel = f + 1 := ⟨fuel - 1, by omega⟩
  simp only [copyTiles, if_pos hwp]
  rw [copyTiles_getD_below _ _ _ _ _ _ _ _ _ (by omega)]
  have := copyRow_getD_written bmp.buffer limit bmp.width ((y : Int) * bmp.pitch)
    (rowBase * tex.wpitch + 0) buf x (by omega) (by omega) hx
  simpa using this

theorem copyRows_target (bmp : FT_Bitmap) (tex : XenosSurface) (limit hpitch : Nat)
    (hwp : 0 < tex.wpitch) (hW : bmp.width ≤ tex.width) (hWp : bmp.width ≤ tex.wpitch) :
    ∀ (n y0 : Nat) (buf : List Nat), (y0 + n + hpitch) * tex.wpitch ≤ limit →
    (y0 + n + hpitch) * tex.wpitch ≤ buf.length →
    ∀ y x, y0 ≤ y → y < y0 + n → x < bmp.width →
    (copyRows bmp tex limit hpitch n y0 buf).getD ((y + hpitch) * tex.wpitch + x) 0 =
      readByte bmp.buffer ((y : Int) * bmp.pitch + (x : Int)) := by
  intro n
  induction n with
  | zero => intro y0 buf _ _ y x h1 h2 _; omega
  | succ n ih =>
    intro y0 buf hlim hlen y x h1 h2 hx
    simp only [copyRows]
    have e1 : (y0 + 1 + hpitch) * tex.wpitch = (y0 + hpitch) * tex.wpitch + tex.wpitch := by ring
    have e2 : (y0 + (n + 1) + hpitch) * tex.wpitch =
        (y0 + hpitch) * tex.wpitch + tex.wpitch + n * tex.wpitch := by ring
    by_cases hy : y = y0
    · subst hy
      rw [copyRows_getD_below _ _ _ _ _ _ _ _ (by omega)]
      exact copyTiles_first bmp tex limit y (y + hpitch) tex.wpitch buf x hwp hwp hW
        (by omega) (by omega) hx
    · exact ih (y0 + 1) _ (by rw [show y0 + 1 + n = y0 + (n + 1) by omega]; exact hlim)
        (by rw [copyTiles_length, show y0 + 1 + n = y0 + (n + 1) by omega]; exact hlen)
        y x (by omega) (by omega) hx

theorem packBitmap_length (bmp : FT_Bitmap) (tex : XenosSurface) :
    (packBitmap bmp tex).length = tex.hpitch * tex.wpitch := by
  unfold packBitmap
  generalize tex.hpitch * tex.wpitch = limit
  have : ∀ (fuel hp : Nat) (buf : List Nat),
      (copyBlocks bmp tex limit fuel hp buf).length = buf.length := by
    intro fuel
    induction fuel with
    | zero => intro hp buf; rfl
    | succ fuel ih =>
      intro hp buf
      by_cases h : hp < tex.hpitch
      · simp only [copyBlocks, if_pos h, ih, copyRows_length]
      · simp only [copyBlocks, if_neg h]
  rw [this, List.length_replicate]

theorem packBitmap_target (bmp : FT_Bitmap) (tex : XenosSurface)
    (hW : bmp.width ≤ tex.width) (hWp : tex.width ≤ tex.wpitch)
    (hH : bmp.rows ≤ tex.height) (hHp : tex.height ≤ tex.hpitch)
    (y x : Nat) (hy : y < bmp.rows) (hx : x < bmp.width) :
    (packBitmap bmp tex).getD (y * tex.wpitch + x) 0 =
      readByte bmp.buffer ((y : Int) * bmp.pitch + (x : Int)) := by
  unfold packBitmap
  obtain ⟨f, hf⟩ : ∃ f, tex.hpitch = f + 1 := ⟨tex.hpitch - 1, by omega⟩
  have hwp : 0 < tex.wpitch := by omega
  have k1 : bmp.rows * tex.wpitch ≤ tex.height * tex.wpitch := Nat.mul_le_mul_right _ hH
  have k2 : tex.height * tex.wpitch ≤ tex.hpitch * tex.wpitch := Nat.mul_le_mul_right _ hHp
  have k3 : (y + 1) * tex.wpitch ≤ bmp.rows * tex.wpitch := Nat.mul_le_mul_right _ hy
  have k4 : (y + 1) * tex.wpitch = y * tex.wpitch + tex.wpitch := by ring
  rw [hf]
  simp only [copyBlocks, if_pos (show 0 < tex.hpitch by omega)]
  rw [copyBlocks_getD_below _ _ _ _ _ _ _ (by simp only [Nat.zero_add]; omega)]
  have := copyRows_target bmp tex (tex.hpitch * tex.wpitch) 0 hwp hW (by omega) bmp.rows 0
    (List.replicate (tex.hpitch * tex.wpitch) 0) (by simp only [Nat.zero_add, Nat.add_zero]; omega)
    (by simp only [Nat.zero_add, Nat.add_zero, List.length_replicate]; omega)
    y x (by omega) (by omega) hx
  simpa [hf] using this

/-- C20: for a bitmap of width `w` and `r` rows with pitch at least `w`,
packed by the loops of `loadGlyphData` into a surface whose logical size and
pitches satisfy `w <= W <= wpitch` and `r <= H <= hpitch`, the destination
byte at offset `y * wpitch + x` is, after the loops, the source byte at
offset `y * pitch + x`, for every row `y < r` and column `x < w`; the further
copies of the tile-stepping loops land elsewhere or are overwritten. The
surface that `loadGlyphData` stores under the new handle is the one it
created with these bytes. -/
theorem loadGlyphData_copies_rows (E : Env) (bmp : FT_Bitmap) (s : State) (key : Nat)
    (tex : XenosSurface) (hp : (bmp.width : Int) ≤ bmp.pitch)
    (hW : bmp.width ≤ tex.width) (hWp : tex.width ≤ tex.wpitch)
    (hH : bmp.rows ≤ tex.height) (hHp : tex.height ≤ tex.hpitch) :
    (∀ y x, y < bmp.rows → x < bmp.width →
      (packBitmap bmp tex).getD (y * tex.wpitch + x) 0 =
        bmp.buffer.getD (y * bmp.pitch.toNat + x) 0) ∧
    (packBitmap bmp tex).length = tex.hpitch * tex.wpitch ∧
    ((deref s key).textureWidth ≠ 0 → (deref s key).textureHeight ≠ 0 → s.glyphData = true →
      tex = glyphSurface E (deref s key).textureWidth (deref s key).textureHeight →
      mapFind s.nextSurface (loadGlyphData E bmp s key).st.surfaces =
        some { tex with base := packBitmap bmp tex }) := by
  refine ⟨?_, packBitmap_length bmp tex, ?_⟩
  · intro y x hy hx
    rw [packBitmap_target bmp tex hW hWp hH hHp y x hy hx]
    have h0 : (0 : Int) ≤ bmp.pitch := by omega
    have e : (y : Int) * bmp.pitch + (x : Int) = ((y * bmp.pitch.toNat + x : Nat) : Int) := by
      push_cast
      rw [Int.toNat_of_nonneg h0]
    unfold readByte
    rw [e, if_pos (Int.natCast_nonneg _), Int.toNat_natCast]
  · intro h1 h2 h3 h4
    subst h4
    exact (loadGlyphData_run E bmp s key h1 h2 h3).1

/-- Witness of C20: a 3x2 bitmap with pitch 4 on a surface of logical size
4x2 with a row pitch of 6 and 3 rows, where the second tile of each row
spills into the next row. -/
theorem loadGlyphData_copies_rows_witness :
    (packBitmap ⟨2, 3, 4, [1, 2, 3, 0, 4, 5, 6, 0]⟩ ⟨4, 2, 6, 3, 0, true, []⟩).getD (1 * 6 + 2) 0 =
      ([1, 2, 3, 0, 4, 5, 6, 0] : List Nat).getD (1 * (4 : Int).toNat + 2) 0 ∧
    packBitmap ⟨2, 3, 4, [1, 2, 3, 0, 4, 5, 6, 0]⟩ ⟨4, 2, 6, 3, 0, true, []⟩ =
      [1, 2, 3, 0, 1, 2, 4, 5, 6, 0, 4, 5, 1, 2, 3, 0, 1, 2] :=
  ⟨(loadGlyphData_copies_rows sampleEnv ⟨2, 3, 4, [1, 2, 3, 0, 4, 5, 6, 0]⟩ sampleFresh 65
      ⟨4, 2, 6, 3, 0, true, []⟩ (by decide) (by decide) (by decide) (by decide) (by decide)).1
      1 2 (by decide) (by decide),
    by decide⟩

theorem createdTextures_append (a b : List Event) :
    createdTextures (a ++ b) = createdTextures a ++ createdTextures b := by
  induction a with
  | nil => rfl
  | cons e rest ih => cases e <;> simp [createdTextures, ih]

theorem destroyedTextures_append (a b : List Event) :
    destroyedTextures (a ++ b) = destroyedTextures a ++ destroyedTextures b := by
  induction a with
  | nil => rfl
  | cons e rest ih => cases e <;> simp [destroyedTextures, ih]

theorem Keeps.same (s : State) : Keeps s s [] :=
  ⟨rfl, fun cr h => by simpa [createdTextures] using h⟩

theorem Keeps.andThen {s t u : State} {e1 e2 : List Event} (h1 : Keeps s t e1)
    (h2 : Keeps t u e2) : Keeps s u (e1 ++ e2) := by
  refine ⟨by rw [destroyedTextures_append, h1.1, h2.1]; rfl, ?_⟩
  intro cr h
  rw [createdTextures_append, ← List.append_assoc]
  exact h2.2 _ (h1.2 cr h)

theorem ownedTextures_cons (k : Nat) (v : ftgxCharData) (m : List (Nat × ftgxCharData)) :
    ownedTextures ((k, v) :: m) = v.glyphDataTexture.toList ++ ownedTextures m := by
  unfold ownedTextures
  cases h : v.glyphDataTexture <;> simp [List.filterMap_cons, h]

theorem ownedTextures_mapSet_absent (c : Nat) (r : ftgxCharData) :
    ∀ (m : List (Nat × ftgxCharData)), mapFind c m = none →
    (ownedTextures (mapSet c r m)).Perm (r.glyphDataTexture.toList ++ ownedTextures m) := by
  intro m
  induction m with
  | nil =>
    intro _
    simp only [mapSet, ownedTextures_cons]
    exact List.Perm.refl _
  | cons p rest ih =>
    obtain ⟨k', v'⟩ := p
    intro hm
    have hne : c ≠ k' := by
      intro h
      simp [mapFind, h] at hm
    have hrest : mapFind c rest = none := by
      simpa [mapFind, hne] using hm
    by_cases h1 : c < k'
    · simp only [mapSet, if_pos h1, ownedTextures_cons]
      exact List.Perm.refl _
    · simp only [mapSet, if_neg h1, if_neg hne, ownedTextures_cons]
      exact ((ih hrest).append_left _).trans (List.perm_append_comm_assoc _ _ _)

theorem cacheGlyphData_ledger_facts (E : Env) (s : State) (c : Nat) (slot : FT_GlyphSlot)
    (hl : E.face.loadGlyph (E.face.charIndex c) = some slot)
    (hf : slot.format = FT_Glyph_Format.FT_GLYPH_FORMAT_BITMAP) :
    createdTextures (cacheGlyphData E s c).ev = (textureAfterCache s slot).toList ∧
    destroyedTextures (cacheGlyphData E s c).ev = [] ∧
    (∀ t, (mapFind t (cacheGlyphData E s c).st.surfaces).isSome = true ↔
      (textureAfterCache s slot = some t ∨ (mapFind t s.surfaces).isSome = true)) ∧
    s.nextSurface ≤ (cacheGlyphData E s c).st.nextSurface ∧
    (∀ t, textureAfterCache s slot = some t →
      t = s.nextSurface ∧ (cacheGlyphData E s c).st.nextSurface = t + 1) := by
  by_cases hw : toU16 slot.bitmap.width = 0
  · simp [cacheGlyphData, loadGlyphData, hl, hf, deref, mapFind_mapSet_self, textureAfterCache,
      recordOfSlot, adjustTextureWidth, adjustTextureHeight, hw, createdTextures,
      destroyedTextures]
  · by_cases hh : toU16 slot.bitmap.rows = 0
    · simp [cacheGlyphData, loadGlyphData, hl, hf, deref, mapFind_mapSet_self, textureAfterCache,
        recordOfSlot, adjustTextureWidth, adjustTextureHeight, hw, hh, createdTextures,
        destroyedTextures]
    · cases hg : s.glyphData
      · simp [cacheGlyphData, loadGlyphData, hl, hf, deref, mapFind_mapSet_self,
          textureAfterCache, recordOfSlot, adjustTextureWidth, adjustTextureHeight, hw, hh, hg,
          createdTextures, destroyedTextures]
      · simp only [cacheGlyphData, loadGlyphData, hl, hf, deref, mapFind_mapSet_self,
          textureAfterCache, recordOfSlot, adjustTextureWidth, adjustTextureHeight, hw, hh, hg,
          Xe_CreateTexture, createdTextures, destroyedTextures, if_true, if_false, or_self,
          Option.getD_some, Bool.true_eq_false, List.nil_append, List.cons_append,
          Option.toList, Option.some.injEq, List.append_nil]
        refine ⟨trivial, trivial, ?_, by omega, ?_⟩
        · intro t
          by_cases ht : t = s.nextSurface
          · subst ht
            simp [mapFind_mapSet_self]
          · rw [mapFind_mapSet_ne _ _ _ _ ht, mapFind_mapSet_ne _ _ _ _ ht]
            simp [Ne.symm ht]
        · intro t ht
          exact ⟨ht.symm, by rw [← ht]⟩

theorem cacheGlyphData_keeps (E : Env) (s : State) (c : Nat) (hm : mapFind c s.fontData = none) :
    Keeps s (cacheGlyphData E s c).st (cacheGlyphData E s c).ev := by
  cases hr : rasterOK E c with
  | false =>
    rw [cacheGlyphData_fail E s c hr]
    exact ⟨rfl, fun cr h => by simpa [createdTextures] using h⟩
  | true =>
    obtain ⟨slot, hl, hf⟩ := (rasterOK_iff E c).1 hr
    obtain ⟨f1, f2, f3, f4, f5⟩ := cacheGlyphData_ledger_facts E s c slot hl hf
    have hfd := (cacheGlyphData_ok E s c slot hl hf).2
    have hperm := ownedTextures_mapSet_absent c
      { recordOfSlot (E.face.charIndex c) slot with
        glyphDataTexture := textureAfterCache s slot } s.fontData hm
    rw [← hfd] at hperm
    refine ⟨f2, ?_⟩
    rintro cr ⟨n1, n2, m1, m2, b⟩
    rw [f1]
    cases ht : textureAfterCache s slot with
    | none =>
      rw [ht] at hperm f3
      simp only [Option.toList, List.nil_append, List.append_nil] at hperm ⊢
      refine ⟨n1, hperm.nodup_iff.2 n2, fun t => (hperm.mem_iff).trans (m1 t), ?_, ?_⟩
      · intro t
        rw [f3 t]
        simpa using m2 t
      · intro t h
        have := b t h
        omega
    | some t0 =>
      rw [ht] at hperm f3
      obtain ⟨e1, e2⟩ := f5 t0 ht
      have hnot : t0 ∉ cr := by
        intro h
        have := b t0 h
        omega
      simp only [Option.toList, List.singleton_append] at hperm ⊢
      refine ⟨?_, ?_, ?_, ?_, ?_⟩
      · rw [List.nodup_append]
        refine ⟨n1, List.nodup_singleton _, ?_⟩
        intro a ha hb
        rw [List.mem_singleton] at hb
        exact hnot (hb ▸ ha)
      · rw [hperm.nodup_iff, List.nodup_cons]
        exact ⟨fun h => hnot ((m1 t0).1 h), n2⟩
      · intro t
        rw [hperm.mem_iff, List.mem_cons, List.mem_append, List.mem_singleton, m1 t]
        exact or_comm
      · intro t
        rw [f3 t, List.mem_append, List.mem_singleton, m2 t]
        constructor
        · rintro (h | h)
          · exact Or.inr (by injection h with h; exact h.symm)
          · exact Or.inl h
        · rintro (h | h)
          · exact Or.inr h
          · exact Or.inl (by rw [h])
      · intro t h
        rw [List.mem_append, List.mem_singleton] at h
        rcases h with h | h
        · have := b t h
          omega
        · omega

theorem findOrCache_keeps (E : Env) (s : State) (c : Nat) :
    Keeps s (findOrCache E s c).st (findOrCache E s c).ev := by
  cases hm : mapFind c s.fontData with
  | none => rw [findOrCache_miss E s c hm]; exact cacheGlyphData_keeps E s c hm
  | some r => rw [findOrCache_hit E s c (by rw [hm]; rfl)]; exact Keeps.same s

theorem kerningDelta_keeps (E : Env) (s : State) (prev : Option Nat) (k : Nat) :
    Keeps s (kerningDelta E s prev k).2 [] := by
  unfold kerningDelta
  cases hk : s.ftKerningEnabled with
  | false => exact Keeps.same s
  | true =>
    cases prev with
    | none => exact Keeps.same s
    | some p =>
      cases hm : mapFind p s.fontData with
      | some r =>
        simp only [fontDataIndex_hit s p (by rw [hm]; rfl), if_true]
        exact Keeps.same s
      | none =>
        simp only [fontDataIndex_miss s p hm, if_true]
        refine ⟨rfl, ?_⟩
        rintro cr ⟨n1, n2, m1, m2, b⟩
        have hperm := ownedTextures_mapSet_absent p ftgxCharData.zero s.fontData hm
        simp only [ftgxCharData.zero, Option.toList, List.nil_append] at hperm
        simp only [createdTextures, List.append_nil]
        exact ⟨n1, hperm.nodup_iff.2 n2, fun t => (hperm.mem_iff).trans (m1 t), m2, b⟩

theorem keeps_of_draws (s : State) (ev : List Event) (h : ∀ e ∈ ev, e.isDraw = true) :
    Keeps s s ev := by
  have hc : createdTextures ev = [] ∧ destroyedTextures ev = [] := by
    induction ev with
    | nil => exact ⟨rfl, rfl⟩
    | cons e rest ih =>
      have h1 := h e (List.mem_cons_self e rest)
      have h2 := ih (fun d hd => h d (List.mem_cons_of_mem e hd))
      cases e <;> simp_all [createdTextures, destroyedTextures, Event.isDraw]
  exact ⟨hc.2, fun cr hl => by rw [hc.1, List.append_nil]; exact hl⟩

theorem getWidthLoop_keeps (E : Env) : ∀ (text : List Nat) (prev : Option Nat) (s : State)
    (w : Nat), Keeps s (getWidthLoop E text prev s w).st (getWidthLoop E text prev s w).ev := by
  intro text
  induction text with
  | nil => intro prev s w; exact Keeps.same s
  | cons c rest ih =>
    intro prev s w
    cases hg : (findOrCache E s c).val with
    | none =>
      rw [getWidthLoop_cons_none E c rest prev s w hg]
      exact (findOrCache_keeps E s c).andThen (ih _ _ _)
    | some k =>
      rw [getWidthLoop_cons_some E c k rest prev s w hg]
      have h2 := ((findOrCache_keeps E s c).andThen
        (kerningDelta_keeps E (findOrCache E s c).st prev k)).andThen (ih (some c)
          (kerningDelta E (findOrCache E s c).st prev k).2
          (toU16 ((addKerning w (kerningDelta E (findOrCache E s c).st prev k).1 : Int) +
            ((deref (kerningDelta E (findOrCache E s c).st prev k).2 k).glyphAdvanceX : Int))))
      simpa using h2

theorem getOffsetLoop_keeps (E : Env) : ∀ (text : List Nat) (s : State) (M m : Int),
    Keeps s (getOffsetLoop E text s M m).st (getOffsetLoop E text s M m).ev := by
  intro text
  induction text with
  | nil => intro s M m; exact Keeps.same s
  | cons c rest ih =>
    intro s M m
    cases hg : (findOrCache E s c).val with
    | none =>
      rw [getOffsetLoop_cons_none E c rest s M m hg]
      exact (findOrCache_keeps E s c).andThen (ih _ _ _)
    | some k =>
      rw [getOffsetLoop_cons_some E c k rest s M m hg]
      exact (findOrCache_keeps E s c).andThen (ih _ _ _)

theorem drawLoop_keeps (E : Env) (y : Int) (color xo yo : Nat) :
    ∀ (text : List Nat) (prev : Option Nat) (s : State) (xp pr : Nat),
    Keeps s (drawLoop E y color xo yo text prev s xp pr).st
      (drawLoop E y color xo yo text prev s xp pr).ev := by
  intro text
  induction text with
  | nil => intro prev s xp pr; exact Keeps.same s
  | cons c rest ih =>
    intro prev s xp pr
    cases hg : (findOrCache E s c).val with
    | none =>
      rw [drawLoop_cons_none E y color xo yo c rest prev s xp pr hg]
      exact (findOrCache_keeps E s c).andThen (ih _ _ _ _)
    | some k =>
      rw [drawLoop_cons_some E y color xo yo c k rest prev s xp pr hg]
      have h2 := (((findOrCache_keeps E s c).andThen
        (kerningDelta_keeps E (findOrCache E s c).st prev k)).andThen
        (keeps_of_draws (kerningDelta E (findOrCache E s c).st prev k).2 _
          (drawGlyph_isDraw (kerningDelta E (findOrCache E s c).st prev k).2
            (deref (kerningDelta E (findOrCache E s c).st prev k).2 k)
            (addKerning xp (kerningDelta E (findOrCache E s c).st prev k).1) xo yo y color))).andThen
        (ih (some c) (kerningDelta E (findOrCache E s c).st prev k).2
          (toU16 ((addKerning xp (kerningDelta E (findOrCache E s c).st prev k).1 : Int) +
            ((deref (kerningDelta E (findOrCache E s c).st prev k).2 k).glyphAdvanceX : Int)))
          (toU16 ((pr : Int) + 1)))
      simpa using h2

theorem justifyPass_keeps (E : Env) (s : State) (text : List Nat) (textStyle : Nat) :
    Keeps s (justifyPass E s text textStyle).st (justifyPass E s text textStyle).ev := by
  unfold justifyPass
  split_ifs
  · exact getWidthLoop_keeps E _ _ _ _
  · exact Keeps.same s

theorem alignPass_keeps (E : Env) (s : State) (text : List Nat) (textStyle : Nat) :
    Keeps s (alignPass E s text textStyle).st (alignPass E s text textStyle).ev := by
  unfold alignPass
  split_ifs
  · exact getOffsetLoop_keeps E _ _ _ _
  · exact Keeps.same s

theorem stylePass_keeps (E : Env) (s : State) (text : List Nat) (textStyle : Nat) :
    Keeps s (stylePass E s text textStyle).st (stylePass E s text textStyle).ev := by
  unfold stylePass
  split_ifs
  · exact getOffsetLoop_keeps E _ _ _ _
  · exact Keeps.same s

theorem drawText_keeps (E : Env) (s : State) (x y : Int) (text : List Nat)
    (color textStyle : Nat) :
    Keeps s (drawText E s x y text color textStyle).st
      (drawText E s x y text color textStyle).ev :=
  (((justifyPass_keeps E s text textStyle).andThen (alignPass_keeps E _ text textStyle)).andThen
    (drawLoop_keeps E y color _ _ (cstr text) none _ (toU16 x) 0)).andThen
    (stylePass_keeps E _ text textStyle)

theorem runCall_keeps (E : Env) (s : State) (c : Call) :
    Keeps s (runCall E s c).1 (runCall E s c).2 := by
  cases c with
  | width text => exact getWidthLoop_keeps E _ _ _ _
  | height text => exact getOffsetLoop_keeps E _ _ _ _
  | offset text => exact getOffsetLoop_keeps E _ _ _ _
  | draw x y text color textStyle => exact drawText_keeps E s x y text color textStyle

theorem runCalls_keeps (E : Env) : ∀ (calls : List Call) (s : State),
    Keeps s (runCalls E s calls).1 (runCalls E s calls).2 := by
  intro calls
  induction calls with
  | nil => intro s; exact Keeps.same s
  | cons c rest ih => intro s; exact (runCall_keeps E s c).andThen (ih _)

theorem construct_ledger (E : Env) (pixelSize vertexIndex : Nat) (mallocOk : Bool) :
    Ledger (construct E pixelSize vertexIndex mallocOk) [] := by
  refine ⟨List.nodup_nil, List.nodup_nil, ?_, ?_, ?_⟩ <;>
    simp [construct, ownedTextures, mapFind]

theorem mapFind_mapErase {α : Type} (k t : Nat) (m : List (Nat × α)) :
    mapFind t (mapErase k m) = if t = k then none else mapFind t m := by
  induction m with
  | nil => simp [mapErase, mapFind]
  | cons p rest ih =>
    obtain ⟨k', v'⟩ := p
    by_cases h1 : k = k'
    · subst h1
      by_cases h2 : t = k
      · subst h2
        simp [mapErase, ih]
      · simp [mapErase, mapFind, ih, h2]
    · by_cases h2 : t = k
      · subst h2
        simp [mapErase, mapFind, ih, h1]
      · simp [mapErase, mapFind, ih, h1, h2]

theorem mapFind_foldl_mapErase {α : Type} (t : Nat) : ∀ (l : List Nat) (m : List (Nat × α)),
    mapFind t (l.foldl (fun m k => mapErase k m) m) = if t ∈ l then none else mapFind t m := by
  intro l
  induction l with
  | nil => intro m; simp
  | cons k rest ih =>
    intro m
    rw [List.foldl_cons, ih, mapFind_mapErase]
    by_cases h1 : t ∈ rest
    · simp [h1]
    · by_cases h2 : t = k
      · simp [h2]
      · simp [h1, h2]

theorem eq_nil_of_mapFind_none {α : Type} (m : List (Nat × α))
    (h : ∀ t, mapFind t m = none) : m = [] := by
  cases m with
  | nil => rfl
  | cons p rest =>
    have := h p.1
    simp [mapFind] at this

theorem destroyedTextures_map (l : List Nat) :
    destroyedTextures (l.map Event.Xe_DestroyTexture) = l := by
  induction l with
  | nil => rfl
  | cons t rest ih => simp [destroyedTextures, ih]

theorem unloadFont_ev (s : State) :
    (unloadFont s).ev = (ownedTextures s.fontData).map Event.Xe_DestroyTexture := by
  unfold unloadFont
  split_ifs with h
  · have : s.fontData = [] := List.length_eq_zero.1 h
    simp [this, ownedTextures]
  · rfl

theorem unloadFont_fontData (s : State) : (unloadFont s).st.fontData = [] := by
  unfold unloadFont
  split_ifs with h
  · exact List.length_eq_zero.1 h
  · rfl

theorem unloadFont_surfaces (s : State) (cr : List Nat) (h : Ledger s cr) :
    (unloadFont s).st.surfaces = [] := by
  obtain ⟨_, _, m1, m2, _⟩ := h
  apply eq_nil_of_mapFind_none
  intro t
  have key : t ∉ ownedTextures s.fontData → mapFind t s.surfaces = none := by
    intro hn
    cases hf : mapFind t s.surfaces with
    | none => rfl
    | some v => exact absurd ((m1 t).2 ((m2 t).1 (by rw [hf]; rfl))) hn
  unfold unloadFont
  split_ifs with h0
  · have e : s.fontData = [] := List.length_eq_zero.1 h0
    exact key (by simp [e, ownedTextures])
  · show mapFind t ((ownedTextures s.fontData).foldl (fun m t => mapErase t m) s.surfaces) = none
    rw [mapFind_foldl_mapErase]
    split_ifs with h1
    · rfl
    · exact key h1

/-- C19: from a freshly constructed instance, after any sequence of
`getWidth`, `getHeight`, `getOffset` and `drawText` calls, no texture has been
destroyed, the textures created are distinct, each is the handle of a record
and no two records hold the same handle, and they are the textures live on
the device; `unloadFont` then leaves an empty map and no live texture, and
its events are one `Xe_DestroyTexture` per record with a handle, which
destroys every texture created exactly once. -/
theorem textures_owned_once (E : Env) (pixelSize vertexIndex : Nat) (mallocOk : Bool)
    (calls : List Call) :
    destroyedTextures (runCalls E (construct E pixelSize vertexIndex mallocOk) calls).2 = [] ∧
    (createdTextures (runCalls E (construct E pixelSize vertexIndex mallocOk) calls).2).Nodup ∧
    (ownedTextures
      (runCalls E (construct E pixelSize vertexIndex mallocOk) calls).1.fontData).Nodup ∧
    (∀ t, t ∈ createdTextures (runCalls E (construct E pixelSize vertexIndex mallocOk) calls).2 ↔
      t ∈ ownedTextures
        (runCalls E (construct E pixelSize vertexIndex mallocOk) calls).1.fontData) ∧
    (∀ t, t ∈ createdTextures (runCalls E (construct E pixelSize vertexIndex mallocOk) calls).2 ↔
      (mapFind t
        (runCalls E (construct E pixelSize vertexIndex mallocOk) calls).1.surfaces).isSome =
        true) ∧
    (unloadFont (runCalls E (construct E pixelSize vertexIndex mallocOk) calls).1).st.fontData =
      [] ∧
    (unloadFont (runCalls E (construct E pixelSize vertexIndex mallocOk) calls).1).st.surfaces =
      [] ∧
    (unloadFont (runCalls E (construct E pixelSize vertexIndex mallocOk) calls).1).ev =
      (ownedTextures
        (runCalls E (construct E pixelSize vertexIndex mallocOk) calls).1.fontData).map
        Event.Xe_DestroyTexture ∧
    (destroyedTextures
      (unloadFont (runCalls E (construct E pixelSize vertexIndex mallocOk) calls).1).ev).Nodup ∧
    (∀ t, t ∈ destroyedTextures
        (unloadFont (runCalls E (construct E pixelSize vertexIndex mallocOk) calls).1).ev ↔
      t ∈ createdTextures (runCalls E (construct E pixelSize vertexIndex mallocOk) calls).2) := by
  have hk := runCalls_keeps E calls (construct E pixelSize vertexIndex mallocOk)
  have hl := hk.2 [] (construct_ledger E pixelSize vertexIndex mallocOk)
  rw [List.nil_append] at hl
  obtain ⟨n1, n2, m1, m2, b⟩ := hl
  refine ⟨hk.1, n1, n2, fun t => (m1 t).symm, fun t => (m2 t).symm, unloadFont_fontData _,
    unloadFont_surfaces _ _ ⟨n1, n2, m1, m2, b⟩, unloadFont_ev _, ?_, ?_⟩
  · rw [unloadFont_ev, destroyedTextures_map]; exact n2
  · intro t
    rw [unloadFont_ev, destroyedTextures_map]
    exact m1 t

/-! ## Lemmas about `UTF8_to_UNICODE` -/

theorem and_mask_eq_mod (x k : Nat) : x &&& (2 ^ k - 1) = x % 2 ^ k :=
  Nat.and_pow_two_sub_one_eq_mod x k

theorem lor_eq_add (x y k : Nat) (hx : x % 2 ^ k = 0) (hy : y < 2 ^ k) : x ||| y = x + y := by
  have h : x = 2 ^ k * (x / 2 ^ k) := by
    have := Nat.div_add_mod x (2 ^ k)
    omega
  rw [h, ← Nat.mul_add_lt_is_or hy]

theorem and_7 (x : Nat) : x &&& 7 = x % 8 := and_mask_eq_mod x 3
theorem and_15 (x : Nat) : x &&& 15 = x % 16 := and_mask_eq_mod x 4
theorem and_31 (x : Nat) : x &&& 31 = x % 32 := and_mask_eq_mod x 5
theorem and_63 (x : Nat) : x &&& 63 = x % 64 := and_mask_eq_mod x 6

theorem decode_two (c : Nat) (h : c < 0x800) :
    (((0xC0 + c / 64) &&& 0x1F) <<< 6) ||| ((0x80 + c % 64) &&& 0x3F) = c := by
  rw [and_31, and_63, Nat.shiftLeft_eq]
  have e1 : (0xC0 + c / 64) % 32 = c / 64 := by omega
  have e2 : (0x80 + c % 64) % 64 = c % 64 := by omega
  rw [e1, e2, lor_eq_add (c / 64 * 2 ^ 6) (c % 64) 6 (by omega) (by omega)]
  omega

theorem decode_three (c : Nat) (h : c < 0x10000) :
    ((((0xE0 + c / 4096) &&& 0x0F) <<< 12) ||| (((0x80 + c / 64 % 64) &&& 0x3F) <<< 6)) |||
      ((0x80 + c % 64) &&& 0x3F) = c := by
  rw [and_15, and_63, and_63, Nat.shiftLeft_eq, Nat.shiftLeft_eq]
  have e1 : (0xE0 + c / 4096) % 16 = c / 4096 := by omega
  have e2 : (0x80 + c / 64 % 64) % 64 = c / 64 % 64 := by omega
  have e3 : (0x80 + c % 64) % 64 = c % 64 := by omega
  rw [e1, e2, e3,
    lor_eq_add (c / 4096 * 2 ^ 12) (c / 64 % 64 * 2 ^ 6) 12 (by omega) (by omega),
    lor_eq_add (c / 4096 * 2 ^ 12 + c / 64 % 64 * 2 ^ 6) (c % 64) 6 (by omega) (by omega)]
  omega

theorem decode_four (c : Nat) (h : c < 0x110000) :
    (((((0xF0 + c / 262144) &&& 0x07) <<< 18) ||| (((0x80 + c / 4096 % 64) &&& 0x3F) <<< 12)) |||
        (((0x80 + c / 64 % 64) &&& 0x3F) <<< 6)) ||| ((0x80 + c % 64) &&& 0x3F) = c := by
  rw [and_7, and_63, and_63, and_63, Nat.shiftLeft_eq, Nat.shiftLeft_eq, Nat.shiftLeft_eq]
  have e0 : (0xF0 + c / 262144) % 8 = c / 262144 := by omega
  have e1 : (0x80 + c / 4096 % 64) % 64 = c / 4096 % 64 := by omega
  have e2 : (0x80 + c / 64 % 64) % 64 = c / 64 % 64 := by omega
  have e3 : (0x80 + c % 64) % 64 = c % 64 := by omega
  rw [e0, e1, e2, e3,
    lor_eq_add (c / 262144 * 2 ^ 18) (c / 4096 % 64 * 2 ^ 12) 18 (by omega) (by omega),
    lor_eq_add (c / 262144 * 2 ^ 18 + c / 4096 % 64 * 2 ^ 12) (c / 64 % 64 * 2 ^ 6) 12
      (by omega) (by omega),
    lor_eq_add (c / 262144 * 2 ^ 18 + c / 4096 % 64 * 2 ^ 12 + c / 64 % 64 * 2 ^ 6) (c % 64) 6
      (by omega) (by omega)]
  omega

theorem utf8Encode_length_pos (c : Nat) : 0 < (utf8Encode c).length := by
  unfold utf8Encode
  split_ifs
  all_goals simp

theorem length_le_utf8EncodeAll (cps : List Nat) : cps.length ≤ (utf8EncodeAll cps).length := by
  induction cps with
  | nil => simp [utf8EncodeAll]
  | cons c rest ih =>
    have := utf8Encode_length_pos c
    simp only [utf8EncodeAll, List.length_cons, List.length_append]
    omega

theorem getD_append_left_lt (a b : List Nat) (k : Nat) (h : k < a.length) :
    (a ++ b).getD k 0 = a.getD k 0 := by
  simp [List.getD_eq_getElem?_getD, List.getElem?_append_left h]

theorem getD_append_right_add (a b : List Nat) (k : Nat) :
    (a ++ b).getD (a.length + k) 0 = b.getD k 0 := by
  simp [List.getD_eq_getElem?_getD, List.getElem?_append_right]

theorem agrees_append (utf8 : Nat → Nat) (i : Nat) (a b : List Nat)
    (h : ∀ k, k < (a ++ b).length → utf8 (i + k) = (a ++ b).getD k 0) :
    (∀ k, k < a.length → utf8 (i + k) = a.getD k 0) ∧
      (∀ k, k < b.length → utf8 (i + a.length + k) = b.getD k 0) := by
  constructor
  · intro k hk
    rw [h k (by simp; omega), getD_append_left_lt a b k hk]
  · intro k hk
    rw [Nat.add_assoc, h (a.length + k) (by simp; omega), getD_append_right_add]

theorem zip_range_cons (j c : Nat) (rest : List Nat) (w : List (Nat × Nat))
    (h : w = (List.range' (j + 1) rest.length).zip rest ++ [(j + 1 + rest.length, 0)]) :
    (j, c) :: w =
      (List.range' j (c :: rest).length).zip (c :: rest) ++ [(j + (c :: rest).length, 0)] := by
  subst h
  simp [List.range'_succ, Nat.add_assoc, Nat.add_comm 1]

theorem UTF8_to_UNICODE_loop_encoding (utf8 : Nat → Nat) (len : Nat) :
    ∀ (cps : List Nat) (fuel i j : Nat), (∀ c ∈ cps, c < 0x110000) →
      (∀ k, k < (utf8EncodeAll cps).length → utf8 (i + k) = (utf8EncodeAll cps).getD k 0) →
      len = i + (utf8EncodeAll cps).length → cps.length ≤ fuel →
      (UTF8_to_UNICODE_loop utf8 len fuel i j).writes =
        (List.range' j cps.length).zip cps ++ [(j + cps.length, 0)] := by
  intro cps
  induction cps with
  | nil =>
    intro fuel i j _ _ hlen _
    have hi : ¬ i < len := by simp [utf8EncodeAll] at hlen; omega
    cases fuel with
    | zero => simp [UTF8_to_UNICODE_loop]
    | succ fuel => simp [UTF8_to_UNICODE_loop, hi]
  | cons c rest ih =>
    intro fuel i j hc hm hlen hf
    cases fuel with
    | zero => simp at hf
    | succ fuel =>
      have hc0 : c < 0x110000 := hc c (by simp)
      have hrest : ∀ d ∈ rest, d < 0x110000 := fun d hd => hc d (by simp [hd])
      have hf' : rest.length ≤ fuel := by simpa using hf
      obtain ⟨ha, hb⟩ := agrees_append utf8 i (utf8Encode c) (utf8EncodeAll rest) hm
      have hpos := utf8Encode_length_pos c
      have hlen' : len = i + (utf8Encode c).length + (utf8EncodeAll rest).length := by
        simp only [utf8EncodeAll, List.length_append] at hlen
        omega
      have hi : i < len := by omega
      by_cases h1 : c < 0x80
      · have he : utf8Encode c = [c] := by simp [utf8Encode, h1]
        rw [he] at ha hb hlen'
        have b0 : utf8 i = c := by simpa using ha 0 (by simp)
        have r := ih fuel (i + 1) (j + 1) hrest hb hlen' hf'
        rw [UTF8_to_UNICODE_loop, if_pos hi, if_neg (by omega), if_neg (by omega),
          if_neg (by omega), b0]
        exact zip_range_cons j c rest _ r
      by_cases h2 : c < 0x800
      · have he : utf8Encode c = [0xC0 + c / 64, 0x80 + c % 64] := by simp [utf8Encode, h1, h2]
        rw [he] at ha hb hlen'
        have b0 : utf8 i = 0xC0 + c / 64 := by simpa using ha 0 (by simp)
        have b1 : utf8 (i + 1) = 0x80 + c % 64 := by simpa using ha 1 (by simp)
        have r := ih fuel (i + 2) (j + 1) hrest hb hlen' hf'
        rw [UTF8_to_UNICODE_loop, if_pos hi, if_neg (by omega), if_neg (by omega),
          if_pos (by omega), b0, b1]
        show (j, _) :: _ = _
        rw [decode_two c h2]
        exact zip_range_cons j c rest _ r
      by_cases h3 : c < 0x10000
      · have he : utf8Encode c = [0xE0 + c / 4096, 0x80 + c / 64 % 64, 0x80 + c % 64] := by
          simp [utf8Encode, h1, h2, h3]
        rw [he] at ha hb hlen'
        have b0 : utf8 i = 0xE0 + c / 4096 := by simpa using ha 0 (by simp)
        have b1 : utf8 (i + 1) = 0x80 + c / 64 % 64 := by simpa using ha 1 (by simp)
        have b2 : utf8 (i + 2) = 0x80 + c % 64 := by simpa using ha 2 (by simp)
        have r := ih fuel (i + 3) (j + 1) hrest hb hlen' hf'
        rw [UTF8_to_UNICODE_loop, if_pos hi, if_neg (by omega), if_pos (by omega), b0, b1, b2]
        show (j, _) :: _ = _
        rw [decode_three c h3]
        exact zip_range_cons j c rest _ r
      · have he : utf8Encode c =
            [0xF0 + c / 262144, 0x80 + c / 4096 % 64, 0x80 + c / 64 % 64, 0x80 + c % 64] := by
          simp [utf8Encode, h1, h2, h3]
        rw [he] at ha hb hlen'
        have b0 : utf8 i = 0xF0 + c / 262144 := by simpa using ha 0 (by simp)
        have b1 : utf8 (i + 1) = 0x80 + c / 4096 % 64 := by simpa using ha 1 (by simp)
        have b2 : utf8 (i + 2) = 0x80 + c / 64 % 64 := by simpa using ha 2 (by simp)
        have b3 : utf8 (i + 3) = 0x80 + c % 64 := by simpa using ha 3 (by simp)
        have r := ih fuel (i + 4) (j + 1) hrest hb hlen' hf'
        rw [UTF8_to_UNICODE_loop, if_pos hi, if_pos (by omega), b0, b1, b2, b3]
        show (j, _) :: _ = _
        rw [decode_four c hc0]
        exact zip_range_cons j c rest _ r

/-- Every assignment of the loop is to an index of at most `len`, when it
starts with `j ≤ i` and `j ≤ len`. -/
theorem UTF8_to_UNICODE_loop_writes_le (utf8 : Nat → Nat) (len : Nat) :
    ∀ (fuel i j : Nat), j ≤ i → j ≤ len →
      ∀ p ∈ (UTF8_to_UNICODE_loop utf8 len fuel i j).writes, p.1 ≤ len := by
  intro fuel
  induction fuel with
  | zero =>
    intro i j _ hj p hp
    simp [UTF8_to_UNICODE_loop] at hp
    subst hp
    exact hj
  | succ fuel ih =>
    intro i j hji hj p hp
    rw [UTF8_to_UNICODE_loop] at hp
    split_ifs at hp with hi h4 h3 h2
    · rcases List.mem_cons.mp hp with rfl | hp
      · exact hj
      · exact ih (i + 4) (j + 1) (by omega) (by omega) p hp
    · rcases List.mem_cons.mp hp with rfl | hp
      · exact hj
      · exact ih (i + 3) (j + 1) (by omega) (by omega) p hp
    · rcases List.mem_cons.mp hp with rfl | hp
      · exact hj
      · exact ih (i + 2) (j + 1) (by omega) (by omega) p hp
    · rcases List.mem_cons.mp hp with rfl | hp
      · exact hj
      · exact ih (i + 1) (j + 1) (by omega) (by omega) p hp
    · simp at hp
      subst hp
      exact hj

/-- Every read of the loop is at an index below `len + 3`. -/
theorem UTF8_to_UNICODE_loop_reads_lt (utf8 : Nat → Nat) (len : Nat) :
    ∀ (fuel i j : Nat), ∀ k ∈ (UTF8_to_UNICODE_loop utf8 len fuel i j).reads, k < len + 3 := by
  intro fuel
  induction fuel with
  | zero =>
    intro i j k hk
    simp [UTF8_to_UNICODE_loop] at hk
  | succ fuel ih =>
    intro i j k hk
    rw [UTF8_to_UNICODE_loop] at hk
    split_ifs at hk with hi h4 h3 h2
    · simp only [List.mem_cons] at hk
      rcases hk with rfl | rfl | rfl | rfl | rfl | hk
      all_goals first | omega | exact ih _ _ k hk
    · simp only [List.mem_cons] at hk
      rcases hk with rfl | rfl | rfl | rfl | hk
      all_goals first | omega | exact ih _ _ k hk
    · simp only [List.mem_cons] at hk
      rcases hk with rfl | rfl | rfl | hk
      all_goals first | omega | exact ih _ _ k hk
    · simp only [List.mem_cons] at hk
      rcases hk with rfl | hk
      all_goals first | omega | exact ih _ _ k hk
    · simp at hk

/-- More iterations than `len - i` change nothing: the bound of `len`
iterations in `UTF8_to_UNICODE` is never what stops the loop. -/
theorem UTF8_to_UNICODE_loop_fuel (utf8 : Nat → Nat) (len : Nat) :
    ∀ (fuel extra i j : Nat), len ≤ i + fuel →
      UTF8_to_UNICODE_loop utf8 len (fuel + extra) i j = UTF8_to_UNICODE_loop utf8 len fuel i j := by
  intro fuel
  induction fuel with
  | zero =>
    intro extra i j h
    cases extra with
    | zero => rfl
    | succ e =>
      have hi : ¬ i < len := by omega
      simp [UTF8_to_UNICODE_loop, hi]
  | succ fuel ih =>
    intro extra i j h
    have e : fuel + 1 + extra = (fuel + extra) + 1 := by omega
    rw [e, UTF8_to_UNICODE_loop, UTF8_to_UNICODE_loop]
    rw [ih extra (i + 1) (j + 1) (by omega), ih extra (i + 2) (j + 1) (by omega),
      ih extra (i + 3) (j + 1) (by omega), ih extra (i + 4) (j + 1) (by omega)]

/-- C21: for every finite sequence `cps` of Unicode scalar values, when
the input holds the standard UTF-8 encoding of `cps` and `len` is the byte
length of that encoding, `UTF8_to_UNICODE` assigns exactly the code points of
`cps`, in order, to `unicode[0]`, `unicode[1]`, ..., and then a single 0 to
the next element: decoding undoes encoding in the 1-, 2-, 3- and 4-byte
forms. -/
theorem UTF8_to_UNICODE_decodes_encoding (cps : List Nat) (utf8 : Nat → Nat)
    (hs : ∀ c ∈ cps, isScalar c)
    (hm : ∀ k, k < (utf8EncodeAll cps).length → utf8 k = (utf8EncodeAll cps).getD k 0) :
    (UTF8_to_UNICODE utf8 (utf8EncodeAll cps).length).writes =
      (List.range cps.length).zip cps ++ [(cps.length, 0)] := by
  have h := UTF8_to_UNICODE_loop_encoding utf8 (utf8EncodeAll cps).length cps
    (utf8EncodeAll cps).length 0 0 (fun c hc => (hs c hc).1)
    (fun k hk => by rw [Nat.zero_add]; exact hm k hk) (by omega)
    (length_le_utf8EncodeAll cps)
  rw [UTF8_to_UNICODE, h, Nat.zero_add, List.range_eq_range']

/-- C21 at the sequence U+0041, U+00E9, U+20AC, U+1F600, U+0000, which
uses each of the four forms. -/
theorem UTF8_to_UNICODE_decodes_encoding_witness :
    (∀ c ∈ [0x41, 0xE9, 0x20AC, 0x1F600, 0], isScalar c) ∧
      (UTF8_to_UNICODE (memOf (utf8EncodeAll [0x41, 0xE9, 0x20AC, 0x1F600, 0]))
          (utf8EncodeAll [0x41, 0xE9, 0x20AC, 0x1F600, 0]).length).writes =
        (List.range [0x41, 0xE9, 0x20AC, 0x1F600, 0].length).zip
            [0x41, 0xE9, 0x20AC, 0x1F600, 0] ++
          [([0x41, 0xE9, 0x20AC, 0x1F600, 0].length, 0)] :=
  ⟨by decide,
    UTF8_to_UNICODE_decodes_encoding [0x41, 0xE9, 0x20AC, 0x1F600, 0]
      (memOf (utf8EncodeAll [0x41, 0xE9, 0x20AC, 0x1F600, 0])) (by decide) (fun _ _ => rfl)⟩

/-- C22: on the one-byte input 0xF0 with `len = 1`, `UTF8_to_UNICODE`
reads `utf8[1]`, `utf8[2]` and `utf8[3]`, none of them below `len`; called
through `charToWideChar` on the string of that one byte, the last two reads
lie beyond the string's terminator, whatever is stored there. In general the
reads stay below `len + 3`. The writes are as claimed: every assignment is to
an index of at most `len`, inside the `len + 1` elements that
`charToWideChar` allocates. -/
theorem UTF8_to_UNICODE_reads_past_len :
    (UTF8_to_UNICODE (memOf [0xF0]) 1).reads = [0, 0, 1, 2, 3] ∧
      (∀ beyond : Nat → Nat,
        (charToWideChar [0xF0] beyond).1 = 2 ∧
          (charToWideChar [0xF0] beyond).2.reads = [0, 0, 1, 2, 3]) ∧
      (∀ (utf8 : Nat → Nat) (len : Nat),
        ∀ k ∈ (UTF8_to_UNICODE utf8 len).reads, k < len + 3) ∧
      (∀ (utf8 : Nat → Nat) (len : Nat),
        ∀ p ∈ (UTF8_to_UNICODE utf8 len).writes, p.1 ≤ len) ∧
      (∀ (bytes : List Nat) (beyond : Nat → Nat),
        ∀ p ∈ (charToWideChar bytes beyond).2.writes, p.1 < (charToWideChar bytes beyond).1) := by
  refine ⟨by decide, fun beyond => ⟨rfl, rfl⟩, ?_, ?_, ?_⟩
  · intro utf8 len k hk
    exact UTF8_to_UNICODE_loop_reads_lt utf8 len len 0 0 k hk
  · intro utf8 len p hp
    exact UTF8_to_UNICODE_loop_writes_le utf8 len len 0 0 (Nat.le_refl 0) (Nat.zero_le len) p hp
  · intro bytes beyond p hp
    exact Nat.lt_succ_of_le
      (UTF8_to_UNICODE_loop_writes_le _ _ _ 0 0 (Nat.le_refl 0) (Nat.zero_le _) p hp)

/-! ## Lemmas about the loops of `createText` -/

/-- With a logical width of at least 1, the bound `tex.wpitch - wpitch` on the
iterations of the loop over `wpitch` is never reached: a larger one gives the
same result. -/
theorem lockedTiles_fuel (bmp : FT_Bitmap) (tex : XenosSurface) (off : Int)
    (limit y rowBase : Nat) (hw : 1 ≤ tex.width) :
    ∀ (fuel extra wpitch : Nat) (buf : List Nat), tex.wpitch ≤ wpitch + fuel →
      lockedTiles bmp tex off limit y rowBase (fuel + extra) wpitch buf =
        lockedTiles bmp tex off limit y rowBase fuel wpitch buf := by
  intro fuel
  induction fuel with
  | zero =>
    intro extra wpitch buf h
    have hn : ¬ wpitch < tex.wpitch := by omega
    cases extra with
    | zero => rfl
    | succ e => simp [lockedTiles, hn]
  | succ fuel ih =>
    intro extra wpitch buf h
    have e : fuel + 1 + extra = (fuel + extra) + 1 := by omega
    rw [e, lockedTiles, lockedTiles]
    by_cases hlt : wpitch < tex.wpitch
    · simp only [if_pos hlt]
      cases applyWritesAt (tex.hpitch * tex.wpitch) off buf
          (copyRowLog bmp.buffer limit bmp.width ((y : Int) * bmp.pitch)
            (rowBase * tex.wpitch + wpitch)) with
      | ok buf1 => exact ih extra (wpitch + tex.width) buf1 (by omega)
      | outside k => rfl
    · simp only [if_neg hlt]

/-- With a logical width of 0 and a row pitch that is not 0, the loop over
`wpitch` completes for no bound on its iterations: `wpitch` stays where it
is. -/
theorem lockedTiles_endless (bmp : FT_Bitmap) (tex : XenosSurface) (off : Int)
    (limit y rowBase : Nat) (hw : tex.width = 0) (wpitch : Nat) (hlt : wpitch < tex.wpitch) :
    ∀ (fuel : Nat) (buf : List Nat),
      returned (lockedTiles bmp tex off limit y rowBase fuel wpitch buf) = none := by
  intro fuel
  induction fuel with
  | zero =>
    intro buf
    simp [lockedTiles, hlt, returned]
  | succ fuel ih =>
    intro buf
    rw [lockedTiles, if_pos hlt]
    cases applyWritesAt (tex.hpitch * tex.wpitch) off buf
        (copyRowLog bmp.buffer limit bmp.width ((y : Int) * bmp.pitch)
          (rowBase * tex.wpitch + wpitch)) with
    | ok buf1 =>
      show returned (lockedTiles bmp tex off limit y rowBase fuel (wpitch + tex.width) buf1) = none
      rw [hw]
      exact ih buf1
    | outside k => rfl

/-- With a logical height of at least 1, the bound `tex.hpitch - hpitch` on
the iterations of the loop over `hpitch` is never reached. -/
theorem lockedBlocks_fuel (bmp : FT_Bitmap) (tex : XenosSurface) (off : Int) (limit : Nat)
    (hh : 1 ≤ tex.height) :
    ∀ (fuel extra hpitch : Nat) (buf : List Nat), tex.hpitch ≤ hpitch + fuel →
      lockedBlocks bmp tex off limit (fuel + extra) hpitch buf =
        lockedBlocks bmp tex off limit fuel hpitch buf := by
  intro fuel
  induction fuel with
  | zero =>
    intro extra hpitch buf h
    have hn : ¬ hpitch < tex.hpitch := by omega
    cases extra with
    | zero => rfl
    | succ e => simp [lockedBlocks, hn]
  | succ fuel ih =>
    intro extra hpitch buf h
    have e : fuel + 1 + extra = (fuel + extra) + 1 := by omega
    rw [e, lockedBlocks, lockedBlocks]
    by_cases hlt : hpitch < tex.hpitch
    · simp only [if_pos hlt]
      cases lockedRows bmp tex off limit hpitch bmp.rows 0 buf with
      | none => rfl
      | some r =>
        cases r with
        | ok buf1 => exact ih extra (hpitch + tex.height) buf1 (by omega)
        | outside k => rfl
    · simp only [if_neg hlt]

/-- With a logical height of 0 and a row count that is not 0, the loop over
`hpitch` completes for no bound on its iterations. -/
theorem lockedBlocks_endless (bmp : FT_Bitmap) (tex : XenosSurface) (off : Int) (limit : Nat)
    (hh : tex.height = 0) (hpitch : Nat) (hlt : hpitch < tex.hpitch) :
    ∀ (fuel : Nat) (buf : List Nat),
      returned (lockedBlocks bmp tex off limit fuel hpitch buf) = none := by
  intro fuel
  induction fuel with
  | zero =>
    intro buf
    simp [lockedBlocks, hlt, returned]
  | succ fuel ih =>
    intro buf
    rw [lockedBlocks, if_pos hlt]
    cases lockedRows bmp tex off limit hpitch bmp.rows 0 buf with
    | none => rfl
    | some r =>
      cases r with
      | ok buf1 =>
        show returned (lockedBlocks bmp tex off limit fuel (hpitch + tex.height) buf1) = none
        rw [hh]
        exact ih buf1
      | outside k => rfl

theorem applyWritesAt_length (size : Nat) (off : Int) :
    ∀ (log : List (Nat × Nat)) (buf buf1 : List Nat),
      applyWritesAt size off buf log = Access.ok buf1 → buf1.length = buf.length := by
  intro log
  induction log with
  | nil =>
    intro buf buf1 h
    simp only [applyWritesAt, Access.ok.injEq] at h
    rw [← h]
  | cons p rest ih =>
    intro buf buf1 h
    rw [applyWritesAt] at h
    split_ifs at h
    · rw [ih _ _ h, List.length_set]

theorem lockedTiles_length (bmp : FT_Bitmap) (tex : XenosSurface) (off : Int)
    (limit y rowBase : Nat) :
    ∀ (fuel wpitch : Nat) (buf buf1 : List Nat),
      lockedTiles bmp tex off limit y rowBase fuel wpitch buf = some (Access.ok buf1) →
      buf1.length = buf.length := by
  intro fuel
  induction fuel with
  | zero =>
    intro wpitch buf buf1 h
    rw [lockedTiles] at h
    split_ifs at h
    simp only [Option.some.injEq, Access.ok.injEq] at h
    rw [← h]
  | succ fuel ih =>
    intro wpitch buf buf1 h
    rw [lockedTiles] at h
    split_ifs at h
    · cases hw : applyWritesAt (tex.hpitch * tex.wpitch) off buf
          (copyRowLog bmp.buffer limit bmp.width ((y : Int) * bmp.pitch)
            (rowBase * tex.wpitch + wpitch)) with
      | ok buf2 =>
        rw [hw] at h
        rw [ih _ _ _ h, applyWritesAt_length _ _ _ _ _ hw]
      | outside k =>
        rw [hw] at h
        simp at h
    · simp only [Option.some.injEq, Access.ok.injEq] at h
      rw [← h]

theorem lockedRows_length (bmp : FT_Bitmap) (tex : XenosSurface) (off : Int)
    (limit hpitch : Nat) :
    ∀ (n y : Nat) (buf buf1 : List Nat),
      lockedRows bmp tex off limit hpitch n y buf = some (Access.ok buf1) →
      buf1.length = buf.length := by
  intro n
  induction n with
  | zero =>
    intro y buf buf1 h
    simp only [lockedRows, Option.some.injEq, Access.ok.injEq] at h
    rw [← h]
  | succ n ih =>
    intro y buf buf1 h
    rw [lockedRows] at h
    cases hq : lockedTiles bmp tex off limit y (y + hpitch) tex.wpitch 0 buf with
    | none => rw [hq] at h; simp at h
    | some r =>
      cases r with
      | ok buf2 =>
        rw [hq] at h
        rw [ih _ _ _ h, lockedTiles_length _ _ _ _ _ _ _ _ _ _ hq]
      | outside k => rw [hq] at h; simp at h

/-- The copy loops of `createText` leave the texture with as many bytes as it
had: a run that completes has stored every byte on a byte of `base`. -/
theorem lockedBlocks_length (bmp : FT_Bitmap) (tex : XenosSurface) (off : Int) (limit : Nat) :
    ∀ (fuel hpitch : Nat) (buf buf1 : List Nat),
      lockedBlocks bmp tex off limit fuel hpitch buf = some (Access.ok buf1) →
      buf1.length = buf.length := by
  intro fuel
  induction fuel with
  | zero =>
    intro hpitch buf buf1 h
    rw [lockedBlocks] at h
    split_ifs at h
    simp only [Option.some.injEq, Access.ok.injEq] at h
    rw [← h]
  | succ fuel ih =>
    intro hpitch buf buf1 h
    rw [lockedBlocks] at h
    split_ifs at h
    · cases hq : lockedRows bmp tex off limit hpitch bmp.rows 0 buf with
      | none => rw [hq] at h; simp at h
      | some r =>
        cases r with
        | ok buf2 =>
          rw [hq] at h
          rw [ih _ _ _ h, lockedRows_length _ _ _ _ _ _ _ _ _ hq]
        | outside k => rw [hq] at h; simp at h
    · simp only [Option.some.injEq, Access.ok.injEq] at h
      rw [← h]

/-- On the sample face `createText` of a text of ten `A` stores outside its
texture: the texture has 4096 bytes, the pointer locked for the tenth glyph
is `base + 3850`, and the first byte of the third bitmap row goes to
`base[4106]`. The guard `dst < dst_limit` does not stop it, `dst_limit` being
4096 bytes after the locked pointer. -/
theorem createText_stores_outside :
    (createTextSurface sampleEnv sampleFresh [65, 65, 65, 65, 65, 65, 65, 65, 65, 65] 0).hpitch *
        (createTextSurface sampleEnv sampleFresh [65, 65, 65, 65, 65, 65, 65, 65, 65, 65] 0).wpitch
        = 4096 ∧
      storedOutside
          (createText sampleEnv sampleLock 0 sampleFresh [65, 65, 65, 65, 65, 65, 65, 65, 65, 65] 0 0)
        = some 4106 := by
  decide

end FreeTypeGX
